import Mathlib

/-!
Verification development for the Flexible-HBBFT consensus core.

The development shallowly embeds the two Rust source files of the repository,
src/consensus/src/aggregator.rs and src/consensus/src/core.rs, as executable
Lean definitions, and proves or refutes the frozen claims about them.

Modelling conventions:
- Machine integers (u64, usize, u8) are natural numbers; wrapping arithmetic
  is written with an explicit modulus U64 where the source performs unchecked
  usize or u64 arithmetic.
- HashMap and HashSet become association lists and duplicate-free lists with
  executable lookup, in-place update and membership; BTreeMap becomes a
  sorted association list.
- Cryptographic material (signatures, threshold shares, the combined
  threshold signature) lives outside the two source files, in external
  crates and in files of this repository that are not available (messages.rs,
  config.rs, commitor.rs, synchronizer.rs, mempool.rs).  Those parts are
  modelled from the spec, each with a doc comment saying so.
-/

set_option linter.unusedVariables false

namespace FlexHBBFT

/-- Two to the sixty-fourth: the wrap-around modulus of u64 and (on the
64-bit targets this repository builds for) usize arithmetic. -/
def U64 : ℕ := 2 ^ 64

/-- PublicKey (crypto crate) is an opaque identifier; modelled as a natural
number. -/
abbrev PublicKey := ℕ

/-- Signature (crypto crate) is opaque; the core never inspects it. -/
abbrev Signature := Unit

/-- Association-list lookup, the model of HashMap::get. -/
def alookup {K V : Type} [DecidableEq K] : List (K × V) → K → Option V
  | [], _ => none
  | (k', v) :: t, k => if k' = k then some v else alookup t k

/-- Lookup with a default, the model of entry().or_insert reads. -/
def alookupD {K V : Type} [DecidableEq K] (m : List (K × V)) (k : K) (d : V) : V :=
  (alookup m k).getD d

/-- In-place update, the model of writing through a HashMap entry: if the key
is present its value is replaced in place, otherwise the pair is appended at
the front of the tail position where the search ended. -/
def aset {K V : Type} [DecidableEq K] : List (K × V) → K → V → List (K × V)
  | [], k, v => [(k, v)]
  | (k', v') :: t, k, v => if k' = k then (k, v) :: t else (k', v') :: aset t k v

/-- HashSet::insert, keeping the list duplicate-free. -/
def sinsert {A : Type} [DecidableEq A] (a : A) (s : List A) : List A :=
  if a ∈ s then s else a :: s

/-- Committee, modelled from the spec: the Committee type lives in config.rs,
which is not under src/.  The spec (section 3) gives it N member nodes with
per-node stake, a stable index for each node, a quorum threshold of 2f+1
stake equivalents and a random-coin threshold of f+1 stake equivalents.  The
two source files consult exactly the five operations below. -/
structure Committee where
  size : ℕ
  stake : PublicKey → ℕ
  quorumThreshold : ℕ
  randomCoinThreshold : ℕ
  idOf : PublicKey → ℕ

/-- RBC_ECHO from core.rs. -/
def RBC_ECHO : ℕ := 0
/-- RBC_READY from core.rs. -/
def RBC_READY : ℕ := 1
/-- PRE_ONE from core.rs. -/
def PRE_ONE : ℕ := 0
/-- PRE_TWO from core.rs. -/
def PRE_TWO : ℕ := 1
/-- VAL_PHASE from core.rs. -/
def VAL_PHASE : ℕ := 0
/-- MUX_PHASE from core.rs. -/
def MUX_PHASE : ℕ := 1
/-- OPT from core.rs. -/
def OPT : ℕ := 1
/-- PES from core.rs. -/
def PES : ℕ := 0

/-- Block, modelled from the spec (messages.rs is not under src/): author,
epoch, height, payload digests; the signature is opaque and elided. -/
structure Block where
  author : PublicKey
  epoch : ℕ
  height : ℕ
  payload : List ℕ
deriving DecidableEq, Repr

/-- Digest, modelled from the spec: a collision-free cryptographic hash of a
block.  Since the core never inspects digests except to thread them from an
EchoVote into the ReadyVote it emits, a digest is identified with the block
it digests. -/
abbrev Digest := Block

/-- EchoVote, modelled from the spec (messages.rs is not under src/). -/
structure EchoVote where
  author : PublicKey
  epoch : ℕ
  height : ℕ
  digest : Digest
  signature : Signature
deriving DecidableEq, Repr

/-- ReadyVote, modelled from the spec (messages.rs is not under src/). -/
structure ReadyVote where
  author : PublicKey
  epoch : ℕ
  height : ℕ
  digest : Digest
  signature : Signature
deriving DecidableEq, Repr

/-- RBCProof, modelled from the spec: epoch, height, the list of
(author, signature) votes that crossed the threshold, and the ECHO or READY
tag. -/
structure RBCProof where
  epoch : ℕ
  height : ℕ
  votes : List (PublicKey × Signature)
  tag : ℕ
deriving DecidableEq, Repr

/-- Prepare, modelled from the spec (messages.rs is not under src/). -/
structure Prepare where
  author : PublicKey
  epoch : ℕ
  height : ℕ
  phase : ℕ
  val : ℕ
  signature : Signature
deriving DecidableEq, Repr

/-- ABAVal, modelled from the spec (messages.rs is not under src/). -/
structure ABAVal where
  author : PublicKey
  epoch : ℕ
  height : ℕ
  round : ℕ
  val : ℕ
  phase : ℕ
  signature : Signature
deriving DecidableEq, Repr

/-- ABAOutput, modelled from the spec (messages.rs is not under src/). -/
structure ABAOutput where
  author : PublicKey
  epoch : ℕ
  height : ℕ
  round : ℕ
  val : ℕ
  signature : Signature
deriving DecidableEq, Repr

/-- RandomnessShare, modelled from the spec (messages.rs is not under src/).
The share content is determined by the signer and the (epoch, height, round)
tuple; sigShare carries the opaque share value handed to the threshold
combiner. -/
structure RandomnessShare where
  author : PublicKey
  epoch : ℕ
  height : ℕ
  round : ℕ
  sigShare : ℕ
deriving DecidableEq, Repr

/-- ConsensusError, the error kinds of error.rs (not under src/) that the two
source files raise, plus the fuel marker used by the embedding for the
mutually recursive handlers of core.rs. -/
inductive ConsensusError where
  | authorityReuseInRBCVote (a : PublicKey)
  | authorityReuseInPrepare (a : PublicKey)
  | authorityReuseInCoin (a : PublicKey)
  | invalidMessage
  | fuelOut
deriving DecidableEq, Repr

/-- PublicKeySet (threshold_crypto crate), modelled from the spec: the only
operation the sources use is combine_signatures over a sorted map of
(committee id, share) pairs, which deterministically either produces the
bytes of the combined threshold signature or fails. -/
def PublicKeySet : Type := List (ℕ × ℕ) → Option (List ℕ)

/-- BTreeMap::insert on a sorted association list with natural-number keys. -/
def btreeInsert : List (ℕ × ℕ) → ℕ → ℕ → List (ℕ × ℕ)
  | [], k, v => [(k, v)]
  | (k', v') :: t, k, v =>
    if k < k' then (k, v) :: (k', v') :: t
    else if k = k' then (k, v) :: t
    else (k', v') :: btreeInsert t k v

/-- The sigs map built in RandomCoinMaker::append: insert every share under
its author's committee id into a BTreeMap. -/
def btreeOfShares (c : Committee) (shs : List RandomnessShare) : List (ℕ × ℕ) :=
  shs.foldl (fun m sh => btreeInsert m (c.idOf sh.author) sh.sigShare) []

/-- usize::from_be_bytes over the first eight bytes of the combined
signature, as in RandomCoinMaker::append (the unwrap is total because a
combined threshold signature has 96 bytes). -/
def readU64BE (bytes : List ℕ) : ℕ :=
  ((bytes.take 8).foldl (fun a b => a * 256 + b) 0) % U64

/-- RBCProofMaker from aggregator.rs. -/
structure RBCProofMaker where
  weight : ℕ
  votes : List (PublicKey × Signature)
  used : List PublicKey
deriving DecidableEq, Repr

/-- RBCProofMaker::new. -/
def RBCProofMaker.new : RBCProofMaker := ⟨0, [], []⟩

/-- RBCProofMaker::append from aggregator.rs: first-vote guard, then push the
vote, add the author's stake, and emit a proof when the weight equals the
quorum threshold, or - for READY votes only - when it equals the random-coin
threshold. -/
def RBCProofMaker.append (m : RBCProofMaker) (epoch height : ℕ)
    (author : PublicKey) (tag : ℕ) (signature : Signature) (committee : Committee) :
    RBCProofMaker × Except ConsensusError (Option RBCProof) :=
  if author ∈ m.used then
    (m, .error (.authorityReuseInRBCVote author))
  else
    let m' : RBCProofMaker :=
      { weight := m.weight + committee.stake author
        votes := m.votes ++ [(author, signature)]
        used := author :: m.used }
    if m'.weight = committee.quorumThreshold ∨
        (tag = RBC_READY ∧ m'.weight = committee.randomCoinThreshold) then
      (m', .ok (some ⟨epoch, height, m'.votes, tag⟩))
    else
      (m', .ok none)

/-- PrepareMaker from aggregator.rs. -/
structure PrepareMaker where
  optnum : ℕ
  pesnum : ℕ
  used : List PublicKey
deriving DecidableEq, Repr

/-- PrepareMaker::new. -/
def PrepareMaker.new : PrepareMaker := ⟨0, 0, []⟩

/-- PrepareMaker::append from aggregator.rs: first-vote guard, accumulate the
author's stake on the OPT or PES side, and decide exactly when the total
stake equals the quorum threshold. -/
def PrepareMaker.append (m : PrepareMaker) (p : Prepare) (committee : Committee) :
    PrepareMaker × Except ConsensusError (Option (ℕ × Bool)) :=
  if p.author ∈ m.used then
    (m, .error (.authorityReuseInPrepare p.author))
  else
    let m' : PrepareMaker :=
      if p.val = OPT then
        { optnum := m.optnum + committee.stake p.author, pesnum := m.pesnum,
          used := p.author :: m.used }
      else
        { optnum := m.optnum, pesnum := m.pesnum + committee.stake p.author,
          used := p.author :: m.used }
    let total := m'.optnum + m'.pesnum
    if total = committee.quorumThreshold then
      if p.phase = PRE_ONE then
        if committee.quorumThreshold ≤ m'.optnum then (m', .ok (some (OPT, true)))
        else if 0 < m'.optnum then (m', .ok (some (OPT, false)))
        else (m', .ok (some (PES, false)))
      else if p.phase = PRE_TWO then
        if committee.quorumThreshold ≤ m'.pesnum then (m', .ok (some (PES, true)))
        else if 0 < m'.pesnum then (m', .ok (some (PES, false)))
        else (m', .ok (some (OPT, false)))
      else (m', .ok none)
    else (m', .ok none)

/-- RandomCoinMaker from aggregator.rs. -/
structure RandomCoinMaker where
  weight : ℕ
  shares : List RandomnessShare
  used : List PublicKey
deriving DecidableEq, Repr

/-- RandomCoinMaker::new. -/
def RandomCoinMaker.new : RandomCoinMaker := ⟨0, [], []⟩

/-- RandomCoinMaker::append from aggregator.rs: first-share guard, push the
share, add the author's stake; at exactly the random-coin threshold, combine
the shares (keyed by committee id in a BTreeMap) and, if the combine
succeeds, return the first eight signature bytes read big-endian, modulo
two. -/
def RandomCoinMaker.append (m : RandomCoinMaker) (share : RandomnessShare)
    (committee : Committee) (pkSet : PublicKeySet) :
    RandomCoinMaker × Except ConsensusError (Option ℕ) :=
  if share.author ∈ m.used then
    (m, .error (.authorityReuseInCoin share.author))
  else
    let m' : RandomCoinMaker :=
      { weight := m.weight + committee.stake share.author
        shares := m.shares ++ [share]
        used := share.author :: m.used }
    if m'.weight = committee.randomCoinThreshold then
      match pkSet (btreeOfShares committee m'.shares) with
      | some sig => (m', .ok (some (readU64BE sig % 2)))
      | none => (m', .ok none)
    else (m', .ok none)

/-- Aggregator from aggregator.rs: the four keyed sub-aggregator maps. -/
structure Aggregator where
  committee : Committee
  shareCoinAggregators : List ((ℕ × ℕ × ℕ) × RandomCoinMaker)
  echoVoteAggregators : List ((ℕ × ℕ) × RBCProofMaker)
  readyVoteAggregators : List ((ℕ × ℕ) × RBCProofMaker)
  prepareVoteAggregators : List ((ℕ × ℕ × ℕ) × PrepareMaker)

/-- Aggregator::new. -/
def Aggregator.new (committee : Committee) : Aggregator :=
  ⟨committee, [], [], [], []⟩

/-- Aggregator::add_rbc_echo_vote: entry-or-insert the (epoch, height) echo
maker, then append. -/
def Aggregator.addRBCEchoVote (ag : Aggregator) (vote : EchoVote) :
    Aggregator × Except ConsensusError (Option RBCProof) :=
  let key := (vote.epoch, vote.height)
  let mk := alookupD ag.echoVoteAggregators key RBCProofMaker.new
  let r := mk.append vote.epoch vote.height vote.author RBC_ECHO vote.signature ag.committee
  ({ ag with echoVoteAggregators := aset ag.echoVoteAggregators key r.1 }, r.2)

/-- Aggregator::add_rbc_ready_vote: entry-or-insert the (epoch, height) ready
maker, then append. -/
def Aggregator.addRBCReadyVote (ag : Aggregator) (vote : ReadyVote) :
    Aggregator × Except ConsensusError (Option RBCProof) :=
  let key := (vote.epoch, vote.height)
  let mk := alookupD ag.readyVoteAggregators key RBCProofMaker.new
  let r := mk.append vote.epoch vote.height vote.author RBC_READY vote.signature ag.committee
  ({ ag with readyVoteAggregators := aset ag.readyVoteAggregators key r.1 }, r.2)

/-- Aggregator::add_prepare_vote: entry-or-insert the (epoch, height, phase)
prepare maker, then append. -/
def Aggregator.addPrepareVote (ag : Aggregator) (p : Prepare) :
    Aggregator × Except ConsensusError (Option (ℕ × Bool)) :=
  let key := (p.epoch, p.height, p.phase)
  let mk := alookupD ag.prepareVoteAggregators key PrepareMaker.new
  let r := mk.append p ag.committee
  ({ ag with prepareVoteAggregators := aset ag.prepareVoteAggregators key r.1 }, r.2)

/-- Aggregator::add_aba_share_coin: entry-or-insert the (epoch, height,
round) coin maker, then append. -/
def Aggregator.addABAShareCoin (ag : Aggregator) (share : RandomnessShare)
    (pkSet : PublicKeySet) : Aggregator × Except ConsensusError (Option ℕ) :=
  let key := (share.epoch, share.height, share.round)
  let mk := alookupD ag.shareCoinAggregators key RandomCoinMaker.new
  let r := mk.append share ag.committee pkSet
  ({ ag with shareCoinAggregators := aset ag.shareCoinAggregators key r.1 }, r.2)

/-- The u64 rank computed inside Aggregator::cleanup and Core::cleanup:
epoch times committee size plus height, with wrapping u64 arithmetic. -/
def rankU64 (size epoch height : ℕ) : ℕ := (epoch * size + height) % U64

/-- Aggregator::cleanup from aggregator.rs: retain in all four maps exactly
the keys whose rank strictly exceeds the rank of the (epoch, height)
argument. -/
def Aggregator.cleanup (ag : Aggregator) (epoch height : ℕ) : Aggregator :=
  let size := ag.committee.size
  let rank := rankU64 size epoch height
  { ag with
    echoVoteAggregators :=
      ag.echoVoteAggregators.filter fun kv => rank < rankU64 size kv.1.1 kv.1.2
    readyVoteAggregators :=
      ag.readyVoteAggregators.filter fun kv => rank < rankU64 size kv.1.1 kv.1.2
    prepareVoteAggregators :=
      ag.prepareVoteAggregators.filter fun kv => rank < rankU64 size kv.1.1 kv.1.2.1
    shareCoinAggregators :=
      ag.shareCoinAggregators.filter fun kv => rank < rankU64 size kv.1.1 kv.1.2.1 }

/-- Core::rank from core.rs: usize arithmetic (wrapping on the 64-bit
targets), then reduction modulo MAX_BLOCK_BUFFER.  MAX_BLOCK_BUFFER is
declared in commitor.rs, which is not under src/; the spec (section 4.6)
specifies only that it is the capacity of the commit ring and strictly
exceeds the fallback window, so the embedding carries it as the parameter
mbb. -/
def Core.rank (mbb : ℕ) (epoch height : ℕ) (committee : Committee) : ℕ :=
  ((epoch * committee.size + height) % U64) % mbb

/-- ConsensusMessage from core.rs. -/
inductive ConsensusMessage where
  | RBCValMsg (b : Block)
  | RBCEchoMsg (v : EchoVote)
  | RBCReadyMsg (v : ReadyVote)
  | ABAValMsg (v : ABAVal)
  | ABAMuxMsg (v : ABAVal)
  | ABACoinShareMsg (s : RandomnessShare)
  | ABAOutputMsg (o : ABAOutput)
  | PrePareMsg (p : Prepare)
  | LoopBackMsg (b : Block)
  | SyncRequestMsg (epoch height : ℕ) (sender : PublicKey)
  | SyncReplyMsg (b : Block)
deriving DecidableEq, Repr

/-- The outward effects a handler performs: network transmissions through
Synchronizer::transmit, commit-buffer operations of the Commitor, and the
mempool cleanup call.  Persistent-store writes are part of the state. -/
inductive Out where
  | send (recipient : Option PublicKey) (m : ConsensusMessage)
  | bufferBlock (b : Block)
  | filterBlock (rank : ℕ)
  | mempoolCleanup (digests : List ℕ) (epoch height : ℕ)
deriving DecidableEq, Repr

/-- Whether an effect is a network transmission. -/
def Out.isSend : Out → Bool
  | .send _ _ => true
  | _ => false

/-- The network transmissions among a list of effects. -/
def sends (l : List Out) : List Out := l.filter Out.isSend

/-- The immutable per-node context: the node's key, the committee, the
Parameters fields the core reads (fault, exp, fallback window), the
MAX_BLOCK_BUFFER capacity, and the external collaborators modelled from the
spec - the mempool payload source and payload verifier, and the threshold
combiner. -/
structure Ctx where
  name : PublicKey
  committee : Committee
  fault : ℕ
  exp : ℕ
  fallbackWindow : ℕ
  mbb : ℕ
  payloadFor : ℕ → List ℕ
  mempoolVerify : Block → Bool
  pkSet : PublicKeySet

/-- The mutable fields of the Core struct from core.rs.  The persistent
block store (an external collaborator in the spec) is carried as a map from
rank keys to blocks so that handle_sync_request and the synchronizer's
block_request can read what store_block wrote. -/
structure CState where
  epoch : ℕ
  height : ℕ
  fallback : ℕ
  aggregator : Aggregator
  store : List (ℕ × Block)
  buffers : List ((ℕ × ℕ) × Bool)
  rbcProofs : List ((ℕ × ℕ × ℕ) × RBCProof)
  rbcReady : List (ℕ × ℕ)
  rbcEpochOutputs : List (ℕ × List ℕ)
  prepareFlags : List (ℕ × ℕ)
  abaValues : List ((ℕ × ℕ × ℕ) × (List PublicKey × List PublicKey))
  abaValuesFlag : List ((ℕ × ℕ × ℕ) × (Bool × Bool))
  abaMuxValues : List ((ℕ × ℕ × ℕ) × (List PublicKey × List PublicKey))
  abaMuxFlags : List ((ℕ × ℕ × ℕ) × (Bool × Bool))
  abaOutputs : List ((ℕ × ℕ × ℕ) × List PublicKey)
  abaEnds : List ((ℕ × ℕ) × Bool)

/-- The result of running a handler: the state after it (mutations made
before an error stand, as with the question-mark operator on &mut self),
the effects emitted so far, and the outcome. -/
structure Res (α : Type) where
  st : CState
  out : List Out
  val : Except ConsensusError α

/-- A handler computation over the core state. -/
def M (α : Type) : Type := CState → Res α

/-- Return without touching the state. -/
def M.pure {α : Type} (a : α) : M α := fun s => ⟨s, [], .ok a⟩

/-- Sequencing with the error semantics of the question-mark operator: an
error stops the continuation but keeps the state and effects produced so
far. -/
def M.bind {α β : Type} (x : M α) (f : α → M β) : M β := fun s =>
  let r := x s
  match r.val with
  | .error e => ⟨r.st, r.out, .error e⟩
  | .ok a =>
    let r2 := f a r.st
    ⟨r2.st, r.out ++ r2.out, r2.val⟩

instance : Monad M where
  pure := M.pure
  bind := M.bind

/-- Read the state. -/
def getS : M CState := fun s => ⟨s, [], .ok s⟩

/-- Update the state. -/
def modifyS (f : CState → CState) : M Unit := fun s => ⟨f s, [], .ok ()⟩

/-- Emit an effect. -/
def emit (o : Out) : M Unit := fun s => ⟨s, [o], .ok ()⟩

/-- Run an Aggregator operation against the aggregator field, as the
aggregator methods do on &mut self. -/
def liftAgg {α : Type} (f : Aggregator → Aggregator × Except ConsensusError α) : M α :=
  fun s => ⟨{ s with aggregator := (f s.aggregator).1 }, [], (f s.aggregator).2⟩

/-- Fail with an error unless the condition holds. -/
def ensureM (p : Prop) [Decidable p] (e : ConsensusError) : M Unit :=
  fun s => if p then ⟨s, [], .ok ()⟩ else ⟨s, [], .error e⟩

/-- Read of a two-slot array [T; 2] at a value index. -/
def pget {α : Type} (p : α × α) (i : ℕ) : α := if i = 0 then p.1 else p.2

/-- Write of a two-slot array [T; 2] at a value index. -/
def pset {α : Type} (p : α × α) (i : ℕ) (v : α) : α × α :=
  if i = 0 then (v, p.2) else (p.1, v)

/-- Core::store_block: record delivery in buffers and write the block into
the persistent store under its rank key.  Block::rank is declared in
messages.rs (not under src/); the spec says the store key is the 8-byte
rank(e,h), the same rank the core computes, so it is modelled as
Core::rank. -/
def storeBlockM (ctx : Ctx) (b : Block) : M Unit :=
  modifyS fun s =>
    { s with
      buffers := aset s.buffers (b.epoch, b.height) true
      store := aset s.store (Core.rank ctx.mbb b.epoch b.height ctx.committee) b }

/-- The call graph of the mutually recursive handler methods of core.rs.
The abaValQuorum constructor is the tail of handle_aba_val after the
binary-value amplification (the source inlines it; the embedding names it
so that the two amplification branches can share it), and fallbackLoop is
the height loop inside fallback. -/
inductive Call where
  | generateRBCProposal
  | handleRBCVal (b : Block)
  | handleRBCEcho (v : EchoVote)
  | handleRBCReady (v : ReadyVote)
  | processRBCOutput (epoch height : ℕ)
  | rbcAdvance (epoch : ℕ)
  | fallbackCheck (curEpoch : ℕ)
  | fallbackLoop (fallEpoch : ℕ) (heights : List ℕ)
  | invokePrepare (epoch height : ℕ) (val : ℕ)
  | handlePrepare (p : Prepare)
  | handleABAVal (v : ABAVal)
  | abaValQuorum (epoch height round val nums : ℕ)
  | handleABAMux (v : ABAVal)
  | handleABAShare (sh : RandomnessShare)
  | handleABAOutput (o : ABAOutput)
  | processABAOutput (epoch height round : ℕ) (val : ℕ)
  | abaAdvanceRound (epoch height round : ℕ) (val : ℕ)
  | handleSyncRequest (epoch height : ℕ) (sender : PublicKey)
  | handleSyncReply (b : Block)
deriving DecidableEq

/-- The fueled executor of the handler family of core.rs.  Fuel only bounds
the mutual recursion of the embedding; running out of fuel is reported as
the distinguished fuelOut error.  Signature verification lives in
messages.rs (not under src/) and is modelled from the spec as succeeding,
except that ABAVal carries val in {0,1} (spec, section 3), which the source
relies on when indexing its two-slot arrays. -/
def exec (ctx : Ctx) : ℕ → Call → M Unit
  | 0, _ => fun s => ⟨s, [], .error .fuelOut⟩
  | n + 1, c =>
    match c with
    | .generateRBCProposal => do
      let s ← getS
      if s.height < ctx.fault then pure ()
      else do
        let b : Block := ⟨ctx.name, s.epoch, s.height, ctx.payloadFor s.epoch⟩
        emit (.send none (.RBCValMsg b))
        exec ctx n (.handleRBCVal b)
    | .handleRBCVal b => do
      if 0 < ctx.exp ∧ ctx.mempoolVerify b = false then pure ()
      else do
        storeBlockM ctx b
        let vote : EchoVote := ⟨ctx.name, b.epoch, b.height, b, ()⟩
        emit (.send none (.RBCEchoMsg vote))
        exec ctx n (.handleRBCEcho vote)
    | .handleRBCEcho v => do
      let r ← liftAgg fun ag => ag.addRBCEchoVote v
      match r with
      | none => pure ()
      | some proof => do
        modifyS fun s =>
          { s with
            rbcProofs := aset s.rbcProofs (proof.epoch, proof.height, proof.tag) proof
            rbcReady := sinsert (v.epoch, v.height) s.rbcReady }
        let ready : ReadyVote := ⟨ctx.name, v.epoch, v.height, v.digest, ()⟩
        emit (.send none (.RBCReadyMsg ready))
        exec ctx n (.invokePrepare v.epoch v.height OPT)
        exec ctx n (.handleRBCReady ready)
    | .handleRBCReady v => do
      let r ← liftAgg fun ag => ag.addRBCReadyVote v
      match r with
      | none => pure ()
      | some proof => do
        let s ← getS
        modifyS fun s1 =>
          { s1 with rbcProofs := aset s1.rbcProofs (proof.epoch, proof.height, proof.tag) proof }
        if (v.epoch, v.height) ∉ s.rbcReady ∧
            proof.votes.length = ctx.committee.randomCoinThreshold then do
          modifyS fun s1 => { s1 with rbcReady := sinsert (v.epoch, v.height) s1.rbcReady }
          let ready : ReadyVote := ⟨ctx.name, v.epoch, v.height, v.digest, ()⟩
          emit (.send none (.RBCReadyMsg ready))
          exec ctx n (.invokePrepare v.epoch v.height OPT)
          exec ctx n (.handleRBCReady ready)
        else if proof.votes.length = ctx.committee.quorumThreshold then
          exec ctx n (.processRBCOutput v.epoch v.height)
        else pure ()
    | .processRBCOutput e h => do
      let s ← getS
      let outs := alookupD s.rbcEpochOutputs e []
      modifyS fun s1 => { s1 with rbcEpochOutputs := aset s1.rbcEpochOutputs e outs }
      if h ∈ outs then pure ()
      else
        -- Synchronizer::block_request (synchronizer.rs is not under src/),
        -- modelled from the spec: return the block if locally available,
        -- else dispatch a SyncRequest and yield none.
        match alookup s.store (Core.rank ctx.mbb e h ctx.committee) with
        | none => emit (.send none (.SyncRequestMsg e h ctx.name))
        | some b => do
          let outs1 := sinsert h outs
          modifyS fun s1 => { s1 with rbcEpochOutputs := aset s1.rbcEpochOutputs e outs1 }
          emit (.bufferBlock b)
          if outs1.length = ctx.committee.quorumThreshold then do
            exec ctx n (.rbcAdvance (e + 1))
            exec ctx n (.fallbackCheck e)
          else pure ()
    | .rbcAdvance e => do
      let s ← getS
      if s.epoch < e then do
        modifyS fun s1 => { s1 with epoch := e }
        exec ctx n .generateRBCProposal
      else pure ()
    | .fallbackCheck cur => do
      let s ← getS
      if s.fallback ≤ cur then
        exec ctx n (.fallbackLoop (cur - s.fallback) (List.range ctx.committee.size))
      else pure ()
    | .fallbackLoop e hs =>
      match hs with
      | [] => pure ()
      | h :: t => do
        let s ← getS
        if (e, h) ∈ s.prepareFlags then exec ctx n (.fallbackLoop e t)
        else do
          exec ctx n (.invokePrepare e h PES)
          exec ctx n (.fallbackLoop e t)
    | .invokePrepare e h val => do
      let s ← getS
      if (e, h) ∈ s.prepareFlags then pure ()
      else do
        modifyS fun s1 => { s1 with prepareFlags := sinsert (e, h) s1.prepareFlags }
        let p : Prepare := ⟨ctx.name, e, h, PRE_ONE, val, ()⟩
        emit (.send none (.PrePareMsg p))
        exec ctx n (.handlePrepare p)
    | .handlePrepare p => do
      let r ← liftAgg fun ag => ag.addPrepareVote p
      match r with
      | none => pure ()
      | some d =>
        if d.2 then
          if p.phase = PRE_ONE then exec ctx n (.processRBCOutput p.epoch p.height)
          else if p.phase = PRE_TWO then
            emit (.filterBlock (Core.rank ctx.mbb p.epoch p.height ctx.committee))
          else pure ()
        else
          if p.phase = PRE_ONE then do
            let p2 : Prepare := ⟨ctx.name, p.epoch, p.height, PRE_TWO, d.1, ()⟩
            emit (.send none (.PrePareMsg p2))
            exec ctx n (.handlePrepare p2)
          else if p.phase = PRE_TWO then do
            let av : ABAVal := ⟨ctx.name, p.epoch, p.height, 0, d.1, VAL_PHASE, ()⟩
            emit (.send none (.ABAValMsg av))
            exec ctx n (.handleABAVal av)
          else pure ()
    | .handleABAVal v => do
      ensureM (v.val ≤ 1) .invalidMessage
      let s ← getS
      let cur := alookupD s.abaValues (v.epoch, v.height, v.round) ([], [])
      modifyS fun s1 =>
        { s1 with abaValues := aset s1.abaValues (v.epoch, v.height, v.round) cur }
      if v.author ∈ pget cur v.val then pure ()
      else do
        let cur1 := pset cur v.val (sinsert v.author (pget cur v.val))
        modifyS fun s1 =>
          { s1 with abaValues := aset s1.abaValues (v.epoch, v.height, v.round) cur1 }
        if (pget cur1 v.val).length = ctx.committee.randomCoinThreshold ∧
            ctx.name ∉ pget cur1 v.val then do
          let other : ABAVal := ⟨ctx.name, v.epoch, v.height, v.round, v.val, VAL_PHASE, ()⟩
          emit (.send none (.ABAValMsg other))
          let cur2 := pset cur1 v.val (sinsert ctx.name (pget cur1 v.val))
          modifyS fun s1 =>
            { s1 with abaValues := aset s1.abaValues (v.epoch, v.height, v.round) cur2 }
          exec ctx n
            (.abaValQuorum v.epoch v.height v.round v.val ((pget cur1 v.val).length + 1))
        else
          exec ctx n (.abaValQuorum v.epoch v.height v.round v.val (pget cur1 v.val).length)
    | .abaValQuorum e h r val nums =>
      if nums = ctx.committee.quorumThreshold then do
        let s ← getS
        let vf := alookupD s.abaValuesFlag (e, h, r) (false, false)
        modifyS fun s1 =>
          { s1 with abaValuesFlag := aset s1.abaValuesFlag (e, h, r) vf }
        if pget vf OPT = false ∧ pget vf PES = false then do
          modifyS fun s1 =>
            { s1 with abaValuesFlag := aset s1.abaValuesFlag (e, h, r) (pset vf val true) }
          let mux : ABAVal := ⟨ctx.name, e, h, r, val, MUX_PHASE, ()⟩
          emit (.send none (.ABAMuxMsg mux))
          exec ctx n (.handleABAMux mux)
        else
          modifyS fun s1 =>
            { s1 with abaValuesFlag := aset s1.abaValuesFlag (e, h, r) (pset vf val true) }
      else pure ()
    | .handleABAMux v => do
      ensureM (v.val ≤ 1) .invalidMessage
      let s ← getS
      let cur := alookupD s.abaMuxValues (v.epoch, v.height, v.round) ([], [])
      modifyS fun s1 =>
        { s1 with abaMuxValues := aset s1.abaMuxValues (v.epoch, v.height, v.round) cur }
      if v.author ∈ pget cur v.val then pure ()
      else do
        let cur1 := pset cur v.val (sinsert v.author (pget cur v.val))
        modifyS fun s1 =>
          { s1 with abaMuxValues := aset s1.abaMuxValues (v.epoch, v.height, v.round) cur1 }
        let s2 ← getS
        let mf := alookupD s2.abaMuxFlags (v.epoch, v.height, v.round) (false, false)
        modifyS fun s1 =>
          { s1 with abaMuxFlags := aset s1.abaMuxFlags (v.epoch, v.height, v.round) mf }
        if pget mf PES = false ∧ pget mf OPT = false then
          if ctx.committee.quorumThreshold ≤
              (pget cur1 OPT).length + (pget cur1 PES).length then do
            let s3 ← getS
            let vf := alookupD s3.abaValuesFlag (v.epoch, v.height, v.round) (false, false)
            modifyS fun s1 =>
              { s1 with abaValuesFlag := aset s1.abaValuesFlag (v.epoch, v.height, v.round) vf }
            let mfNew :=
              if pget vf PES = true ∧ pget vf OPT = true then
                (decide (0 < (pget cur1 PES).length), decide (0 < (pget cur1 OPT).length))
              else if pget vf OPT = true then
                (pget mf PES,
                  decide (ctx.committee.quorumThreshold ≤ (pget cur1 OPT).length))
              else
                (decide (ctx.committee.quorumThreshold ≤ (pget cur1 PES).length),
                  pget mf OPT)
            modifyS fun s1 =>
              { s1 with abaMuxFlags := aset s1.abaMuxFlags (v.epoch, v.height, v.round) mfNew }
            if pget mfNew PES = true ∨ pget mfNew OPT = true then do
              let share : RandomnessShare :=
                ⟨ctx.name, v.epoch, v.height, v.round, ctx.committee.idOf ctx.name⟩
              emit (.send none (.ABACoinShareMsg share))
              exec ctx n (.handleABAShare share)
            else pure ()
          else
            if pget mf PES = true ∨ pget mf OPT = true then do
              let share : RandomnessShare :=
                ⟨ctx.name, v.epoch, v.height, v.round, ctx.committee.idOf ctx.name⟩
              emit (.send none (.ABACoinShareMsg share))
              exec ctx n (.handleABAShare share)
            else pure ()
        else pure ()
    | .handleABAShare sh => do
      let r ← liftAgg fun ag => ag.addABAShareCoin sh ctx.pkSet
      match r with
      | none => pure ()
      | some coin => do
        let s ← getS
        let mf := alookupD s.abaMuxFlags (sh.epoch, sh.height, sh.round) (false, false)
        modifyS fun s1 =>
          { s1 with abaMuxFlags := aset s1.abaMuxFlags (sh.epoch, sh.height, sh.round) mf }
        if pget mf coin = true ∧ pget mf (1 - coin) = false then do
          exec ctx n (.processABAOutput sh.epoch sh.height sh.round coin)
          exec ctx n (.abaAdvanceRound sh.epoch sh.height (sh.round + 1) coin)
        else if pget mf coin = false ∧ pget mf (1 - coin) = true then
          exec ctx n (.abaAdvanceRound sh.epoch sh.height (sh.round + 1) (1 - coin))
        else
          exec ctx n (.abaAdvanceRound sh.epoch sh.height (sh.round + 1) coin)
    | .handleABAOutput o => do
      let s ← getS
      let used := alookupD s.abaOutputs (o.epoch, o.height, o.round) []
      modifyS fun s1 =>
        { s1 with abaOutputs := aset s1.abaOutputs (o.epoch, o.height, o.round) used }
      if o.author ∈ used then pure ()
      else do
        let used1 := sinsert o.author used
        modifyS fun s1 =>
          { s1 with abaOutputs := aset s1.abaOutputs (o.epoch, o.height, o.round) used1 }
        if used1.length = ctx.committee.randomCoinThreshold then do
          if ctx.name ∈ used1 then pure ()
          else do
            let own : ABAOutput := ⟨ctx.name, o.epoch, o.height, o.round, o.val, ()⟩
            emit (.send none (.ABAOutputMsg own))
            modifyS fun s1 =>
              { s1 with
                abaOutputs := aset s1.abaOutputs (o.epoch, o.height, o.round)
                  (sinsert ctx.name used1) }
          exec ctx n (.processABAOutput o.epoch o.height o.round o.val)
        else pure ()
    | .processABAOutput e h r v => do
      let s ← getS
      let ends := alookupD s.abaEnds (e, h) false
      modifyS fun s1 => { s1 with abaEnds := aset s1.abaEnds (e, h) ends }
      if ends = true then pure ()
      else do
        let s2 ← getS
        let used := alookupD s2.abaOutputs (e, h, r) []
        modifyS fun s1 => { s1 with abaOutputs := aset s1.abaOutputs (e, h, r) used }
        if ctx.name ∈ used then pure ()
        else do
          modifyS fun s1 =>
            { s1 with abaOutputs := aset s1.abaOutputs (e, h, r) (sinsert ctx.name used) }
          emit (.send none (.ABAOutputMsg ⟨ctx.name, e, h, r, v, ()⟩))
        modifyS fun s1 => { s1 with abaEnds := aset s1.abaEnds (e, h) true }
        if v = OPT then exec ctx n (.processRBCOutput e h)
        else emit (.filterBlock (Core.rank ctx.mbb e h ctx.committee))
    | .abaAdvanceRound e h r v => do
      let s ← getS
      let ends := alookupD s.abaEnds (e, h) false
      modifyS fun s1 => { s1 with abaEnds := aset s1.abaEnds (e, h) ends }
      if ends = true then pure ()
      else do
        let av : ABAVal := ⟨ctx.name, e, h, r, v, VAL_PHASE, ()⟩
        emit (.send none (.ABAValMsg av))
        exec ctx n (.handleABAVal av)
    | .handleSyncRequest e h sender => do
      let s ← getS
      match alookup s.store (Core.rank ctx.mbb e h ctx.committee) with
      | some b => emit (.send (some sender) (.SyncReplyMsg b))
      | none => pure ()
    | .handleSyncReply b => do
      storeBlockM ctx b
      exec ctx n (.processRBCOutput b.epoch b.height)

/-- The handler each inbound ConsensusMessage dispatches to in Core::run. -/
def callOf : ConsensusMessage → Call
  | .RBCValMsg b => .handleRBCVal b
  | .RBCEchoMsg v => .handleRBCEcho v
  | .RBCReadyMsg v => .handleRBCReady v
  | .ABAValMsg v => .handleABAVal v
  | .ABAMuxMsg v => .handleABAMux v
  | .ABACoinShareMsg sh => .handleABAShare sh
  | .ABAOutputMsg o => .handleABAOutput o
  | .PrePareMsg p => .handlePrepare p
  | .LoopBackMsg b => .handleRBCVal b
  | .SyncRequestMsg e h sender => .handleSyncRequest e h sender
  | .SyncReplyMsg b => .handleSyncReply b

/-- One iteration of the message branch of Core::run: a node whose height
(its committee id) is below the fault parameter skips the dispatch
entirely. -/
def recvStep (ctx : Ctx) (n : ℕ) (m : ConsensusMessage) : M Unit := fun s =>
  if s.height < ctx.fault then ⟨s, [], .ok ()⟩
  else exec ctx n (callOf m) s

/-- The events the run loop serves: the initial proposal made before the
loop, and an inbound message. -/
inductive Step where
  | start
  | recv (m : ConsensusMessage)
deriving DecidableEq

/-- Execute one run-loop event. -/
def stepRun (ctx : Ctx) (n : ℕ) : Step → M Unit
  | .start => exec ctx n .generateRBCProposal
  | .recv m => recvStep ctx n m

/-- The state Core::new builds. -/
def initState (ctx : Ctx) : CState :=
  { epoch := 0
    height := ctx.committee.idOf ctx.name
    fallback := ctx.fallbackWindow
    aggregator := Aggregator.new ctx.committee
    store := []
    buffers := []
    rbcProofs := []
    rbcReady := []
    rbcEpochOutputs := []
    prepareFlags := []
    abaValues := []
    abaValuesFlag := []
    abaMuxValues := []
    abaMuxFlags := []
    abaOutputs := []
    abaEnds := [] }

/-- Core states reachable by serving run-loop events (message handling; the
committer-driven cleanup branch is modelled separately by cleanupState).
Fuel is existentially chosen per step, and a step whose execution was
truncated by fuel is not admitted. -/
inductive Reachable (ctx : Ctx) : CState → Prop where
  | init : Reachable ctx (initState ctx)
  | step {s : CState} (st : Step) (n : ℕ) (hr : Reachable ctx s)
      (hfuel : (stepRun ctx n st s).val ≠ .error .fuelOut) :
      Reachable ctx (stepRun ctx n st s).st

/-- Core::cleanup together with the rx_commit branch of Core::run: purge the
aggregator, call the mempool cleanup, and retain in each per-instance map
exactly the keys of rank strictly above the committed rank.  aba_ends and
prepare_flags are deliberately not purged (their retain calls are commented
out in the source), and rbc_epoch_outputs is not touched. -/
def cleanupState (ctx : Ctx) (digests : List ℕ) (epoch height : ℕ)
    (s : CState) : CState × List Out :=
  let size := ctx.committee.size
  let rank := rankU64 size epoch height
  ({ s with
      aggregator := s.aggregator.cleanup epoch height
      buffers := s.buffers.filter fun kv => rank < rankU64 size kv.1.1 kv.1.2
      rbcProofs := s.rbcProofs.filter fun kv => rank < rankU64 size kv.1.1 kv.1.2.1
      rbcReady := s.rbcReady.filter fun k => rank < rankU64 size k.1 k.2
      abaValues := s.abaValues.filter fun kv => rank < rankU64 size kv.1.1 kv.1.2.1
      abaMuxValues := s.abaMuxValues.filter fun kv => rank < rankU64 size kv.1.1 kv.1.2.1
      abaValuesFlag := s.abaValuesFlag.filter fun kv => rank < rankU64 size kv.1.1 kv.1.2.1
      abaMuxFlags := s.abaMuxFlags.filter fun kv => rank < rankU64 size kv.1.1 kv.1.2.1
      abaOutputs := s.abaOutputs.filter fun kv => rank < rankU64 size kv.1.1 kv.1.2.1 },
   [.mempoolCleanup digests epoch height])

/-- The author set an echo maker has recorded under a key (empty when the
key is absent). -/
def echoUsed (ag : Aggregator) (k : ℕ × ℕ) : List PublicKey :=
  (alookupD ag.echoVoteAggregators k RBCProofMaker.new).used

/-- The author set a ready maker has recorded under a key. -/
def readyUsed (ag : Aggregator) (k : ℕ × ℕ) : List PublicKey :=
  (alookupD ag.readyVoteAggregators k RBCProofMaker.new).used

/-- The author set a prepare maker has recorded under a key. -/
def prepUsed (ag : Aggregator) (k : ℕ × ℕ × ℕ) : List PublicKey :=
  (alookupD ag.prepareVoteAggregators k PrepareMaker.new).used

/-- The author set a coin maker has recorded under a key. -/
def coinUsed (ag : Aggregator) (k : ℕ × ℕ × ℕ) : List PublicKey :=
  (alookupD ag.shareCoinAggregators k RandomCoinMaker.new).used

/-- Feeding a sequence of votes into one RBC proof maker, collecting the
result of every append. -/
def rbcAppendList (m : RBCProofMaker) (epoch height : ℕ) (tag : ℕ)
    (c : Committee) :
    List (PublicKey × Signature) →
      RBCProofMaker × List (Except ConsensusError (Option RBCProof))
  | [] => (m, [])
  | v :: t =>
    let r := m.append epoch height v.1 tag v.2 c
    let rest := rbcAppendList r.1 epoch height tag c t
    (rest.1, r.2 :: rest.2)

/-- Feeding a sequence of prepare votes into one prepare maker. -/
def prepareAppendList (m : PrepareMaker) (c : Committee) :
    List Prepare → PrepareMaker × List (Except ConsensusError (Option (ℕ × Bool)))
  | [] => (m, [])
  | p :: t =>
    let r := m.append p c
    let rest := prepareAppendList r.1 c t
    (rest.1, r.2 :: rest.2)

/-- Feeding a sequence of shares into one coin maker. -/
def coinAppendList (m : RandomCoinMaker) (c : Committee) (pkSet : PublicKeySet) :
    List RandomnessShare → RandomCoinMaker × List (Except ConsensusError (Option ℕ))
  | [] => (m, [])
  | sh :: t =>
    let r := m.append sh c pkSet
    let rest := coinAppendList r.1 c pkSet t
    (rest.1, r.2 :: rest.2)

/-- A concrete committee of four unit-stake nodes 0,1,2,3 with the spec
thresholds for f = 1: quorum 2f+1 = 3, random coin f+1 = 2. -/
def committee4 : Committee :=
  { size := 4
    stake := fun _ => 1
    quorumThreshold := 3
    randomCoinThreshold := 2
    idOf := fun p => p }

/-- A concrete context for node 0 of committee4: no fault floor, payload
verification off, empty mempool, a commit ring of capacity 8, and a
threshold combiner that succeeds with an all-zero signature (the combined
signature is uniformly random by design, so runs in which its leading
eight bytes are even are regular executions). -/
def ctx4 : Ctx :=
  { name := 0
    committee := committee4
    fault := 0
    exp := 0
    fallbackWindow := 1
    mbb := 8
    payloadFor := fun _ => []
    mempoolVerify := fun _ => true
    pkSet := fun _ => some [0, 0, 0, 0, 0, 0, 0, 0] }

/-- The state of node 0 after the initial generate_rbc_proposal of
Core::run. -/
def state0 : CState := (stepRun ctx4 20 .start (initState ctx4)).st

/-- An ABAVal message for instance (0,3), round 0, value PES, VAL phase. -/
def abaValMsg (a v : ℕ) : ConsensusMessage := .ABAValMsg ⟨a, 0, 3, 0, v, VAL_PHASE, ()⟩

/-- An ABAVal message for instance (0,3), round 0, MUX phase. -/
def abaMuxMsg (a v : ℕ) : ConsensusMessage := .ABAMuxMsg ⟨a, 0, 3, 0, v, MUX_PHASE, ()⟩

/-- A coin share for instance (0,3), round 0. -/
def abaShareMsg (a : ℕ) : ConsensusMessage := .ABACoinShareMsg ⟨a, 0, 3, 0, a⟩

/-- A run of node 0 in which peers 1 and 2 drive ABA instance (0,3) through
round 0 with value PES: two VAL votes, two MUX votes, and one coin share
(completed by the node's own share). -/
def traceC2 : List Step :=
  [.recv (abaValMsg 1 0), .recv (abaValMsg 2 0),
   .recv (abaMuxMsg 1 0), .recv (abaMuxMsg 2 0),
   .recv (abaShareMsg 1)]

/-- The state of node 0 at the end of traceC2. -/
def stateC2 : CState := traceC2.foldl (fun s st => (stepRun ctx4 20 st s).st) state0

/-- The block node 1 proposes at (0,1). -/
def blockC3 : Block := ⟨1, 0, 1, [7]⟩

/-- Node 0 after handling blockC3 once. -/
def stateC3 : CState := (stepRun ctx4 20 (.recv (.RBCValMsg blockC3)) state0).st

/-- A context whose fault floor demotes node 0 (committee id 0 < fault 1). -/
def ctxFault : Ctx := { ctx4 with fault := 1 }

/-- A state of the demoted node holding blockC3 in its persistent store
under the rank key of (0,1) - the exact situation in which a sync reply
would be due. -/
def stateFault : CState :=
  { initState ctxFault with
    store := [(Core.rank ctxFault.mbb 0 1 ctxFault.committee, blockC3)] }

/-- A proof maker that has already recorded author 1 with unit stake. -/
def mkC5 : RBCProofMaker := ⟨1, [(1, ())], [1]⟩

/-- An aggregator holding author 1 under one key of every sub-aggregator. -/
def agC5 : Aggregator :=
  { committee := committee4
    shareCoinAggregators := [((0, 0, 0), ⟨1, [⟨1, 0, 0, 0, 1⟩], [1]⟩)]
    echoVoteAggregators := [((0, 0), mkC5)]
    readyVoteAggregators := [((0, 0), mkC5)]
    prepareVoteAggregators := [((0, 0, 0), ⟨1, 0, [1]⟩)] }

/-- The OPT stake of a prepare maker after appending one vote. -/
def prepOptAfter (m : PrepareMaker) (p : Prepare) (c : Committee) : ℕ :=
  if p.val = OPT then m.optnum + c.stake p.author else m.optnum

/-- The PES stake of a prepare maker after appending one vote. -/
def prepPesAfter (m : PrepareMaker) (p : Prepare) (c : Committee) : ℕ :=
  if p.val = OPT then m.pesnum else m.pesnum + c.stake p.author

/-- A prepare maker holding one OPT vote (author 2) and one PES vote
(author 3). -/
def mkC6 : PrepareMaker := ⟨1, 1, [2, 3]⟩

/-- A third prepare vote from author 4: phase PRE_ONE, value OPT. -/
def prepC6 : Prepare := ⟨4, 0, 0, PRE_ONE, OPT, ()⟩

/-- A coin maker holding one share (author 1) at weight 1. -/
def mC8 : RandomCoinMaker := ⟨1, [⟨1, 0, 0, 0, 1⟩], [1]⟩

/-- A second coin share from author 2 for the same (0,0,0) key. -/
def shC8 : RandomnessShare := ⟨2, 0, 0, 0, 2⟩

/-- The combined-signature bytes the concrete combiner of ctx4 returns. -/
def sigC8 : List ℕ := [0, 0, 0, 0, 0, 0, 0, 0]

/-- A committee whose members all carry stake 2: cumulative stake jumps
over the quorum threshold 3 without ever equalling it. -/
def cJump2 : Committee :=
  { size := 4, stake := fun _ => 2, quorumThreshold := 3, randomCoinThreshold := 2,
    idOf := fun p => p }

/-- A committee whose members all carry stake 3: cumulative stake jumps
over the random-coin threshold 2 without ever equalling it. -/
def cJump3 : Committee :=
  { size := 4, stake := fun _ => 3, quorumThreshold := 5, randomCoinThreshold := 2,
    idOf := fun p => p }

/-- A committee whose members all carry stake 4: cumulative stake jumps
over both thresholds (2 and 3) without ever equalling either. -/
def cJump4 : Committee :=
  { size := 4, stake := fun _ => 4, quorumThreshold := 3, randomCoinThreshold := 2,
    idOf := fun p => p }

/-- Two ready votes whose stakes jump the thresholds. -/
def votesJump : List (PublicKey × Signature) := [(10, ()), (11, ())]

/-- Two prepare votes (OPT then PES) whose stakes jump the quorum. -/
def prepsJump : List Prepare :=
  [⟨10, 0, 0, PRE_ONE, OPT, ()⟩, ⟨11, 0, 0, PRE_ONE, PES, ()⟩]

/-- Two coin shares whose stakes jump the random-coin threshold. -/
def shsJump : List RandomnessShare := [⟨10, 0, 0, 0, 10⟩, ⟨11, 0, 0, 0, 11⟩]

deriving instance DecidableEq for Except

/-- The core state with the persistent-store contents erased: the Core
struct's own protocol fields.  The store is an external collaborator (spec,
section 1), so claims about the core state compare states through this
projection. -/
def sansStore (s : CState) : CState := { s with store := [] }

/-- The message kinds whose replay is silent: every kind except RBCVal and
LoopBack (whose handler re-broadcasts this node's EchoVote before hitting
the echo aggregator's first-vote guard) and SyncRequest (whose handler
re-sends the reply). -/
def replaySilent : ConsensusMessage → Prop
  | .RBCValMsg _ => False
  | .LoopBackMsg _ => False
  | .SyncRequestMsg _ _ _ => False
  | _ => True

/-- The ABA-termination invariant the code actually maintains: whenever
aba_ends marks (e,h) true, some round of aba_outputs for (e,h) holds at
least one author (process_aba_output inserts this node before setting the
end mark). -/
def AbaEndsInv (s : CState) : Prop :=
  ∀ e h, alookup s.abaEnds (e, h) = some true →
    ∃ r, alookupD s.abaOutputs (e, h, r) [] ≠ []

/-- The one-step ends/outputs relation: an aba_ends entry that is true after
a handler ran was either already true before the handler, or the handler's
final state carries at least one recorded author in some round of that
instance's aba_outputs. -/
def EndsNew (s s2 : CState) : Prop :=
  ∀ k : ℕ × ℕ, alookup s2.abaEnds k = some true →
    alookup s.abaEnds k = some true ∨
      ∃ r, alookupD s2.abaOutputs (k.1, k.2, r) [] ≠ []

/-- What a completed (not fuel-truncated) handling of a message leaves
behind in the state, as consulted by that same message's replay: the
duplicate guard each handler checks first is armed.  For RBCVal and
LoopBack either the mempool guard rejected the payload or the block is
recorded as delivered and this node's own echo is in the echo maker; for
SyncReply the block is delivered and its height is among the epoch's RBC
outputs; SyncRequest keeps no state at all. -/
def handledFact (ctx : Ctx) : ConsensusMessage → CState → Prop
  | .RBCValMsg b, s =>
    (0 < ctx.exp ∧ ctx.mempoolVerify b = false) ∨
      (alookup s.buffers (b.epoch, b.height) = some true ∧
        ctx.name ∈ echoUsed s.aggregator (b.epoch, b.height))
  | .LoopBackMsg b, s =>
    (0 < ctx.exp ∧ ctx.mempoolVerify b = false) ∨
      (alookup s.buffers (b.epoch, b.height) = some true ∧
        ctx.name ∈ echoUsed s.aggregator (b.epoch, b.height))
  | .RBCEchoMsg v, s => v.author ∈ echoUsed s.aggregator (v.epoch, v.height)
  | .RBCReadyMsg v, s => v.author ∈ readyUsed s.aggregator (v.epoch, v.height)
  | .PrePareMsg p, s => p.author ∈ prepUsed s.aggregator (p.epoch, p.height, p.phase)
  | .ABACoinShareMsg sh, s =>
    sh.author ∈ coinUsed s.aggregator (sh.epoch, sh.height, sh.round)
  | .ABAValMsg v, s => v.val ≤ 1 →
    v.author ∈ pget (alookupD s.abaValues (v.epoch, v.height, v.round) ([], [])) v.val
  | .ABAMuxMsg v, s => v.val ≤ 1 →
    v.author ∈ pget (alookupD s.abaMuxValues (v.epoch, v.height, v.round) ([], [])) v.val
  | .ABAOutputMsg o, s =>
    o.author ∈ alookupD s.abaOutputs (o.epoch, o.height, o.round) []
  | .SyncRequestMsg _ _ _, _ => True
  | .SyncReplyMsg b, s =>
    alookup s.buffers (b.epoch, b.height) = some true ∧
      b.height ∈ alookupD s.rbcEpochOutputs b.epoch []

/-- The monotone-growth preorder on core states: author sets of the four
sub-aggregators, the ABA VAL/MUX voter sets, the ABA output sets, delivered
buffers, per-epoch RBC outputs, the ready set, the prepare flags, and the
true entries of aba_ends only ever grow under message handling. -/
def Grow (s s2 : CState) : Prop :=
  (∀ k a, a ∈ echoUsed s.aggregator k → a ∈ echoUsed s2.aggregator k) ∧
  (∀ k a, a ∈ readyUsed s.aggregator k → a ∈ readyUsed s2.aggregator k) ∧
  (∀ k a, a ∈ prepUsed s.aggregator k → a ∈ prepUsed s2.aggregator k) ∧
  (∀ k a, a ∈ coinUsed s.aggregator k → a ∈ coinUsed s2.aggregator k) ∧
  (∀ k i a, a ∈ pget (alookupD s.abaValues k ([], [])) i →
    a ∈ pget (alookupD s2.abaValues k ([], [])) i) ∧
  (∀ k i a, a ∈ pget (alookupD s.abaMuxValues k ([], [])) i →
    a ∈ pget (alookupD s2.abaMuxValues k ([], [])) i) ∧
  (∀ k a, a ∈ alookupD s.abaOutputs k [] → a ∈ alookupD s2.abaOutputs k []) ∧
  (∀ k, alookup s.buffers k = some true → alookup s2.buffers k = some true) ∧
  (∀ e x, x ∈ alookupD s.rbcEpochOutputs e [] → x ∈ alookupD s2.rbcEpochOutputs e []) ∧
  (∀ k, k ∈ s.rbcReady → k ∈ s2.rbcReady) ∧
  (∀ k, k ∈ s.prepareFlags → k ∈ s2.prepareFlags) ∧
  (∀ k, alookup s.abaEnds k = some true → alookup s2.abaEnds k = some true)

/-- A state populated with entries at ranks 1 (key (0,1)) and 4 (key
(1,0)) in every per-instance map, for exercising cleanup at rank 2. -/
def sC9 : CState :=
  { initState ctx4 with
    aggregator := agC5
    buffers := [((0, 1), true), ((1, 0), true)]
    rbcProofs := [((0, 1, RBC_ECHO), ⟨0, 1, [], RBC_ECHO⟩)]
    rbcReady := [(0, 1), (1, 0)]
    rbcEpochOutputs := [(0, [1])]
    prepareFlags := [(0, 1)]
    abaValues := [((0, 1, 0), ([2], []))]
    abaValuesFlag := [((0, 1, 0), (true, false))]
    abaMuxValues := [((0, 1, 0), ([2], []))]
    abaMuxFlags := [((0, 1, 0), (true, false))]
    abaOutputs := [((0, 1, 0), [2])]
    abaEnds := [((0, 1), true)] }

-- ======================================================================
-- Theorems.
-- ======================================================================

theorem alookup_aset_self {K V : Type} [DecidableEq K] (m : List (K × V)) (k : K) (v : V) :
    alookup (aset m k v) k = some v := by
  induction m with
  | nil => simp [aset, alookup]
  | cons p t ih =>
    obtain ⟨k', v'⟩ := p
    by_cases h : k' = k
    · simp [aset, alookup, h]
    · simp [aset, alookup, h, ih]

theorem alookup_aset_ne {K V : Type} [DecidableEq K] (m : List (K × V)) (k k' : K) (v : V)
    (h : k ≠ k') : alookup (aset m k v) k' = alookup m k' := by
  induction m with
  | nil => simp [aset, alookup, h]
  | cons p t ih =>
    obtain ⟨k0, v0⟩ := p
    by_cases h0 : k0 = k
    · subst h0
      simp [aset, alookup, h]
    · simp [aset, alookup, h0, ih]

theorem aset_self {K V : Type} [DecidableEq K] (m : List (K × V)) (k : K) (v : V)
    (h : alookup m k = some v) : aset m k v = m := by
  induction m with
  | nil => simp [alookup] at h
  | cons p t ih =>
    obtain ⟨k0, v0⟩ := p
    by_cases h0 : k0 = k
    · subst h0
      simp [alookup] at h
      simp [aset, h]
    · simp [alookup, h0] at h
      simp [aset, h0, ih h]

theorem mem_sinsert_self {A : Type} [DecidableEq A] (a : A) (s : List A) :
    a ∈ sinsert a s := by
  by_cases h : a ∈ s <;> simp [sinsert, h]

theorem mem_sinsert_of_mem {A : Type} [DecidableEq A] (a b : A) (s : List A)
    (h : b ∈ s) : b ∈ sinsert a s := by
  by_cases ha : a ∈ s <;> simp [sinsert, ha, h]

theorem sinsert_of_mem {A : Type} [DecidableEq A] (a : A) (s : List A)
    (h : a ∈ s) : sinsert a s = s := by
  simp [sinsert, h]

theorem alookup_filter {K V : Type} [DecidableEq K] (m : List (K × V)) (p : K → Bool)
    (k : K) : alookup (m.filter fun kv => p kv.1) k =
      if p k then alookup m k else none := by
  induction m with
  | nil => simp [alookup]
  | cons q t ih =>
    obtain ⟨k0, v0⟩ := q
    by_cases hk : k0 = k
    · subst hk
      by_cases hp : p k0 <;> simp [List.filter, alookup, hp, ih]
    · by_cases hp : p k0 <;> simp [List.filter, alookup, hp, hk, ih]

theorem getS_bind {β : Type} (f : CState → M β) (s : CState) :
    (getS >>= f) s = f s s := rfl

theorem modifyS_bind {β : Type} (g : CState → CState) (f : Unit → M β) (s : CState) :
    (modifyS g >>= f) s = f () (g s) := rfl

theorem emit_bind {β : Type} (o : Out) (f : Unit → M β) (s : CState) :
    (emit o >>= f) s =
      ⟨(f () s).st, o :: (f () s).out, (f () s).val⟩ := rfl

theorem pure_apply {α : Type} (a : α) (s : CState) :
    (pure a : M α) s = ⟨s, [], .ok a⟩ := rfl

theorem emit_apply (o : Out) (s : CState) : emit o s = ⟨s, [o], .ok ()⟩ := rfl

theorem modifyS_apply (g : CState → CState) (s : CState) :
    modifyS g s = ⟨g s, [], .ok ()⟩ := rfl

theorem ensureM_bind_pos {β : Type} {p : Prop} [Decidable p] (hp : p)
    (e : ConsensusError) (f : Unit → M β) (s : CState) :
    (ensureM p e >>= f) s = f () s := by
  show M.bind (ensureM p e) f s = f () s
  unfold M.bind ensureM
  rw [if_pos hp]
  rfl

theorem ensureM_bind_neg {β : Type} {p : Prop} [Decidable p] (hp : ¬ p)
    (e : ConsensusError) (f : Unit → M β) (s : CState) :
    (ensureM p e >>= f) s = ⟨s, [], .error e⟩ := by
  show M.bind (ensureM p e) f s = _
  unfold M.bind ensureM
  rw [if_neg hp]

theorem liftAgg_bind {α β : Type} (g : Aggregator → Aggregator × Except ConsensusError α)
    (f : α → M β) (s : CState) (a : α) (hg : (g s.aggregator).2 = .ok a) :
    (liftAgg g >>= f) s = f a { s with aggregator := (g s.aggregator).1 } := by
  show M.bind (liftAgg g) f s = _
  unfold M.bind liftAgg
  rw [hg]
  rfl

theorem liftAgg_bind_err {α β : Type}
    (g : Aggregator → Aggregator × Except ConsensusError α)
    (f : α → M β) (s : CState) (e : ConsensusError) (hg : (g s.aggregator).2 = .error e) :
    (liftAgg g >>= f) s = ⟨{ s with aggregator := (g s.aggregator).1 }, [], .error e⟩ := by
  show M.bind (liftAgg g) f s = _
  unfold M.bind liftAgg
  rw [hg]

/-- The outcome component of PrepareMaker::append on a fresh author,
written as one decision tree. -/
theorem prepareAppend_snd_eq (m : PrepareMaker) (p : Prepare) (c : Committee)
    (ha : p.author ∉ m.used) :
    (PrepareMaker.append m p c).2 =
      (if prepOptAfter m p c + prepPesAfter m p c = c.quorumThreshold then
        if p.phase = PRE_ONE then
          if c.quorumThreshold ≤ prepOptAfter m p c then Except.ok (some (OPT, true))
          else if 0 < prepOptAfter m p c then Except.ok (some (OPT, false))
          else Except.ok (some (PES, false))
        else if p.phase = PRE_TWO then
          if c.quorumThreshold ≤ prepPesAfter m p c then Except.ok (some (PES, true))
          else if 0 < prepPesAfter m p c then Except.ok (some (PES, false))
          else Except.ok (some (OPT, false))
        else Except.ok none
      else Except.ok none) := by
  by_cases hv : p.val = OPT
  · unfold PrepareMaker.append prepOptAfter prepPesAfter
    rw [if_neg ha]
    simp only [hv, if_true, ite_true]
    split_ifs <;> rfl
  · unfold PrepareMaker.append prepOptAfter prepPesAfter
    rw [if_neg ha]
    simp only [if_neg hv]
    split_ifs <;> rfl

/-- The maker component of PrepareMaker::append on a fresh author. -/
theorem prepareAppend_fst_eq (m : PrepareMaker) (p : Prepare) (c : Committee)
    (ha : p.author ∉ m.used) :
    (PrepareMaker.append m p c).1 =
      ⟨prepOptAfter m p c, prepPesAfter m p c, p.author :: m.used⟩ := by
  by_cases hv : p.val = OPT
  · unfold PrepareMaker.append prepOptAfter prepPesAfter
    rw [if_neg ha]
    simp only [hv, if_true, ite_true]
    split_ifs <;> rfl
  · unfold PrepareMaker.append prepOptAfter prepPesAfter
    rw [if_neg ha]
    simp only [if_neg hv]
    split_ifs <;> rfl

/-- C5: for every sub-aggregator (echo, ready, prepare, coin) and every key,
appending a vote or share whose author was already recorded under that key
returns an AuthorityReuse error and leaves the aggregator - its recorded
votes, accumulated stake weight, and author sets - exactly as before the
call. -/
theorem C5_duplicate_author_error_no_change (ag : Aggregator) (ev : EchoVote)
    (rv : ReadyVote) (p : Prepare) (sh : RandomnessShare) (pkSet : PublicKeySet)
    (h1 : ev.author ∈ echoUsed ag (ev.epoch, ev.height))
    (h2 : rv.author ∈ readyUsed ag (rv.epoch, rv.height))
    (h3 : p.author ∈ prepUsed ag (p.epoch, p.height, p.phase))
    (h4 : sh.author ∈ coinUsed ag (sh.epoch, sh.height, sh.round)) :
    ag.addRBCEchoVote ev = (ag, .error (.authorityReuseInRBCVote ev.author)) ∧
    ag.addRBCReadyVote rv = (ag, .error (.authorityReuseInRBCVote rv.author)) ∧
    ag.addPrepareVote p = (ag, .error (.authorityReuseInPrepare p.author)) ∧
    ag.addABAShareCoin sh pkSet = (ag, .error (.authorityReuseInCoin sh.author)) := by
  refine ⟨?_, ?_, ?_, ?_⟩
  · unfold echoUsed alookupD at h1
    cases hk : alookup ag.echoVoteAggregators (ev.epoch, ev.height) with
    | none => rw [hk] at h1; simp [RBCProofMaker.new] at h1
    | some mk =>
      rw [hk] at h1
      simp only [Option.getD] at h1
      simp [Aggregator.addRBCEchoVote, alookupD, hk, RBCProofMaker.append, h1,
        aset_self _ _ _ hk]
  · unfold readyUsed alookupD at h2
    cases hk : alookup ag.readyVoteAggregators (rv.epoch, rv.height) with
    | none => rw [hk] at h2; simp [RBCProofMaker.new] at h2
    | some mk =>
      rw [hk] at h2
      simp only [Option.getD] at h2
      simp [Aggregator.addRBCReadyVote, alookupD, hk, RBCProofMaker.append, h2,
        aset_self _ _ _ hk]
  · unfold prepUsed alookupD at h3
    cases hk : alookup ag.prepareVoteAggregators (p.epoch, p.height, p.phase) with
    | none => rw [hk] at h3; simp [PrepareMaker.new] at h3
    | some mk =>
      rw [hk] at h3
      simp only [Option.getD] at h3
      simp [Aggregator.addPrepareVote, alookupD, hk, PrepareMaker.append, h3,
        aset_self _ _ _ hk]
  · unfold coinUsed alookupD at h4
    cases hk : alookup ag.shareCoinAggregators (sh.epoch, sh.height, sh.round) with
    | none => rw [hk] at h4; simp [RandomCoinMaker.new] at h4
    | some mk =>
      rw [hk] at h4
      simp only [Option.getD] at h4
      simp [Aggregator.addABAShareCoin, alookupD, hk, RandomCoinMaker.append, h4,
        aset_self _ _ _ hk]

/-- Witness for C5 at a concrete aggregator holding author 1 under every
kind of key. -/
theorem C5_witness :
    (1 : ℕ) ∈ echoUsed agC5 (0, 0) ∧
    (Aggregator.addRBCEchoVote agC5 ⟨1, 0, 0, blockC3, ()⟩ =
        (agC5, .error (.authorityReuseInRBCVote 1)) ∧
      Aggregator.addRBCReadyVote agC5 ⟨1, 0, 0, blockC3, ()⟩ =
        (agC5, .error (.authorityReuseInRBCVote 1)) ∧
      Aggregator.addPrepareVote agC5 ⟨1, 0, 0, PRE_ONE, OPT, ()⟩ =
        (agC5, .error (.authorityReuseInPrepare 1)) ∧
      Aggregator.addABAShareCoin agC5 ⟨1, 0, 0, 0, 1⟩ ctx4.pkSet =
        (agC5, .error (.authorityReuseInCoin 1))) :=
  ⟨by decide,
   C5_duplicate_author_error_no_change agC5 ⟨1, 0, 0, blockC3, ()⟩ ⟨1, 0, 0, blockC3, ()⟩
     ⟨1, 0, 0, PRE_ONE, OPT, ()⟩ ⟨1, 0, 0, 0, 1⟩ ctx4.pkSet
     (by decide) (by decide) (by decide) (by decide)⟩

/-- C6: the prepare aggregator emits a decision exactly when the
accumulated OPT plus PES stake equals the quorum threshold, the decision
follows the PRE_ONE / PRE_TWO tables of the claim, and one further (fresh,
positive-stake) vote arriving when the total already equals the quorum does
not make it fire again. -/
theorem C6_prepare_exact_quorum_decision (m : PrepareMaker) (p : Prepare) (c : Committee)
    (ha : p.author ∉ m.used) :
    ((∃ d, (PrepareMaker.append m p c).2 = .ok (some d)) ↔
      (prepOptAfter m p c + prepPesAfter m p c = c.quorumThreshold ∧
        (p.phase = PRE_ONE ∨ p.phase = PRE_TWO))) ∧
    (prepOptAfter m p c + prepPesAfter m p c = c.quorumThreshold →
      (p.phase = PRE_ONE →
        (PrepareMaker.append m p c).2 = .ok (some
          (if c.quorumThreshold ≤ prepOptAfter m p c then (OPT, true)
           else if 0 < prepOptAfter m p c then (OPT, false)
           else (PES, false)))) ∧
      (p.phase = PRE_TWO →
        (PrepareMaker.append m p c).2 = .ok (some
          (if c.quorumThreshold ≤ prepPesAfter m p c then (PES, true)
           else if 0 < prepPesAfter m p c then (PES, false)
           else (OPT, false))))) ∧
    (m.optnum + m.pesnum = c.quorumThreshold → 0 < c.stake p.author →
      (PrepareMaker.append m p c).2 = .ok none) := by
  have happ2 := prepareAppend_snd_eq m p c ha
  refine ⟨?_, ?_, ?_⟩
  · rw [happ2]
    constructor
    · rintro ⟨d, hd⟩
      by_cases hT : prepOptAfter m p c + prepPesAfter m p c = c.quorumThreshold
      · refine ⟨hT, ?_⟩
        by_cases h1 : p.phase = PRE_ONE
        · exact Or.inl h1
        · by_cases h2 : p.phase = PRE_TWO
          · exact Or.inr h2
          · rw [if_pos hT, if_neg h1, if_neg h2] at hd
            exact absurd hd (by simp)
      · rw [if_neg hT] at hd
        exact absurd hd (by simp)
    · rintro ⟨hT, hP⟩
      rw [if_pos hT]
      rcases hP with h1 | h2
      · rw [if_pos h1]
        split_ifs <;> exact ⟨_, rfl⟩
      · have h1 : p.phase ≠ PRE_ONE := by rw [h2]; decide
        rw [if_neg h1, if_pos h2]
        split_ifs <;> exact ⟨_, rfl⟩
  · intro hT
    constructor
    · intro h1
      rw [happ2, if_pos hT, if_pos h1]
      split_ifs <;> rfl
    · intro h2
      have h1 : p.phase ≠ PRE_ONE := by rw [h2]; decide
      rw [happ2, if_pos hT, if_neg h1, if_pos h2]
      split_ifs <;> rfl
  · intro hq hs
    have hsum : prepOptAfter m p c + prepPesAfter m p c =
        m.optnum + m.pesnum + c.stake p.author := by
      by_cases hv : p.val = OPT <;> simp [prepOptAfter, prepPesAfter, hv] <;> omega
    rw [happ2, hsum]
    rw [if_neg (show ¬ m.optnum + m.pesnum + c.stake p.author = c.quorumThreshold by omega)]

/-- Witness for C6: a maker with one OPT and one PES vote recorded; a third
unit-stake OPT vote reaches the quorum of three exactly and decides
(OPT, false). -/
theorem C6_witness :
    ((4 : ℕ) ∉ mkC6.used ∧
      prepOptAfter mkC6 prepC6 committee4 + prepPesAfter mkC6 prepC6 committee4 =
        committee4.quorumThreshold) ∧
    ((∃ d, (PrepareMaker.append mkC6 prepC6 committee4).2 = .ok (some d)) ↔
      (prepOptAfter mkC6 prepC6 committee4 + prepPesAfter mkC6 prepC6 committee4 =
          committee4.quorumThreshold ∧
        (prepC6.phase = PRE_ONE ∨ prepC6.phase = PRE_TWO))) ∧
    (prepOptAfter mkC6 prepC6 committee4 + prepPesAfter mkC6 prepC6 committee4 =
        committee4.quorumThreshold →
      (prepC6.phase = PRE_ONE →
        (PrepareMaker.append mkC6 prepC6 committee4).2 = .ok (some
          (if committee4.quorumThreshold ≤ prepOptAfter mkC6 prepC6 committee4 then (OPT, true)
           else if 0 < prepOptAfter mkC6 prepC6 committee4 then (OPT, false)
           else (PES, false)))) ∧
      (prepC6.phase = PRE_TWO →
        (PrepareMaker.append mkC6 prepC6 committee4).2 = .ok (some
          (if committee4.quorumThreshold ≤ prepPesAfter mkC6 prepC6 committee4 then (PES, true)
           else if 0 < prepPesAfter mkC6 prepC6 committee4 then (PES, false)
           else (OPT, false))))) ∧
    (mkC6.optnum + mkC6.pesnum = committee4.quorumThreshold →
      0 < committee4.stake prepC6.author →
      (PrepareMaker.append mkC6 prepC6 committee4).2 = .ok none) :=
  ⟨by decide, C6_prepare_exact_quorum_decision mkC6 prepC6 committee4 (by decide)⟩

/-- C7: a ready maker fires exactly at the random-coin crossing and at the
quorum crossing (so it can return a proof twice), an echo maker fires
exactly at the single quorum crossing, and any returned proof carries the
vote tag and the accumulated votes. -/
theorem C7_ready_fires_at_both_crossings (m : RBCProofMaker) (epoch height : ℕ)
    (a : PublicKey) (sig : Signature) (c : Committee) (ha : a ∉ m.used) :
    ((∃ pr, (RBCProofMaker.append m epoch height a RBC_READY sig c).2 = .ok (some pr)) ↔
      (m.weight + c.stake a = c.randomCoinThreshold ∨
        m.weight + c.stake a = c.quorumThreshold)) ∧
    ((∃ pr, (RBCProofMaker.append m epoch height a RBC_ECHO sig c).2 = .ok (some pr)) ↔
      m.weight + c.stake a = c.quorumThreshold) ∧
    (∀ tag pr, (RBCProofMaker.append m epoch height a tag sig c).2 = .ok (some pr) →
      pr = ⟨epoch, height, m.votes ++ [(a, sig)], tag⟩) := by
  refine ⟨?_, ?_, ?_⟩
  · simp only [RBCProofMaker.append, ha, if_neg, not_false_iff, if_false]
    by_cases h1 : m.weight + c.stake a = c.quorumThreshold
    · simp [h1]
    · by_cases h2 : m.weight + c.stake a = c.randomCoinThreshold
      · simp [h1, h2, RBC_READY]
      · simp [h1, h2, RBC_READY]
  · simp only [RBCProofMaker.append, ha, if_neg, not_false_iff, if_false]
    by_cases h1 : m.weight + c.stake a = c.quorumThreshold
    · simp [h1]
    · simp [h1, RBC_ECHO, RBC_READY]
  · intro tag pr
    simp only [RBCProofMaker.append, ha, if_neg, not_false_iff, if_false]
    by_cases h1 : m.weight + c.stake a = c.quorumThreshold ∨
        (tag = RBC_READY ∧ m.weight + c.stake a = c.randomCoinThreshold)
    · simp only [h1, if_pos]
      intro h
      cases h
      rfl
    · simp [h1]

/-- Witness for C7: a ready maker sitting at weight 1 in committee4 fires on
the second unit-stake vote, which is exactly the random-coin crossing. -/
theorem C7_witness :
    ((2 : ℕ) ∉ mkC5.used ∧
      mkC5.weight + committee4.stake 2 = committee4.randomCoinThreshold) ∧
    (((∃ pr, (RBCProofMaker.append mkC5 0 0 2 RBC_READY () committee4).2 =
        .ok (some pr)) ↔
      (mkC5.weight + committee4.stake 2 = committee4.randomCoinThreshold ∨
        mkC5.weight + committee4.stake 2 = committee4.quorumThreshold)) ∧
    ((∃ pr, (RBCProofMaker.append mkC5 0 0 2 RBC_ECHO () committee4).2 =
        .ok (some pr)) ↔
      mkC5.weight + committee4.stake 2 = committee4.quorumThreshold) ∧
    (∀ tag pr, (RBCProofMaker.append mkC5 0 0 2 tag () committee4).2 = .ok (some pr) →
      pr = ⟨0, 0, mkC5.votes ++ [(2, ())], tag⟩)) :=
  ⟨by decide, C7_ready_fires_at_both_crossings mkC5 0 0 2 () committee4 (by decide)⟩

/-- Once a coin maker's weight is at or above the random-coin threshold,
no later sequence of positive-stake shares ever produces a coin. -/
theorem coinAppendList_sealed (c : Committee) (pkSet : PublicKeySet) :
    ∀ (shs : List RandomnessShare) (m : RandomCoinMaker),
      c.randomCoinThreshold ≤ m.weight →
      (∀ sh ∈ shs, 0 < c.stake sh.author) →
      ∀ x ∈ (coinAppendList m c pkSet shs).2, ∀ v, x ≠ .ok (some v) := by
  intro shs
  induction shs with
  | nil =>
    intro m hw hs x hx
    simp [coinAppendList] at hx
  | cons sh t ih =>
    intro m hw hs x hx
    have hwnext : c.randomCoinThreshold ≤ (RandomCoinMaker.append m sh c pkSet).1.weight := by
      by_cases hd : sh.author ∈ m.used
      · simp [RandomCoinMaker.append, hd]
        omega
      · have hst : 0 < c.stake sh.author := hs sh (by simp)
        have hne : ¬ (m.weight + c.stake sh.author = c.randomCoinThreshold) := by omega
        simp [RandomCoinMaker.append, hd, hne]
        omega
    simp only [coinAppendList, List.mem_cons] at hx
    rcases hx with h | h
    · subst h
      by_cases hd : sh.author ∈ m.used
      · simp [RandomCoinMaker.append, hd]
      · have hst : 0 < c.stake sh.author := hs sh (by simp)
        have hne : ¬ (m.weight + c.stake sh.author = c.randomCoinThreshold) := by omega
        simp [RandomCoinMaker.append, hd, hne]
    · exact ih (RandomCoinMaker.append m sh c pkSet).1 hwnext
        (fun sh2 hsh2 => hs sh2 (by simp [hsh2])) x h

/-- C8: at exactly the random-coin threshold the coin maker combines the
accumulated shares (keyed by committee id); on success it returns the
big-endian u64 read from the first eight signature bytes reduced modulo
two, on failure it returns no coin; and once the threshold has been
reached, later positive-stake shares never produce a coin (the maker is
sealed). -/
theorem C8_coin_value_and_seal (m : RandomCoinMaker) (sh : RandomnessShare)
    (c : Committee) (pkSet : PublicKeySet) (ha : sh.author ∉ m.used) :
    (m.weight + c.stake sh.author = c.randomCoinThreshold →
      (∀ σ, pkSet (btreeOfShares c (m.shares ++ [sh])) = some σ →
        (RandomCoinMaker.append m sh c pkSet).2 = .ok (some (readU64BE σ % 2))) ∧
      (pkSet (btreeOfShares c (m.shares ++ [sh])) = none →
        (RandomCoinMaker.append m sh c pkSet).2 = .ok none)) ∧
    (∀ shs : List RandomnessShare, c.randomCoinThreshold ≤ m.weight →
      (∀ sh2 ∈ shs, 0 < c.stake sh2.author) →
      ∀ x ∈ (coinAppendList m c pkSet shs).2, ∀ v, x ≠ .ok (some v)) := by
  constructor
  · intro hw
    constructor
    · intro σ hσ
      simp [RandomCoinMaker.append, ha, hw, hσ]
    · intro hσ
      simp [RandomCoinMaker.append, ha, hw, hσ]
  · intro shs hw hs
    exact coinAppendList_sealed c pkSet shs m hw hs

/-- Witness for C8: the maker mC8 at weight 1 over committee4 reaches the
threshold 2 with the share shC8; the concrete combiner of ctx4 returns the
all-zero signature, whose leading eight bytes read zero, so the coin is
zero. -/
theorem C8_witness :
    ((2 : ℕ) ∉ mC8.used ∧
      mC8.weight + committee4.stake 2 = committee4.randomCoinThreshold ∧
      ctx4.pkSet (btreeOfShares committee4 (mC8.shares ++ [shC8])) = some sigC8) ∧
    (RandomCoinMaker.append mC8 shC8 committee4 ctx4.pkSet).2 =
      .ok (some (readU64BE sigC8 % 2)) :=
  ⟨⟨by decide, by decide, by decide⟩,
   ((C8_coin_value_and_seal mC8 shC8 committee4 ctx4.pkSet (by decide)).1
     (by decide)).1 sigC8 (by decide)⟩

/-- An RBC proof maker whose running weight never equals the quorum
threshold - nor, for READY votes, the random-coin threshold - never
returns a proof, however many votes arrive. -/
theorem rbcAppendList_never_fires (c : Committee) (epoch height tag : ℕ) :
    ∀ (votes : List (PublicKey × Signature)) (m : RBCProofMaker),
      (∀ n, n ≤ votes.length →
        (rbcAppendList m epoch height tag c (votes.take n)).1.weight ≠ c.quorumThreshold ∧
        ¬(tag = RBC_READY ∧
          (rbcAppendList m epoch height tag c (votes.take n)).1.weight =
            c.randomCoinThreshold)) →
      ∀ x ∈ (rbcAppendList m epoch height tag c votes).2, ∀ pr, x ≠ .ok (some pr) := by
  intro votes
  induction votes with
  | nil =>
    intro m hH x hx
    simp [rbcAppendList] at hx
  | cons v t ih =>
    intro m hH x hx
    have h1 := hH 1 (by simp)
    simp only [List.take, rbcAppendList] at h1
    simp only [rbcAppendList, List.mem_cons] at hx
    rcases hx with h | h
    · subst h
      intro pr
      by_cases hd : v.1 ∈ m.used
      · simp [RBCProofMaker.append, hd]
      · have hw : (RBCProofMaker.append m epoch height v.1 tag v.2 c).1.weight =
            m.weight + c.stake v.1 := by
          simp only [RBCProofMaker.append, hd, if_neg, not_false_iff, if_false]
          split_ifs <;> rfl
        rw [hw] at h1
        have hcond : ¬ (m.weight + c.stake v.1 = c.quorumThreshold ∨
            (tag = RBC_READY ∧ m.weight + c.stake v.1 = c.randomCoinThreshold)) := by
          push_neg
          exact ⟨h1.1, fun htag => by
            rcases h1 with ⟨_, h2⟩
            intro heq
            exact h2 ⟨htag, heq⟩⟩
        simp [RBCProofMaker.append, hd, hcond]
    · refine ih (RBCProofMaker.append m epoch height v.1 tag v.2 c).1 ?_ x h
      intro n hn
      have := hH (n + 1) (by simp; omega)
      simpa [List.take, rbcAppendList] using this

/-- A prepare maker whose running total stake never equals the quorum
threshold never emits a decision. -/
theorem prepareAppendList_never_fires (c : Committee) :
    ∀ (ps : List Prepare) (m : PrepareMaker),
      (∀ n, n ≤ ps.length →
        (prepareAppendList m c (ps.take n)).1.optnum +
          (prepareAppendList m c (ps.take n)).1.pesnum ≠ c.quorumThreshold) →
      ∀ x ∈ (prepareAppendList m c ps).2, ∀ d, x ≠ .ok (some d) := by
  intro ps
  induction ps with
  | nil =>
    intro m hH x hx
    simp [prepareAppendList] at hx
  | cons p t ih =>
    intro m hH x hx
    have h1 := hH 1 (by simp)
    simp only [List.take, prepareAppendList] at h1
    simp only [prepareAppendList, List.mem_cons] at hx
    rcases hx with h | h
    · subst h
      intro d
      by_cases hd : p.author ∈ m.used
      · simp [PrepareMaker.append, hd]
      · rw [prepareAppend_fst_eq m p c hd] at h1
        rw [prepareAppend_snd_eq m p c hd]
        rw [if_neg h1]
        simp
    · refine ih (PrepareMaker.append m p c).1 ?_ x h
      intro n hn
      have := hH (n + 1) (by simp; omega)
      simpa [List.take, prepareAppendList] using this

/-- A coin maker whose running weight never equals the random-coin
threshold never returns a coin. -/
theorem coinAppendList_never_fires (c : Committee) (pkSet : PublicKeySet) :
    ∀ (shs : List RandomnessShare) (m : RandomCoinMaker),
      (∀ n, n ≤ shs.length →
        (coinAppendList m c pkSet (shs.take n)).1.weight ≠ c.randomCoinThreshold) →
      ∀ x ∈ (coinAppendList m c pkSet shs).2, ∀ v, x ≠ .ok (some v) := by
  intro shs
  induction shs with
  | nil =>
    intro m hH x hx
    simp [coinAppendList] at hx
  | cons sh t ih =>
    intro m hH x hx
    have h1 := hH 1 (by simp)
    simp only [List.take, coinAppendList] at h1
    simp only [coinAppendList, List.mem_cons] at hx
    rcases hx with h | h
    · subst h
      intro v
      by_cases hd : sh.author ∈ m.used
      · simp [RandomCoinMaker.append, hd]
      · have hw : (RandomCoinMaker.append m sh c pkSet).1.weight =
            m.weight + c.stake sh.author := by
          simp only [RandomCoinMaker.append, hd, if_neg, not_false_iff, if_false]
          split_ifs <;> try rfl
          split <;> rfl
        rw [hw] at h1
        simp [RandomCoinMaker.append, hd, h1]
    · refine ih (RandomCoinMaker.append m sh c pkSet).1 ?_ x h
      intro n hn
      have := hH (n + 1) (by simp; omega)
      simpa [List.take, coinAppendList] using this

/-- C10: every aggregator threshold test is an exact-equality check on the
running stake total, so any vote sequence whose cumulative stake jumps over
the threshold without ever equalling it never makes the echo or ready
maker return a proof, the prepare maker return a decision, or the coin
maker return a coin, however many further votes arrive. -/
theorem C10_exact_equality_thresholds :
    (∀ (c : Committee) (epoch height tag : ℕ) (votes : List (PublicKey × Signature))
        (m : RBCProofMaker),
      (∀ n, n ≤ votes.length →
        (rbcAppendList m epoch height tag c (votes.take n)).1.weight ≠ c.quorumThreshold ∧
        ¬(tag = RBC_READY ∧
          (rbcAppendList m epoch height tag c (votes.take n)).1.weight =
            c.randomCoinThreshold)) →
      ∀ x ∈ (rbcAppendList m epoch height tag c votes).2, ∀ pr, x ≠ .ok (some pr)) ∧
    (∀ (c : Committee) (ps : List Prepare) (m : PrepareMaker),
      (∀ n, n ≤ ps.length →
        (prepareAppendList m c (ps.take n)).1.optnum +
          (prepareAppendList m c (ps.take n)).1.pesnum ≠ c.quorumThreshold) →
      ∀ x ∈ (prepareAppendList m c ps).2, ∀ d, x ≠ .ok (some d)) ∧
    (∀ (c : Committee) (pkSet : PublicKeySet) (shs : List RandomnessShare)
        (m : RandomCoinMaker),
      (∀ n, n ≤ shs.length →
        (coinAppendList m c pkSet (shs.take n)).1.weight ≠ c.randomCoinThreshold) →
      ∀ x ∈ (coinAppendList m c pkSet shs).2, ∀ v, x ≠ .ok (some v)) :=
  ⟨fun c epoch height tag votes m hH =>
      rbcAppendList_never_fires c epoch height tag votes m hH,
   fun c ps m hH => prepareAppendList_never_fires c ps m hH,
   fun c pkSet shs m hH => coinAppendList_never_fires c pkSet shs m hH⟩

/-- Witness for C10: with stake-4 ready votes the weight runs 0, 4, 8 and
jumps both thresholds; with stake-2 prepare votes the total runs 0, 2, 4
and jumps the quorum of 3; with stake-3 coin shares the weight runs 0, 3, 6
and jumps the coin threshold of 2.  No proof, decision or coin is ever in
the emitted results. -/
theorem C10_witness :
    ((∀ n, n ≤ votesJump.length →
        (rbcAppendList RBCProofMaker.new 0 0 RBC_READY cJump4 (votesJump.take n)).1.weight ≠
          cJump4.quorumThreshold ∧
        ¬(RBC_READY = RBC_READY ∧
          (rbcAppendList RBCProofMaker.new 0 0 RBC_READY cJump4 (votesJump.take n)).1.weight =
            cJump4.randomCoinThreshold)) ∧
      (∀ n, n ≤ prepsJump.length →
        (prepareAppendList PrepareMaker.new cJump2 (prepsJump.take n)).1.optnum +
          (prepareAppendList PrepareMaker.new cJump2 (prepsJump.take n)).1.pesnum ≠
          cJump2.quorumThreshold) ∧
      (∀ n, n ≤ shsJump.length →
        (coinAppendList RandomCoinMaker.new cJump3 ctx4.pkSet (shsJump.take n)).1.weight ≠
          cJump3.randomCoinThreshold)) ∧
    (Except.ok (some (⟨0, 0, [(10, ()), (11, ())], RBC_READY⟩ : RBCProof)) ∉
        (rbcAppendList RBCProofMaker.new 0 0 RBC_READY cJump4 votesJump).2 ∧
      Except.ok (some (OPT, false)) ∉
        (prepareAppendList PrepareMaker.new cJump2 prepsJump).2 ∧
      Except.ok (some 0) ∉
        (coinAppendList RandomCoinMaker.new cJump3 ctx4.pkSet shsJump).2) :=
  ⟨⟨by decide, by decide, by decide⟩,
   ⟨fun hmem => C10_exact_equality_thresholds.1 cJump4 0 0 RBC_READY votesJump
      RBCProofMaker.new (by decide) _ hmem _ rfl,
    fun hmem => C10_exact_equality_thresholds.2.1 cJump2 prepsJump
      PrepareMaker.new (by decide) _ hmem _ rfl,
    fun hmem => C10_exact_equality_thresholds.2.2 cJump3 ctx4.pkSet shsJump
      RandomCoinMaker.new (by decide) _ hmem _ rfl⟩⟩

/-- C1 counterexample: Core::rank is not e·N + h for all e, h - whatever
positive capacity MAX_BLOCK_BUFFER has, the reduction modulo it changes the
value (shown here at capacity 8 with e = 2, h = 0 over the four-member
committee, where rank yields 8 mod 8 = 0, not 8). -/
theorem C1_counterexample :
    ¬ ∀ mbb : ℕ, 0 < mbb →
        ∀ e h : ℕ, Core.rank mbb e h committee4 = e * committee4.size + h :=
  fun hAll => absurd (hAll 8 (by decide) 2 0) (by decide)

/-- C1 amended: the rank keying the persistent block store is
((e·N + h) mod 2^64) mod MAX_BLOCK_BUFFER - the u64 total order reduced
modulo the commit-ring capacity - and handle_sync_request answers a sync
request by reading the store at exactly this reduced key. -/
theorem C1_rank_is_reduced (ctx : Ctx) (e h : ℕ) (s : CState) (n : ℕ)
    (sender : PublicKey) (b : Block)
    (hs : alookup s.store (Core.rank ctx.mbb e h ctx.committee) = some b) :
    Core.rank ctx.mbb e h ctx.committee =
      ((e * ctx.committee.size + h) % U64) % ctx.mbb ∧
    exec ctx (n + 1) (.handleSyncRequest e h sender) s =
      ⟨s, [.send (some sender) (.SyncReplyMsg b)], .ok ()⟩ := by
  constructor
  · rfl
  · simp only [exec]
    rw [getS_bind, hs]
    rfl

/-- Witness for C1 amended: the demoted-node state holds blockC3 under the
reduced rank key of (0,1); the handler read at that key produces the
reply. -/
theorem C1_witness :
    alookup stateFault.store (Core.rank ctxFault.mbb 0 1 ctxFault.committee) =
      some blockC3 ∧
    (Core.rank ctxFault.mbb 0 1 ctxFault.committee =
      ((0 * ctxFault.committee.size + 1) % U64) % ctxFault.mbb ∧
    exec ctxFault (9 + 1) (.handleSyncRequest 0 1 2) stateFault =
      ⟨stateFault, [.send (some 2) (.SyncReplyMsg blockC3)], .ok ()⟩) :=
  ⟨by decide, C1_rank_is_reduced ctxFault 0 1 stateFault 9 2 blockC3 (by decide)⟩

/-- C4 counterexample: a node whose committee id is below the fault floor
does not answer sync requests - the run loop skips the dispatch before the
match - even in the exact situation where a reply is due (the requested
block is in its store and the handler itself would send the reply). -/
theorem C4_counterexample :
    (recvStep ctxFault 20 (.SyncRequestMsg 0 1 2) stateFault).out = [] ∧
    (recvStep ctxFault 20 (.SyncRequestMsg 0 1 2) stateFault).st = stateFault ∧
    (exec ctxFault 20 (callOf (.SyncRequestMsg 0 1 2)) stateFault).out =
      [.send (some 2) (.SyncReplyMsg blockC3)] :=
  ⟨rfl, rfl, by decide⟩

/-- C4 amended: a node whose committee id (its height) is below the fault
parameter never generates a proposal and ignores every inbound consensus
message - including SyncRequest - producing no state change, no effect and
no error. -/
theorem C4_fault_floor_ignores_everything (ctx : Ctx) (m : ConsensusMessage)
    (s : CState) (n n2 : ℕ) (h : s.height < ctx.fault) :
    recvStep ctx n m s = ⟨s, [], .ok ()⟩ ∧
    exec ctx (n2 + 1) .generateRBCProposal s = ⟨s, [], .ok ()⟩ := by
  constructor
  · unfold recvStep
    rw [if_pos h]
  · simp only [exec]
    rw [getS_bind, if_pos h]
    rfl

/-- Witness for C4 amended at the demoted node of ctxFault. -/
theorem C4_witness :
    stateFault.height < ctxFault.fault ∧
    (recvStep ctxFault 5 (abaValMsg 1 0) stateFault = ⟨stateFault, [], .ok ()⟩ ∧
      exec ctxFault (5 + 1) .generateRBCProposal stateFault =
        ⟨stateFault, [], .ok ()⟩) :=
  ⟨by decide,
   C4_fault_floor_ignores_everything ctxFault (abaValMsg 1 0) stateFault 5 5 (by decide)⟩

theorem alookup_filter_rank2 {V : Type} (m : List ((ℕ × ℕ) × V)) (rank size : ℕ)
    (k : ℕ × ℕ) :
    alookup (m.filter fun kv => decide (rank < rankU64 size kv.1.1 kv.1.2)) k =
      if rank < rankU64 size k.1 k.2 then alookup m k else none := by
  have h0 := alookup_filter m (fun k => decide (rank < rankU64 size k.1 k.2)) k
  simp only [decide_eq_true_eq] at h0
  exact h0

theorem alookup_filter_rank3 {V : Type} (m : List ((ℕ × ℕ × ℕ) × V)) (rank size : ℕ)
    (k : ℕ × ℕ × ℕ) :
    alookup (m.filter fun kv => decide (rank < rankU64 size kv.1.1 kv.1.2.1)) k =
      if rank < rankU64 size k.1 k.2.1 then alookup m k else none := by
  have h0 := alookup_filter m (fun k => decide (rank < rankU64 size k.1 k.2.1)) k
  simp only [decide_eq_true_eq] at h0
  exact h0

/-- C9: cleanup purges, from every per-instance map of the core and from
every aggregator map, exactly the entries whose rank e2·N + h2 is at most
the committed rank e·N + h, and leaves aba_ends and prepare_flags
completely unchanged (stated for representable ranks, where the wrapping
u64 comparison agrees with the arithmetic one). -/
theorem C9_cleanup_rank_bounded_purge (ctx : Ctx) (ds : List ℕ) (e h : ℕ) (s : CState)
    (hagg : s.aggregator.committee = ctx.committee)
    (hb : e * ctx.committee.size + h < U64) :
    ((cleanupState ctx ds e h s).1.abaEnds = s.abaEnds ∧
      (cleanupState ctx ds e h s).1.prepareFlags = s.prepareFlags ∧
      (cleanupState ctx ds e h s).1.rbcEpochOutputs = s.rbcEpochOutputs ∧
      (cleanupState ctx ds e h s).2 = [.mempoolCleanup ds e h]) ∧
    (∀ e2 h2, e2 * ctx.committee.size + h2 < U64 →
      (alookup (cleanupState ctx ds e h s).1.buffers (e2, h2) =
        if e * ctx.committee.size + h < e2 * ctx.committee.size + h2 then
          alookup s.buffers (e2, h2) else none) ∧
      (∀ t, alookup (cleanupState ctx ds e h s).1.rbcProofs (e2, h2, t) =
        if e * ctx.committee.size + h < e2 * ctx.committee.size + h2 then
          alookup s.rbcProofs (e2, h2, t) else none) ∧
      ((e2, h2) ∈ (cleanupState ctx ds e h s).1.rbcReady ↔
        ((e2, h2) ∈ s.rbcReady ∧
          e * ctx.committee.size + h < e2 * ctx.committee.size + h2)) ∧
      (∀ r, alookup (cleanupState ctx ds e h s).1.abaValues (e2, h2, r) =
        if e * ctx.committee.size + h < e2 * ctx.committee.size + h2 then
          alookup s.abaValues (e2, h2, r) else none) ∧
      (∀ r, alookup (cleanupState ctx ds e h s).1.abaMuxValues (e2, h2, r) =
        if e * ctx.committee.size + h < e2 * ctx.committee.size + h2 then
          alookup s.abaMuxValues (e2, h2, r) else none) ∧
      (∀ r, alookup (cleanupState ctx ds e h s).1.abaValuesFlag (e2, h2, r) =
        if e * ctx.committee.size + h < e2 * ctx.committee.size + h2 then
          alookup s.abaValuesFlag (e2, h2, r) else none) ∧
      (∀ r, alookup (cleanupState ctx ds e h s).1.abaMuxFlags (e2, h2, r) =
        if e * ctx.committee.size + h < e2 * ctx.committee.size + h2 then
          alookup s.abaMuxFlags (e2, h2, r) else none) ∧
      (∀ r, alookup (cleanupState ctx ds e h s).1.abaOutputs (e2, h2, r) =
        if e * ctx.committee.size + h < e2 * ctx.committee.size + h2 then
          alookup s.abaOutputs (e2, h2, r) else none) ∧
      (alookup (cleanupState ctx ds e h s).1.aggregator.echoVoteAggregators (e2, h2) =
        if e * ctx.committee.size + h < e2 * ctx.committee.size + h2 then
          alookup s.aggregator.echoVoteAggregators (e2, h2) else none) ∧
      (alookup (cleanupState ctx ds e h s).1.aggregator.readyVoteAggregators (e2, h2) =
        if e * ctx.committee.size + h < e2 * ctx.committee.size + h2 then
          alookup s.aggregator.readyVoteAggregators (e2, h2) else none) ∧
      (∀ ph, alookup
          (cleanupState ctx ds e h s).1.aggregator.prepareVoteAggregators (e2, h2, ph) =
        if e * ctx.committee.size + h < e2 * ctx.committee.size + h2 then
          alookup s.aggregator.prepareVoteAggregators (e2, h2, ph) else none) ∧
      (∀ r, alookup
          (cleanupState ctx ds e h s).1.aggregator.shareCoinAggregators (e2, h2, r) =
        if e * ctx.committee.size + h < e2 * ctx.committee.size + h2 then
          alookup s.aggregator.shareCoinAggregators (e2, h2, r) else none)) := by
  have hrank : rankU64 ctx.committee.size e h = e * ctx.committee.size + h :=
    Nat.mod_eq_of_lt hb
  refine ⟨⟨rfl, rfl, rfl, rfl⟩, ?_⟩
  intro e2 h2 hb2
  have hrank2 : rankU64 ctx.committee.size e2 h2 = e2 * ctx.committee.size + h2 :=
    Nat.mod_eq_of_lt hb2
  refine ⟨?_, ?_, ?_, ?_, ?_, ?_, ?_, ?_, ?_, ?_, ?_, ?_⟩
  · show alookup (s.buffers.filter _) (e2, h2) = _
    rw [alookup_filter_rank2 s.buffers (rankU64 ctx.committee.size e h)
      ctx.committee.size (e2, h2), hrank, hrank2]
  · intro t
    show alookup (s.rbcProofs.filter _) (e2, h2, t) = _
    rw [alookup_filter_rank3 s.rbcProofs (rankU64 ctx.committee.size e h)
      ctx.committee.size (e2, h2, t), hrank, hrank2]
  · show (e2, h2) ∈ s.rbcReady.filter _ ↔ _
    rw [List.mem_filter]
    simp only [decide_eq_true_eq, hrank, hrank2]
  · intro r
    show alookup (s.abaValues.filter _) (e2, h2, r) = _
    rw [alookup_filter_rank3 s.abaValues (rankU64 ctx.committee.size e h)
      ctx.committee.size (e2, h2, r), hrank, hrank2]
  · intro r
    show alookup (s.abaMuxValues.filter _) (e2, h2, r) = _
    rw [alookup_filter_rank3 s.abaMuxValues (rankU64 ctx.committee.size e h)
      ctx.committee.size (e2, h2, r), hrank, hrank2]
  · intro r
    show alookup (s.abaValuesFlag.filter _) (e2, h2, r) = _
    rw [alookup_filter_rank3 s.abaValuesFlag (rankU64 ctx.committee.size e h)
      ctx.committee.size (e2, h2, r), hrank, hrank2]
  · intro r
    show alookup (s.abaMuxFlags.filter _) (e2, h2, r) = _
    rw [alookup_filter_rank3 s.abaMuxFlags (rankU64 ctx.committee.size e h)
      ctx.committee.size (e2, h2, r), hrank, hrank2]
  · intro r
    show alookup (s.abaOutputs.filter _) (e2, h2, r) = _
    rw [alookup_filter_rank3 s.abaOutputs (rankU64 ctx.committee.size e h)
      ctx.committee.size (e2, h2, r), hrank, hrank2]
  · show alookup (s.aggregator.echoVoteAggregators.filter _) (e2, h2) = _
    rw [hagg]
    rw [alookup_filter_rank2 s.aggregator.echoVoteAggregators
      (rankU64 ctx.committee.size e h) ctx.committee.size (e2, h2), hrank, hrank2]
  · show alookup (s.aggregator.readyVoteAggregators.filter _) (e2, h2) = _
    rw [hagg]
    rw [alookup_filter_rank2 s.aggregator.readyVoteAggregators
      (rankU64 ctx.committee.size e h) ctx.committee.size (e2, h2), hrank, hrank2]
  · intro ph
    show alookup (s.aggregator.prepareVoteAggregators.filter _) (e2, h2, ph) = _
    rw [hagg]
    rw [alookup_filter_rank3 s.aggregator.prepareVoteAggregators
      (rankU64 ctx.committee.size e h) ctx.committee.size (e2, h2, ph), hrank, hrank2]
  · intro r
    show alookup (s.aggregator.shareCoinAggregators.filter _) (e2, h2, r) = _
    rw [hagg]
    rw [alookup_filter_rank3 s.aggregator.shareCoinAggregators
      (rankU64 ctx.committee.size e h) ctx.committee.size (e2, h2, r), hrank, hrank2]

/-- Witness for C9: cleaning sC9 at rank 2 keeps aba_ends and
prepare_flags, and drops the rank-1 buffer entry while keeping the rank-4
one. -/
theorem C9_witness :
    (sC9.aggregator.committee = ctx4.committee ∧
      0 * ctx4.committee.size + 2 < U64 ∧
      0 * ctx4.committee.size + 1 < U64 ∧
      1 * ctx4.committee.size + 0 < U64) ∧
    ((cleanupState ctx4 [] 0 2 sC9).1.abaEnds = sC9.abaEnds ∧
      (cleanupState ctx4 [] 0 2 sC9).1.prepareFlags = sC9.prepareFlags) ∧
    (alookup (cleanupState ctx4 [] 0 2 sC9).1.buffers (0, 1) =
      (if 0 * ctx4.committee.size + 2 < 0 * ctx4.committee.size + 1 then
        alookup sC9.buffers (0, 1) else none)) ∧
    (alookup (cleanupState ctx4 [] 0 2 sC9).1.buffers (1, 0) =
      (if 0 * ctx4.committee.size + 2 < 1 * ctx4.committee.size + 0 then
        alookup sC9.buffers (1, 0) else none)) :=
  ⟨⟨rfl, by decide, by decide, by decide⟩,
   ⟨(C9_cleanup_rank_bounded_purge ctx4 [] 0 2 sC9 rfl (by decide)).1.1,
    (C9_cleanup_rank_bounded_purge ctx4 [] 0 2 sC9 rfl (by decide)).1.2.1⟩,
   ((C9_cleanup_rank_bounded_purge ctx4 [] 0 2 sC9 rfl (by decide)).2 0 1 (by decide)).1,
   ((C9_cleanup_rank_bounded_purge ctx4 [] 0 2 sC9 rfl (by decide)).2 1 0 (by decide)).1⟩

/-- The post-proposal state of node 0 is reachable. -/
theorem reachable_state0 : Reachable ctx4 state0 :=
  Reachable.step .start 20 Reachable.init (by decide)

/-- The end state of traceC2 is reachable: the five messages of the trace
are served in order after the initial proposal. -/
theorem reachable_stateC2 : Reachable ctx4 stateC2 := by
  have h1 := Reachable.step (.recv (abaValMsg 1 0)) 20 reachable_state0 (by decide)
  have h2 := Reachable.step (.recv (abaValMsg 2 0)) 20 h1 (by decide)
  have h3 := Reachable.step (.recv (abaMuxMsg 1 0)) 20 h2 (by decide)
  have h4 := Reachable.step (.recv (abaMuxMsg 2 0)) 20 h3 (by decide)
  have h5 := Reachable.step (.recv (abaShareMsg 1)) 20 h4 (by decide)
  exact h5

/-- C2 counterexample: in the reachable state at the end of traceC2 the
node has decided ABA (0,3) through its own coin (handle_aba_share calling
process_aba_output), so aba_ends[(0,3)] is true while every round of
aba_outputs[(0,3,·)] holds fewer than random_coin_threshold = 2 distinct
authors - only the node itself. -/
theorem C2_counterexample :
    Reachable ctx4 stateC2 ∧
    alookup stateC2.abaEnds (0, 3) = some true ∧
    ¬ ∃ r, committee4.randomCoinThreshold ≤
        (alookupD stateC2.abaOutputs (0, 3, r) []).length := by
  refine ⟨reachable_stateC2, by decide, ?_⟩
  rintro ⟨r, hr⟩
  have hmap : stateC2.abaOutputs = [((0, 3, 0), [0])] := by decide
  rw [hmap] at hr
  by_cases h0 : r = 0
  · subst h0
    simp [alookupD, alookup, committee4] at hr
  · simp [alookupD, alookup, committee4, Ne.symm h0] at hr

/-- C3 counterexample: replaying the RBCVal for block (0,1) a second time
is not ignored - handle_rbc_val has no duplicate guard, so the node
re-stores the block and re-broadcasts its EchoVote before the echo
aggregator's first-vote guard raises AuthorityReuse. -/
theorem C3_counterexample :
    Reachable ctx4 stateC3 ∧
    sends (stepRun ctx4 20 (.recv (.RBCValMsg blockC3)) stateC3).out ≠ [] :=
  ⟨Reachable.step (.recv (.RBCValMsg blockC3)) 20 reachable_state0 (by decide),
   by decide⟩

theorem alookupD_aset_self {K V : Type} [DecidableEq K] (m : List (K × V)) (k : K)
    (v d : V) : alookupD (aset m k v) k d = v := by
  unfold alookupD
  rw [alookup_aset_self]
  rfl

theorem alookupD_aset_ne {K V : Type} [DecidableEq K] (m : List (K × V)) (k k2 : K)
    (v d : V) (h : k ≠ k2) : alookupD (aset m k v) k2 d = alookupD m k2 d := by
  unfold alookupD
  rw [alookup_aset_ne _ _ _ _ h]

/-- Writing back a value at least as large (for any membership notion) at
one key preserves membership at every key. -/
theorem alookupD_aset_grow {K V A : Type} [DecidableEq K] (mem : A → V → Prop)
    (m : List (K × V)) (k : K) (v d : V)
    (hsup : ∀ a, mem a (alookupD m k d) → mem a v) :
    ∀ k2 a, mem a (alookupD m k2 d) → mem a (alookupD (aset m k v) k2 d) := by
  intro k2 a h
  by_cases he : k = k2
  · subst he
    rw [alookupD_aset_self]
    exact hsup a h
  · rw [alookupD_aset_ne _ _ _ _ _ he]
    exact h

/-- An entry-or-insert write (writing the current value back, default when
absent) leaves every lookup-with-default unchanged. -/
theorem alookupD_orInsert {K V : Type} [DecidableEq K] (m : List (K × V)) (k : K)
    (d : V) : ∀ k2, alookupD (aset m k (alookupD m k d)) k2 d = alookupD m k2 d := by
  intro k2
  by_cases he : k = k2
  · subst he
    rw [alookupD_aset_self]
  · rw [alookupD_aset_ne _ _ _ _ _ he]

/-- An entry-or-insert write with default false neither creates nor
destroys true entries. -/
theorem alookup_orInsert_true {K : Type} [DecidableEq K] (m : List (K × Bool)) (k : K) :
    ∀ k2, alookup (aset m k (alookupD m k false)) k2 = some true ↔
      alookup m k2 = some true := by
  intro k2
  by_cases he : k = k2
  · subst he
    rw [alookup_aset_self]
    unfold alookupD
    cases hv : alookup m k with
    | none => simp
    | some b => simp [Option.getD]
  · rw [alookup_aset_ne _ _ _ _ he]

/-- Setting a key to true preserves every true entry. -/
theorem alookup_aset_true_of {K : Type} [DecidableEq K] (m : List (K × Bool)) (k k2 : K)
    (h : alookup m k2 = some true) : alookup (aset m k true) k2 = some true := by
  by_cases he : k = k2
  · subst he
    rw [alookup_aset_self]
  · rw [alookup_aset_ne _ _ _ _ he]
    exact h

/-- Inserting into one slot of a two-slot array preserves membership in
both slots. -/
theorem mem_pget_pset {a b : PublicKey} {p : List PublicKey × List PublicKey}
    (i j : ℕ) (h : a ∈ pget p i) :
    a ∈ pget (pset p j (sinsert b (pget p j))) i := by
  unfold pget pset at *
  by_cases hi : i = 0 <;> by_cases hj : j = 0 <;>
    simp only [hi, hj, if_true, if_false, ite_true, ite_false] at * <;>
    first
      | exact mem_sinsert_of_mem _ _ _ h
      | exact h

theorem grow_refl (s : CState) : Grow s s :=
  ⟨fun _ _ h => h, fun _ _ h => h, fun _ _ h => h, fun _ _ h => h,
   fun _ _ _ h => h, fun _ _ _ h => h, fun _ _ h => h, fun _ h => h,
   fun _ _ h => h, fun _ h => h, fun _ h => h, fun _ h => h⟩

theorem grow_trans {s1 s2 s3 : CState} (g1 : Grow s1 s2) (g2 : Grow s2 s3) :
    Grow s1 s3 :=
  ⟨fun k a h => g2.1 k a (g1.1 k a h),
   fun k a h => g2.2.1 k a (g1.2.1 k a h),
   fun k a h => g2.2.2.1 k a (g1.2.2.1 k a h),
   fun k a h => g2.2.2.2.1 k a (g1.2.2.2.1 k a h),
   fun k i a h => g2.2.2.2.2.1 k i a (g1.2.2.2.2.1 k i a h),
   fun k i a h => g2.2.2.2.2.2.1 k i a (g1.2.2.2.2.2.1 k i a h),
   fun k a h => g2.2.2.2.2.2.2.1 k a (g1.2.2.2.2.2.2.1 k a h),
   fun k h => g2.2.2.2.2.2.2.2.1 k (g1.2.2.2.2.2.2.2.1 k h),
   fun e x h => g2.2.2.2.2.2.2.2.2.1 e x (g1.2.2.2.2.2.2.2.2.1 e x h),
   fun k h => g2.2.2.2.2.2.2.2.2.2.1 k (g1.2.2.2.2.2.2.2.2.2.1 k h),
   fun k h => g2.2.2.2.2.2.2.2.2.2.2.1 k (g1.2.2.2.2.2.2.2.2.2.2.1 k h),
   fun k h => g2.2.2.2.2.2.2.2.2.2.2.2 k (g1.2.2.2.2.2.2.2.2.2.2.2 k h)⟩

/-- A state whose Grow-relevant fields agree with another grows from it. -/
theorem grow_same_fields {s s2 : CState}
    (hagg : s2.aggregator = s.aggregator) (hav : s2.abaValues = s.abaValues)
    (hmv : s2.abaMuxValues = s.abaMuxValues) (hao : s2.abaOutputs = s.abaOutputs)
    (hbuf : s2.buffers = s.buffers) (heo : s2.rbcEpochOutputs = s.rbcEpochOutputs)
    (hrr : s2.rbcReady = s.rbcReady) (hpf : s2.prepareFlags = s.prepareFlags)
    (hend : s2.abaEnds = s.abaEnds) : Grow s s2 := by
  refine ⟨?_, ?_, ?_, ?_, ?_, ?_, ?_, ?_, ?_, ?_, ?_, ?_⟩
  · intro k a h
    unfold echoUsed
    rw [hagg]
    exact h
  · intro k a h
    unfold readyUsed
    rw [hagg]
    exact h
  · intro k a h
    unfold prepUsed
    rw [hagg]
    exact h
  · intro k a h
    unfold coinUsed
    rw [hagg]
    exact h
  · intro k i a h
    rw [hav]
    exact h
  · intro k i a h
    rw [hmv]
    exact h
  · intro k a h
    rw [hao]
    exact h
  · intro k h
    rw [hbuf]
    exact h
  · intro e x h
    rw [heo]
    exact h
  · intro k h
    rw [hrr]
    exact h
  · intro k h
    rw [hpf]
    exact h
  · intro k h
    rw [hend]
    exact h

/-- The precise sequencing principle for Grow: the continuation is judged
at the exact intermediate state. -/
theorem grow_bind {α : Type} {x : M α} {f : α → M Unit} {s : CState}
    (hx : Grow s (x s).st)
    (hf : ∀ a, (x s).val = .ok a → Grow (x s).st (f a (x s).st).st) :
    Grow s ((x >>= f) s).st := by
  have hst : ((x >>= f) s).st =
      (match (x s).val with
        | .error _ => (x s).st
        | .ok a => (f a (x s).st).st) := by
    show (M.bind x f s).st = _
    simp only [M.bind]
    cases (x s).val <;> rfl
  rw [hst]
  cases hval : (x s).val with
  | error e => exact hx
  | ok a => exact grow_trans hx (hf a hval)

theorem grow_ensure {p : Prop} [Decidable p] (e : ConsensusError) (s : CState) :
    Grow s ((ensureM p e) s).st := by
  unfold ensureM
  split <;> exact grow_refl s

theorem grow_pure {α : Type} (a : α) (s : CState) : Grow s ((pure a : M α) s).st :=
  grow_refl s

theorem grow_emit (o : Out) (s : CState) : Grow s ((emit o) s).st := grow_refl s

theorem grow_bind_getS {f : CState → M Unit} {s : CState}
    (hf : Grow s (f s s).st) : Grow s ((getS >>= f) s).st := by
  rw [getS_bind]
  exact hf

theorem grow_bind_modify {g : CState → CState} {f : Unit → M Unit} {s : CState}
    (hg : Grow s (g s)) (hf : Grow (g s) (f () (g s)).st) :
    Grow s ((modifyS g >>= f) s).st := by
  rw [modifyS_bind]
  exact grow_trans hg hf

theorem grow_bind_emit {o : Out} {f : Unit → M Unit} {s : CState}
    (hf : Grow s (f () s).st) : Grow s ((emit o >>= f) s).st := by
  rw [emit_bind]
  exact hf

theorem grow_bind_ensure {p : Prop} [Decidable p] {e : ConsensusError}
    {f : Unit → M Unit} {s : CState} (hf : p → Grow s (f () s).st) :
    Grow s ((ensureM p e >>= f) s).st := by
  by_cases hp : p
  · rw [ensureM_bind_pos hp]
    exact hf hp
  · rw [ensureM_bind_neg hp]
    exact grow_refl s

theorem grow_bind_liftAgg {α : Type}
    {g : Aggregator → Aggregator × Except ConsensusError α} {f : α → M Unit}
    {s : CState} (hg : Grow s { s with aggregator := (g s.aggregator).1 })
    (hf : ∀ a, Grow { s with aggregator := (g s.aggregator).1 }
      (f a { s with aggregator := (g s.aggregator).1 }).st) :
    Grow s ((liftAgg g >>= f) s).st := by
  cases hv : (g s.aggregator).2 with
  | error e =>
    rw [liftAgg_bind_err g f s e hv]
    exact hg
  | ok a =>
    rw [liftAgg_bind g f s a hv]
    exact grow_trans hg (hf a)

theorem grow_storeBlock (ctx : Ctx) (b : Block) (s : CState) :
    Grow s ((storeBlockM ctx b) s).st :=
  ⟨fun _ _ h => h, fun _ _ h => h, fun _ _ h => h, fun _ _ h => h,
   fun _ _ _ h => h, fun _ _ _ h => h, fun _ _ h => h,
   fun _ h => alookup_aset_true_of _ _ _ h,
   fun _ _ h => h, fun _ h => h, fun _ h => h, fun _ h => h⟩

/-- storeBlockM as a state update, for the shaped bind lemma. -/
theorem grow_storeBlock_state (ctx : Ctx) (b : Block) (s : CState) :
    Grow s
      { s with
        buffers := aset s.buffers (b.epoch, b.height) true
        store := aset s.store (Core.rank ctx.mbb b.epoch b.height ctx.committee) b } :=
  grow_storeBlock ctx b s

theorem grow_proofs_ready (s : CState) (x : List ((ℕ × ℕ × ℕ) × RBCProof))
    (k : ℕ × ℕ) :
    Grow s { s with rbcProofs := x, rbcReady := sinsert k s.rbcReady } :=
  ⟨fun _ _ h => h, fun _ _ h => h, fun _ _ h => h, fun _ _ h => h,
   fun _ _ _ h => h, fun _ _ _ h => h, fun _ _ h => h, fun _ h => h,
   fun _ _ h => h, fun _ h => mem_sinsert_of_mem _ _ _ h, fun _ h => h, fun _ h => h⟩

theorem grow_proofs_only (s : CState) (x : List ((ℕ × ℕ × ℕ) × RBCProof)) :
    Grow s { s with rbcProofs := x } :=
  grow_same_fields rfl rfl rfl rfl rfl rfl rfl rfl rfl

theorem grow_ready_only (s : CState) (k : ℕ × ℕ) :
    Grow s { s with rbcReady := sinsert k s.rbcReady } :=
  ⟨fun _ _ h => h, fun _ _ h => h, fun _ _ h => h, fun _ _ h => h,
   fun _ _ _ h => h, fun _ _ _ h => h, fun _ _ h => h, fun _ h => h,
   fun _ _ h => h, fun _ h => mem_sinsert_of_mem _ _ _ h, fun _ h => h, fun _ h => h⟩

theorem grow_prepareFlags (s : CState) (k : ℕ × ℕ) :
    Grow s { s with prepareFlags := sinsert k s.prepareFlags } :=
  ⟨fun _ _ h => h, fun _ _ h => h, fun _ _ h => h, fun _ _ h => h,
   fun _ _ _ h => h, fun _ _ _ h => h, fun _ _ h => h, fun _ h => h,
   fun _ _ h => h, fun _ h => h, fun _ h => mem_sinsert_of_mem _ _ _ h, fun _ h => h⟩

theorem grow_epoch (s : CState) (e : ℕ) : Grow s { s with epoch := e } :=
  grow_same_fields rfl rfl rfl rfl rfl rfl rfl rfl rfl

theorem grow_valuesFlag (s : CState) (x : List ((ℕ × ℕ × ℕ) × (Bool × Bool))) :
    Grow s { s with abaValuesFlag := x } :=
  grow_same_fields rfl rfl rfl rfl rfl rfl rfl rfl rfl

theorem grow_muxFlags (s : CState) (x : List ((ℕ × ℕ × ℕ) × (Bool × Bool))) :
    Grow s { s with abaMuxFlags := x } :=
  grow_same_fields rfl rfl rfl rfl rfl rfl rfl rfl rfl

theorem grow_abaValues_orInsert (s : CState) (k : ℕ × ℕ × ℕ) :
    Grow s
      { s with abaValues := aset s.abaValues k (alookupD s.abaValues k ([], [])) } :=
  ⟨fun _ _ h => h, fun _ _ h => h, fun _ _ h => h, fun _ _ h => h,
   fun k2 i a h => by rw [alookupD_orInsert]; exact h,
   fun _ _ _ h => h, fun _ _ h => h, fun _ h => h,
   fun _ _ h => h, fun _ h => h, fun _ h => h, fun _ h => h⟩

theorem grow_abaValues_set (s : CState) (k : ℕ × ℕ × ℕ)
    (v : List PublicKey × List PublicKey)
    (hsup : ∀ i a, a ∈ pget (alookupD s.abaValues k ([], [])) i → a ∈ pget v i) :
    Grow s { s with abaValues := aset s.abaValues k v } :=
  ⟨fun _ _ h => h, fun _ _ h => h, fun _ _ h => h, fun _ _ h => h,
   fun k2 i a h =>
     alookupD_aset_grow (fun a2 p => a2 ∈ pget p i) s.abaValues k v ([], [])
       (hsup i) k2 a h,
   fun _ _ _ h => h, fun _ _ h => h, fun _ h => h,
   fun _ _ h => h, fun _ h => h, fun _ h => h, fun _ h => h⟩

theorem grow_abaMuxValues_orInsert (s : CState) (k : ℕ × ℕ × ℕ) :
    Grow s
      { s with abaMuxValues := aset s.abaMuxValues k (alookupD s.abaMuxValues k ([], [])) } :=
  ⟨fun _ _ h => h, fun _ _ h => h, fun _ _ h => h, fun _ _ h => h,
   fun _ _ _ h => h,
   fun k2 i a h => by rw [alookupD_orInsert]; exact h,
   fun _ _ h => h, fun _ h => h,
   fun _ _ h => h, fun _ h => h, fun _ h => h, fun _ h => h⟩

theorem grow_abaMuxValues_set (s : CState) (k : ℕ × ℕ × ℕ)
    (v : List PublicKey × List PublicKey)
    (hsup : ∀ i a, a ∈ pget (alookupD s.abaMuxValues k ([], [])) i → a ∈ pget v i) :
    Grow s { s with abaMuxValues := aset s.abaMuxValues k v } :=
  ⟨fun _ _ h => h, fun _ _ h => h, fun _ _ h => h, fun _ _ h => h,
   fun _ _ _ h => h,
   fun k2 i a h =>
     alookupD_aset_grow (fun a2 p => a2 ∈ pget p i) s.abaMuxValues k v ([], [])
       (hsup i) k2 a h,
   fun _ _ h => h, fun _ h => h,
   fun _ _ h => h, fun _ h => h, fun _ h => h, fun _ h => h⟩

theorem grow_abaOutputs_orInsert (s : CState) (k : ℕ × ℕ × ℕ) :
    Grow s
      { s with abaOutputs := aset s.abaOutputs k (alookupD s.abaOutputs k []) } :=
  ⟨fun _ _ h => h, fun _ _ h => h, fun _ _ h => h, fun _ _ h => h,
   fun _ _ _ h => h, fun _ _ _ h => h,
   fun k2 a h => by rw [alookupD_orInsert]; exact h,
   fun _ h => h, fun _ _ h => h, fun _ h => h, fun _ h => h, fun _ h => h⟩

theorem grow_abaOutputs_set (s : CState) (k : ℕ × ℕ × ℕ) (v : List PublicKey)
    (hsup : ∀ a, a ∈ alookupD s.abaOutputs k [] → a ∈ v) :
    Grow s { s with abaOutputs := aset s.abaOutputs k v } :=
  ⟨fun _ _ h => h, fun _ _ h => h, fun _ _ h => h, fun _ _ h => h,
   fun _ _ _ h => h, fun _ _ _ h => h,
   fun k2 a h =>
     alookupD_aset_grow (fun a2 l => a2 ∈ l) s.abaOutputs k v [] hsup k2 a h,
   fun _ h => h, fun _ _ h => h, fun _ h => h, fun _ h => h, fun _ h => h⟩

theorem grow_epochOutputs_orInsert (s : CState) (e : ℕ) :
    Grow s
      { s with rbcEpochOutputs := aset s.rbcEpochOutputs e (alookupD s.rbcEpochOutputs e []) } :=
  ⟨fun _ _ h => h, fun _ _ h => h, fun _ _ h => h, fun _ _ h => h,
   fun _ _ _ h => h, fun _ _ _ h => h, fun _ _ h => h, fun _ h => h,
   fun e2 x h => by rw [alookupD_orInsert]; exact h,
   fun _ h => h, fun _ h => h, fun _ h => h⟩

theorem grow_epochOutputs_set (s : CState) (e : ℕ) (v : List ℕ)
    (hsup : ∀ x, x ∈ alookupD s.rbcEpochOutputs e [] → x ∈ v) :
    Grow s { s with rbcEpochOutputs := aset s.rbcEpochOutputs e v } :=
  ⟨fun _ _ h => h, fun _ _ h => h, fun _ _ h => h, fun _ _ h => h,
   fun _ _ _ h => h, fun _ _ _ h => h, fun _ _ h => h, fun _ h => h,
   fun e2 x h =>
     alookupD_aset_grow (fun x2 l => x2 ∈ l) s.rbcEpochOutputs e v [] hsup e2 x h,
   fun _ h => h, fun _ h => h, fun _ h => h⟩

theorem grow_abaEnds_orInsert (s : CState) (k : ℕ × ℕ) :
    Grow s { s with abaEnds := aset s.abaEnds k (alookupD s.abaEnds k false) } :=
  ⟨fun _ _ h => h, fun _ _ h => h, fun _ _ h => h, fun _ _ h => h,
   fun _ _ _ h => h, fun _ _ _ h => h, fun _ _ h => h, fun _ h => h,
   fun _ _ h => h, fun _ h => h, fun _ h => h,
   fun k2 h => (alookup_orInsert_true s.abaEnds k k2).mpr h⟩

theorem grow_abaEnds_true (s : CState) (k : ℕ × ℕ) :
    Grow s { s with abaEnds := aset s.abaEnds k true } :=
  ⟨fun _ _ h => h, fun _ _ h => h, fun _ _ h => h, fun _ _ h => h,
   fun _ _ _ h => h, fun _ _ _ h => h, fun _ _ h => h, fun _ h => h,
   fun _ _ h => h, fun _ h => h, fun _ h => h,
   fun k2 h => alookup_aset_true_of _ _ _ h⟩

theorem rbcAppend_used_grow (m : RBCProofMaker) (e h : ℕ) (au : PublicKey)
    (tag : ℕ) (sig : Signature) (c : Committee) :
    ∀ a, a ∈ m.used → a ∈ (m.append e h au tag sig c).1.used := by
  intro a ha
  unfold RBCProofMaker.append
  dsimp only
  split_ifs <;> first | exact ha | exact List.mem_cons_of_mem _ ha

theorem prepAppend_used_grow (m : PrepareMaker) (p : Prepare) (c : Committee) :
    ∀ a, a ∈ m.used → a ∈ (m.append p c).1.used := by
  intro a ha
  unfold PrepareMaker.append
  dsimp only
  split_ifs <;> first | exact ha | exact List.mem_cons_of_mem _ ha

theorem coinAppend_used_grow (m : RandomCoinMaker) (sh : RandomnessShare)
    (c : Committee) (pkSet : PublicKeySet) :
    ∀ a, a ∈ m.used → a ∈ (m.append sh c pkSet).1.used := by
  intro a ha
  unfold RandomCoinMaker.append
  dsimp only
  split_ifs with h1 h2
  · exact ha
  · split <;> exact List.mem_cons_of_mem _ ha
  · exact List.mem_cons_of_mem _ ha

theorem grow_addEcho (s : CState) (v : EchoVote) :
    Grow s { s with aggregator := (s.aggregator.addRBCEchoVote v).1 } := by
  refine ⟨?_, fun _ _ h => h, fun _ _ h => h, fun _ _ h => h,
    fun _ _ _ h => h, fun _ _ _ h => h, fun _ _ h => h, fun _ h => h,
    fun _ _ h => h, fun _ h => h, fun _ h => h, fun _ h => h⟩
  intro k a h
  unfold echoUsed at *
  show a ∈ (alookupD (aset s.aggregator.echoVoteAggregators (v.epoch, v.height) _)
    k RBCProofMaker.new).used
  exact alookupD_aset_grow (fun a2 mk => a2 ∈ mk.used)
    s.aggregator.echoVoteAggregators (v.epoch, v.height) _ RBCProofMaker.new
    (rbcAppend_used_grow _ _ _ _ _ _ _) k a h

theorem grow_addReady (s : CState) (v : ReadyVote) :
    Grow s { s with aggregator := (s.aggregator.addRBCReadyVote v).1 } := by
  refine ⟨fun _ _ h => h, ?_, fun _ _ h => h, fun _ _ h => h,
    fun _ _ _ h => h, fun _ _ _ h => h, fun _ _ h => h, fun _ h => h,
    fun _ _ h => h, fun _ h => h, fun _ h => h, fun _ h => h⟩
  intro k a h
  unfold readyUsed at *
  show a ∈ (alookupD (aset s.aggregator.readyVoteAggregators (v.epoch, v.height) _)
    k RBCProofMaker.new).used
  exact alookupD_aset_grow (fun a2 mk => a2 ∈ mk.used)
    s.aggregator.readyVoteAggregators (v.epoch, v.height) _ RBCProofMaker.new
    (rbcAppend_used_grow _ _ _ _ _ _ _) k a h

theorem grow_addPrepare (s : CState) (p : Prepare) :
    Grow s { s with aggregator := (s.aggregator.addPrepareVote p).1 } := by
  refine ⟨fun _ _ h => h, fun _ _ h => h, ?_, fun _ _ h => h,
    fun _ _ _ h => h, fun _ _ _ h => h, fun _ _ h => h, fun _ h => h,
    fun _ _ h => h, fun _ h => h, fun _ h => h, fun _ h => h⟩
  intro k a h
  unfold prepUsed at *
  show a ∈ (alookupD (aset s.aggregator.prepareVoteAggregators
    (p.epoch, p.height, p.phase) _) k PrepareMaker.new).used
  exact alookupD_aset_grow (fun a2 mk => a2 ∈ mk.used)
    s.aggregator.prepareVoteAggregators (p.epoch, p.height, p.phase) _ PrepareMaker.new
    (prepAppend_used_grow _ _ _) k a h

theorem grow_addCoin (s : CState) (sh : RandomnessShare) (pkSet : PublicKeySet) :
    Grow s { s with aggregator := (s.aggregator.addABAShareCoin sh pkSet).1 } := by
  refine ⟨fun _ _ h => h, fun _ _ h => h, fun _ _ h => h, ?_,
    fun _ _ _ h => h, fun _ _ _ h => h, fun _ _ h => h, fun _ h => h,
    fun _ _ h => h, fun _ h => h, fun _ h => h, fun _ h => h⟩
  intro k a h
  unfold coinUsed at *
  show a ∈ (alookupD (aset s.aggregator.shareCoinAggregators
    (sh.epoch, sh.height, sh.round) _) k RandomCoinMaker.new).used
  exact alookupD_aset_grow (fun a2 mk => a2 ∈ mk.used)
    s.aggregator.shareCoinAggregators (sh.epoch, sh.height, sh.round) _
    RandomCoinMaker.new (coinAppend_used_grow _ _ _ _) k a h

theorem grow_bind_any {α : Type} {x : M α} {f : α → M Unit} {s : CState}
    (hx : Grow s (x s).st) (hf : ∀ a s2, Grow s2 (f a s2).st) :
    Grow s ((x >>= f) s).st :=
  grow_bind hx (fun a _ => hf a _)

theorem grow_bind_modify_any {g : CState → CState} {f : Unit → M Unit} {s : CState}
    (hg : Grow s (g s)) (hf : ∀ s2, Grow s2 (f () s2).st) :
    Grow s ((modifyS g >>= f) s).st := by
  rw [modifyS_bind]
  exact grow_trans hg (hf (g s))

theorem grow_bind_modify_gen (P : CState → Prop) {g : CState → CState}
    {f : Unit → M Unit} {s : CState} (hg : Grow s (g s)) (hP : P (g s))
    (hf : ∀ s2, P s2 → Grow s2 (f () s2).st) :
    Grow s ((modifyS g >>= f) s).st := by
  rw [modifyS_bind]
  exact grow_trans hg (hf (g s) hP)

theorem grow_bind_liftAgg_any {α : Type}
    {g : Aggregator → Aggregator × Except ConsensusError α} {f : α → M Unit}
    {s : CState} (hg : Grow s { s with aggregator := (g s.aggregator).1 })
    (hf : ∀ a s2, Grow s2 (f a s2).st) :
    Grow s ((liftAgg g >>= f) s).st := by
  cases hv : (g s.aggregator).2 with
  | error e =>
    rw [liftAgg_bind_err g f s e hv]
    exact hg
  | ok a =>
    rw [liftAgg_bind g f s a hv]
    exact grow_trans hg (hf a _)

/-- Every handler of the core only grows the monotone state: aggregator
author sets, ABA voter and output sets, delivered buffers, epoch outputs,
the ready set, the prepare flags, and the true aba_ends entries. -/
theorem exec_grow (ctx : Ctx) :
    ∀ (n : ℕ) (c : Call) (s : CState), Grow s (exec ctx n c s).st := by
  intro n
  induction n with
  | zero => intro c s; exact grow_refl s
  | succ n ih =>
    intro c s
    cases c with
    | generateRBCProposal =>
      simp only [exec]
      refine grow_bind_getS ?_
      split
      · exact grow_pure _ _
      · refine grow_bind_emit ?_
        exact ih _ _
    | handleRBCVal b =>
      simp only [exec, storeBlockM]
      split
      · exact grow_pure _ _
      · refine grow_bind_modify_any (grow_storeBlock_state ctx b s) ?_
        intro s2
        refine grow_bind_emit ?_
        exact ih _ _
    | handleRBCEcho v =>
      simp only [exec]
      refine grow_bind_liftAgg_any (grow_addEcho s v) ?_
      intro a s2
      cases a with
      | none => exact grow_pure _ _
      | some proof =>
        refine grow_bind_modify_any (grow_proofs_ready s2 _ _) ?_
        intro s3
        refine grow_bind_emit ?_
        exact grow_bind_any (ih _ _) (fun _ s4 => ih _ s4)
    | handleRBCReady v =>
      simp only [exec]
      refine grow_bind_liftAgg_any (grow_addReady s v) ?_
      intro a s2
      cases a with
      | none => exact grow_pure _ _
      | some proof =>
        refine grow_bind_getS ?_
        refine grow_bind_modify_any (grow_proofs_only s2 _) ?_
        intro s3
        split
        · refine grow_bind_modify_any (grow_ready_only s3 _) ?_
          intro s4
          refine grow_bind_emit ?_
          exact grow_bind_any (ih _ _) (fun _ s5 => ih _ s5)
        · split
          · exact ih _ _
          · exact grow_pure _ _
    | processRBCOutput e h =>
      simp only [exec]
      refine grow_bind_getS ?_
      refine grow_bind_modify_gen
        (fun s2 => alookupD s2.rbcEpochOutputs e [] = alookupD s.rbcEpochOutputs e [])
        (grow_epochOutputs_orInsert s e) (alookupD_aset_self _ _ _ _) ?_
      intro s2 hs2
      split
      · exact grow_pure _ _
      · cases hlook : alookup s.store (Core.rank ctx.mbb e h ctx.committee) with
        | none => exact grow_emit _ _
        | some b =>
          refine grow_bind_modify_any ?_ ?_
          · refine grow_epochOutputs_set s2 e _ ?_
            intro x hx
            rw [hs2] at hx
            exact mem_sinsert_of_mem _ _ _ hx
          · intro s3
            refine grow_bind_emit ?_
            split
            · exact grow_bind_any (ih _ _) (fun _ s4 => ih _ s4)
            · exact grow_pure _ _
    | rbcAdvance e =>
      simp only [exec]
      refine grow_bind_getS ?_
      split
      · refine grow_bind_modify_any (grow_epoch s e) ?_
        intro s2
        exact ih _ _
      · exact grow_pure _ _
    | fallbackCheck cur =>
      simp only [exec]
      refine grow_bind_getS ?_
      split
      · exact ih _ _
      · exact grow_pure _ _
    | fallbackLoop e hs =>
      cases hs with
      | nil =>
        simp only [exec]
        exact grow_pure _ _
      | cons h t =>
        simp only [exec]
        refine grow_bind_getS ?_
        split
        · exact ih _ _
        · exact grow_bind_any (ih _ _) (fun _ s2 => ih _ s2)
    | invokePrepare e h val =>
      simp only [exec]
      refine grow_bind_getS ?_
      split
      · exact grow_pure _ _
      · refine grow_bind_modify_any (grow_prepareFlags s (e, h)) ?_
        intro s2
        refine grow_bind_emit ?_
        exact ih _ _
    | handlePrepare p =>
      simp only [exec]
      refine grow_bind_liftAgg_any (grow_addPrepare s p) ?_
      intro a s2
      cases a with
      | none => exact grow_pure _ _
      | some d =>
        dsimp only
        split
        · split
          · exact ih _ _
          · split
            · exact grow_emit _ _
            · exact grow_pure _ _
        · split
          · refine grow_bind_emit ?_
            exact ih _ _
          · split
            · refine grow_bind_emit ?_
              exact ih _ _
            · exact grow_pure _ _
    | handleABAVal v =>
      simp only [exec]
      refine grow_bind_ensure ?_
      intro hval
      refine grow_bind_getS ?_
      refine grow_bind_modify_gen
        (fun s2 => alookupD s2.abaValues (v.epoch, v.height, v.round) ([], []) =
          alookupD s.abaValues (v.epoch, v.height, v.round) ([], []))
        (grow_abaValues_orInsert s (v.epoch, v.height, v.round))
        (alookupD_aset_self _ _ _ _) ?_
      intro s2 hs2
      split
      · exact grow_pure _ _
      · refine grow_bind_modify_gen
          (fun s3 => alookupD s3.abaValues (v.epoch, v.height, v.round) ([], []) =
            pset (alookupD s.abaValues (v.epoch, v.height, v.round) ([], [])) v.val
              (sinsert v.author
                (pget (alookupD s.abaValues (v.epoch, v.height, v.round) ([], [])) v.val)))
          ?_ (alookupD_aset_self _ _ _ _) ?_
        · refine grow_abaValues_set s2 _ _ ?_
          intro i a ha
          rw [hs2] at ha
          exact mem_pget_pset i v.val ha
        · intro s3 hs3
          split
          · refine grow_bind_emit ?_
            refine grow_bind_modify_any ?_ ?_
            · refine grow_abaValues_set s3 _ _ ?_
              intro i a ha
              rw [hs3] at ha
              exact mem_pget_pset i v.val ha
            · intro s4
              exact ih _ _
          · exact ih _ _
    | abaValQuorum e h r val nums =>
      simp only [exec]
      split
      · refine grow_bind_getS ?_
        refine grow_bind_modify_any (grow_valuesFlag s _) ?_
        intro s2
        split
        · refine grow_bind_modify_any (grow_valuesFlag s2 _) ?_
          intro s3
          refine grow_bind_emit ?_
          exact ih _ _
        · exact grow_valuesFlag s2 _
      · exact grow_pure _ _
    | handleABAMux v =>
      simp only [exec]
      refine grow_bind_ensure ?_
      intro hval
      refine grow_bind_getS ?_
      refine grow_bind_modify_gen
        (fun s2 => alookupD s2.abaMuxValues (v.epoch, v.height, v.round) ([], []) =
          alookupD s.abaMuxValues (v.epoch, v.height, v.round) ([], []))
        (grow_abaMuxValues_orInsert s (v.epoch, v.height, v.round))
        (alookupD_aset_self _ _ _ _) ?_
      intro s2 hs2
      split
      · exact grow_pure _ _
      · refine grow_bind_modify_any ?_ ?_
        · refine grow_abaMuxValues_set s2 _ _ ?_
          intro i a ha
          rw [hs2] at ha
          exact mem_pget_pset i v.val ha
        · intro s3
          refine grow_bind_getS ?_
          refine grow_bind_modify_any (grow_muxFlags s3 _) ?_
          intro s4
          split
          · split
            · refine grow_bind_getS ?_
              refine grow_bind_modify_any (grow_valuesFlag s4 _) ?_
              intro s5
              refine grow_bind_modify_any (grow_muxFlags s5 _) ?_
              intro s6
              split
              · split
                · refine grow_bind_emit ?_
                  exact ih _ _
                · exact grow_pure _ _
              · split
                · split
                  · refine grow_bind_emit ?_
                    exact ih _ _
                  · exact grow_pure _ _
                · split
                  · refine grow_bind_emit ?_
                    exact ih _ _
                  · exact grow_pure _ _
            · split
              · refine grow_bind_emit ?_
                exact ih _ _
              · exact grow_pure _ _
          · exact grow_pure _ _
    | handleABAShare sh =>
      simp only [exec]
      refine grow_bind_liftAgg_any (grow_addCoin s sh ctx.pkSet) ?_
      intro a s2
      cases a with
      | none => exact grow_pure _ _
      | some coin =>
        dsimp only
        refine grow_bind_getS ?_
        refine grow_bind_modify_any (grow_muxFlags s2 _) ?_
        intro s3
        split
        · exact grow_bind_any (ih _ _) (fun _ s4 => ih _ s4)
        · split
          · exact ih _ _
          · exact ih _ _
    | handleABAOutput o =>
      simp only [exec]
      refine grow_bind_getS ?_
      refine grow_bind_modify_gen
        (fun s2 => alookupD s2.abaOutputs (o.epoch, o.height, o.round) [] =
          alookupD s.abaOutputs (o.epoch, o.height, o.round) [])
        (grow_abaOutputs_orInsert s (o.epoch, o.height, o.round))
        (alookupD_aset_self _ _ _ _) ?_
      intro s2 hs2
      split
      · exact grow_pure _ _
      · refine grow_bind_modify_gen
          (fun s3 => alookupD s3.abaOutputs (o.epoch, o.height, o.round) [] =
            sinsert o.author (alookupD s.abaOutputs (o.epoch, o.height, o.round) []))
          ?_ (alookupD_aset_self _ _ _ _) ?_
        · refine grow_abaOutputs_set s2 _ _ ?_
          intro a ha
          rw [hs2] at ha
          exact mem_sinsert_of_mem _ _ _ ha
        · intro s3 hs3
          split
          · split
            · exact grow_bind_any (grow_pure _ _) (fun _ s4 => ih _ s4)
            · refine grow_bind_emit ?_
              refine grow_bind_modify_any ?_ ?_
              · refine grow_abaOutputs_set s3 _ _ ?_
                intro a ha
                rw [hs3] at ha
                exact mem_sinsert_of_mem _ _ _ ha
              · intro s4
                exact ih _ _
          · exact grow_pure _ _
    | processABAOutput e h r v =>
      simp only [exec]
      refine grow_bind_getS ?_
      refine grow_bind_modify_any (grow_abaEnds_orInsert s (e, h)) ?_
      intro s2
      split
      · exact grow_pure _ _
      · refine grow_bind_getS ?_
        refine grow_bind_modify_gen
          (fun s3 => alookupD s3.abaOutputs (e, h, r) [] =
            alookupD s2.abaOutputs (e, h, r) [])
          (grow_abaOutputs_orInsert s2 (e, h, r)) (alookupD_aset_self _ _ _ _) ?_
        intro s3 hs3
        split
        · refine grow_bind_any (grow_pure _ _) ?_
          intro a s4
          refine grow_bind_modify_any (grow_abaEnds_true s4 (e, h)) ?_
          intro s5
          split
          · exact ih _ _
          · exact grow_emit _ _
        · refine grow_bind_modify_any ?_ ?_
          · refine grow_abaOutputs_set s3 _ _ ?_
            intro a ha
            rw [hs3] at ha
            exact mem_sinsert_of_mem _ _ _ ha
          · intro s4
            refine grow_bind_emit ?_
            refine grow_bind_modify_any (grow_abaEnds_true s4 (e, h)) ?_
            intro s5
            split
            · exact ih _ _
            · exact grow_emit _ _
    | abaAdvanceRound e h r v =>
      simp only [exec]
      refine grow_bind_getS ?_
      refine grow_bind_modify_any (grow_abaEnds_orInsert s (e, h)) ?_
      intro s2
      split
      · exact grow_pure _ _
      · refine grow_bind_emit ?_
        exact ih _ _
    | handleSyncRequest e h sender =>
      simp only [exec]
      refine grow_bind_getS ?_
      cases alookup s.store (Core.rank ctx.mbb e h ctx.committee) with
      | some b => exact grow_emit _ _
      | none => exact grow_pure _ _
    | handleSyncReply b =>
      simp only [exec, storeBlockM]
      refine grow_bind_modify_any (grow_storeBlock_state ctx b s) ?_
      intro s2
      exact ih _ _


theorem pure_bind_apply {α β : Type} (a : α) (f : α → M β) (s : CState) :
    ((pure a : M α) >>= f) s = f a s := rfl

theorem outputs_ne_of_grow {t u : CState} (hg : Grow t u) {k : ℕ × ℕ × ℕ}
    (h : alookupD t.abaOutputs k [] ≠ []) : alookupD u.abaOutputs k [] ≠ [] := by
  obtain ⟨-, -, -, -, -, -, ho, -⟩ := hg
  obtain ⟨a, ha⟩ := List.exists_mem_of_ne_nil _ h
  exact List.ne_nil_of_mem (ho k a ha)

theorem EndsNew_refl (s : CState) : EndsNew s s := fun _ h => Or.inl h

theorem EndsNew_comp {s t u : CState} (h1 : EndsNew s t) (h2 : EndsNew t u)
    (hg : Grow t u) : EndsNew s u := by
  intro k hk
  rcases h2 k hk with ht | hr
  · rcases h1 k ht with hs | ⟨r, hr⟩
    · exact Or.inl hs
    · exact Or.inr ⟨r, outputs_ne_of_grow hg hr⟩
  · exact Or.inr hr

theorem EndsNew_pure {α : Type} (a : α) (s : CState) :
    EndsNew s ((pure a : M α) s).st := EndsNew_refl s

theorem EndsNew_emit (o : Out) (s : CState) : EndsNew s ((emit o) s).st :=
  EndsNew_refl s

theorem EndsNew_modify {g : CState → CState} {s : CState}
    (hpres : ∀ k, alookup (g s).abaEnds k = some true →
      alookup s.abaEnds k = some true) :
    EndsNew s ((modifyS g) s).st := fun k hk => Or.inl (hpres k hk)

theorem EndsNew_bind_any {α : Type} {x : M α} {f : α → M Unit} {s : CState}
    (hx : EndsNew s (x s).st) (hgf : ∀ a s2, Grow s2 (f a s2).st)
    (hf : ∀ a s2, EndsNew s2 (f a s2).st) : EndsNew s ((x >>= f) s).st := by
  have hst : ((x >>= f) s).st =
      (match (x s).val with
        | .error _ => (x s).st
        | .ok a => (f a (x s).st).st) := by
    show (M.bind x f s).st = _
    simp only [M.bind]
    cases (x s).val <;> rfl
  rw [hst]
  cases hval : (x s).val with
  | error e => exact hx
  | ok a => exact EndsNew_comp hx (hf a _) (hgf a _)

theorem EndsNew_bind_getS {f : CState → M Unit} {s : CState}
    (hf : EndsNew s (f s s).st) : EndsNew s ((getS >>= f) s).st := by
  rw [getS_bind]
  exact hf

theorem EndsNew_bind_emit {o : Out} {f : Unit → M Unit} {s : CState}
    (hf : EndsNew s (f () s).st) : EndsNew s ((emit o >>= f) s).st := by
  rw [emit_bind]
  exact hf

theorem EndsNew_bind_ensure {p : Prop} [Decidable p] {e : ConsensusError}
    {f : Unit → M Unit} {s : CState} (hf : p → EndsNew s (f () s).st) :
    EndsNew s ((ensureM p e >>= f) s).st := by
  by_cases hp : p
  · rw [ensureM_bind_pos hp]
    exact hf hp
  · rw [ensureM_bind_neg hp]
    exact EndsNew_refl s

theorem EndsNew_bind_modify_gen (P : CState → Prop) {g : CState → CState}
    {f : Unit → M Unit} {s : CState}
    (hpres : ∀ k, alookup (g s).abaEnds k = some true →
      alookup s.abaEnds k = some true)
    (hP : P (g s)) (hf : ∀ s2, P s2 → EndsNew s2 (f () s2).st) :
    EndsNew s ((modifyS g >>= f) s).st := by
  rw [modifyS_bind]
  intro k hk
  rcases hf (g s) hP k hk with h1 | h2
  · exact Or.inl (hpres k h1)
  · exact Or.inr h2

theorem EndsNew_bind_modify_any {g : CState → CState} {f : Unit → M Unit}
    {s : CState}
    (hpres : ∀ k, alookup (g s).abaEnds k = some true →
      alookup s.abaEnds k = some true)
    (hf : ∀ s2, EndsNew s2 (f () s2).st) :
    EndsNew s ((modifyS g >>= f) s).st :=
  EndsNew_bind_modify_gen (fun _ => True) hpres trivial (fun s2 _ => hf s2)

theorem EndsNew_bind_liftAgg_any {α : Type}
    {g : Aggregator → Aggregator × Except ConsensusError α} {f : α → M Unit}
    {s : CState} (hf : ∀ a s2, EndsNew s2 (f a s2).st) :
    EndsNew s ((liftAgg g >>= f) s).st := by
  cases hv : (g s.aggregator).2 with
  | error e =>
    rw [liftAgg_bind_err g f s e hv]
    exact fun k hk => Or.inl hk
  | ok a =>
    rw [liftAgg_bind g f s a hv]
    intro k hk
    rcases hf a _ k hk with h1 | h2
    · exact Or.inl h1
    · exact Or.inr h2

/-- The continuation of process_aba_output after the aba_ends[(e,h)] := true
write: since round r of aba_outputs already holds an author and the
continuation only grows the output sets, the new true entry is witnessed. -/
theorem EndsNew_endsTrue_tail {f : Unit → M Unit} {s3 : CState} (e h r : ℕ)
    (hne : alookupD s3.abaOutputs (e, h, r) [] ≠ [])
    (hg : ∀ s5, Grow s5 (f () s5).st) (hf : ∀ s5, EndsNew s5 (f () s5).st) :
    EndsNew s3
      ((modifyS (fun s1 => { s1 with abaEnds := aset s1.abaEnds (e, h) true })
        >>= f) s3).st := by
  rw [modifyS_bind]
  intro k hk
  rcases hf _ k hk with h1 | h2
  · have h1a : alookup (aset s3.abaEnds (e, h) true) k = some true := h1
    by_cases hke : k = (e, h)
    · refine Or.inr ⟨r, ?_⟩
      have hne2 : alookupD
          ({ s3 with abaEnds := aset s3.abaEnds (e, h) true } : CState).abaOutputs
          (k.1, k.2, r) [] ≠ [] := by
        rw [hke]
        exact hne
      exact outputs_ne_of_grow (hg _) hne2
    · rw [alookup_aset_ne s3.abaEnds (e, h) k true (fun hh => hke hh.symm)] at h1a
      exact Or.inl h1a
  · exact Or.inr h2

/-- Every handler only creates a true aba_ends entry after having recorded
an author in that instance's aba_outputs: the EndsNew relation holds from
any state to the handler's final state. -/
theorem exec_endsNew (ctx : Ctx) :
    ∀ (n : ℕ) (c : Call) (s : CState), EndsNew s (exec ctx n c s).st := by
  intro n
  induction n with
  | zero => intro c s; exact EndsNew_refl s
  | succ n ih =>
    intro c s
    cases c with
    | generateRBCProposal =>
      simp only [exec]
      refine EndsNew_bind_getS ?_
      split
      · exact EndsNew_pure _ _
      · refine EndsNew_bind_emit ?_
        exact ih _ _
    | handleRBCVal b =>
      simp only [exec, storeBlockM]
      split
      · exact EndsNew_pure _ _
      · refine EndsNew_bind_modify_any (fun _ hk => hk) ?_
        intro s2
        refine EndsNew_bind_emit ?_
        exact ih _ _
    | handleRBCEcho v =>
      simp only [exec]
      refine EndsNew_bind_liftAgg_any ?_
      intro a s2
      cases a with
      | none => exact EndsNew_pure _ _
      | some proof =>
        refine EndsNew_bind_modify_any (fun _ hk => hk) ?_
        intro s3
        refine EndsNew_bind_emit ?_
        exact EndsNew_bind_any (ih _ _) (fun _ s4 => exec_grow ctx n _ s4)
          (fun _ s4 => ih _ s4)
    | handleRBCReady v =>
      simp only [exec]
      refine EndsNew_bind_liftAgg_any ?_
      intro a s2
      cases a with
      | none => exact EndsNew_pure _ _
      | some proof =>
        refine EndsNew_bind_getS ?_
        refine EndsNew_bind_modify_any (fun _ hk => hk) ?_
        intro s3
        split
        · refine EndsNew_bind_modify_any (fun _ hk => hk) ?_
          intro s4
          refine EndsNew_bind_emit ?_
          exact EndsNew_bind_any (ih _ _) (fun _ s5 => exec_grow ctx n _ s5)
            (fun _ s5 => ih _ s5)
        · split
          · exact ih _ _
          · exact EndsNew_pure _ _
    | processRBCOutput e h =>
      simp only [exec]
      refine EndsNew_bind_getS ?_
      refine EndsNew_bind_modify_any (fun _ hk => hk) ?_
      intro s2
      split
      · exact EndsNew_pure _ _
      · cases hlook : alookup s.store (Core.rank ctx.mbb e h ctx.committee) with
        | none => exact EndsNew_emit _ _
        | some b =>
          refine EndsNew_bind_modify_any (fun _ hk => hk) ?_
          intro s3
          refine EndsNew_bind_emit ?_
          split
          · exact EndsNew_bind_any (ih _ _) (fun _ s4 => exec_grow ctx n _ s4)
              (fun _ s4 => ih _ s4)
          · exact EndsNew_pure _ _
    | rbcAdvance e =>
      simp only [exec]
      refine EndsNew_bind_getS ?_
      split
      · refine EndsNew_bind_modify_any (fun _ hk => hk) ?_
        intro s2
        exact ih _ _
      · exact EndsNew_pure _ _
    | fallbackCheck cur =>
      simp only [exec]
      refine EndsNew_bind_getS ?_
      split
      · exact ih _ _
      · exact EndsNew_pure _ _
    | fallbackLoop e hs =>
      cases hs with
      | nil =>
        simp only [exec]
        exact EndsNew_pure _ _
      | cons h t =>
        simp only [exec]
        refine EndsNew_bind_getS ?_
        split
        · exact ih _ _
        · exact EndsNew_bind_any (ih _ _) (fun _ s2 => exec_grow ctx n _ s2)
            (fun _ s2 => ih _ s2)
    | invokePrepare e h val =>
      simp only [exec]
      refine EndsNew_bind_getS ?_
      split
      · exact EndsNew_pure _ _
      · refine EndsNew_bind_modify_any (fun _ hk => hk) ?_
        intro s2
        refine EndsNew_bind_emit ?_
        exact ih _ _
    | handlePrepare p =>
      simp only [exec]
      refine EndsNew_bind_liftAgg_any ?_
      intro a s2
      cases a with
      | none => exact EndsNew_pure _ _
      | some d =>
        dsimp only
        split
        · split
          · exact ih _ _
          · split
            · exact EndsNew_emit _ _
            · exact EndsNew_pure _ _
        · split
          · refine EndsNew_bind_emit ?_
            exact ih _ _
          · split
            · refine EndsNew_bind_emit ?_
              exact ih _ _
            · exact EndsNew_pure _ _
    | handleABAVal v =>
      simp only [exec]
      refine EndsNew_bind_ensure ?_
      intro hval
      refine EndsNew_bind_getS ?_
      refine EndsNew_bind_modify_any (fun _ hk => hk) ?_
      intro s2
      split
      · exact EndsNew_pure _ _
      · refine EndsNew_bind_modify_any (fun _ hk => hk) ?_
        intro s3
        split
        · refine EndsNew_bind_emit ?_
          refine EndsNew_bind_modify_any (fun _ hk => hk) ?_
          intro s4
          exact ih _ _
        · exact ih _ _
    | abaValQuorum e h r val nums =>
      simp only [exec]
      split
      · refine EndsNew_bind_getS ?_
        refine EndsNew_bind_modify_any (fun _ hk => hk) ?_
        intro s2
        split
        · refine EndsNew_bind_modify_any (fun _ hk => hk) ?_
          intro s3
          refine EndsNew_bind_emit ?_
          exact ih _ _
        · exact EndsNew_modify (fun _ hk => hk)
      · exact EndsNew_pure _ _
    | handleABAMux v =>
      simp only [exec]
      refine EndsNew_bind_ensure ?_
      intro hval
      refine EndsNew_bind_getS ?_
      refine EndsNew_bind_modify_any (fun _ hk => hk) ?_
      intro s2
      split
      · exact EndsNew_pure _ _
      · refine EndsNew_bind_modify_any (fun _ hk => hk) ?_
        intro s3
        refine EndsNew_bind_getS ?_
        refine EndsNew_bind_modify_any (fun _ hk => hk) ?_
        intro s4
        split
        · split
          · refine EndsNew_bind_getS ?_
            refine EndsNew_bind_modify_any (fun _ hk => hk) ?_
            intro s5
            refine EndsNew_bind_modify_any (fun _ hk => hk) ?_
            intro s6
            split
            · split
              · refine EndsNew_bind_emit ?_
                exact ih _ _
              · exact EndsNew_pure _ _
            · split
              · split
                · refine EndsNew_bind_emit ?_
                  exact ih _ _
                · exact EndsNew_pure _ _
              · split
                · refine EndsNew_bind_emit ?_
                  exact ih _ _
                · exact EndsNew_pure _ _
          · split
            · refine EndsNew_bind_emit ?_
              exact ih _ _
            · exact EndsNew_pure _ _
        · exact EndsNew_pure _ _
    | handleABAShare sh =>
      simp only [exec]
      refine EndsNew_bind_liftAgg_any ?_
      intro a s2
      cases a with
      | none => exact EndsNew_pure _ _
      | some coin =>
        dsimp only
        refine EndsNew_bind_getS ?_
        refine EndsNew_bind_modify_any (fun _ hk => hk) ?_
        intro s3
        split
        · exact EndsNew_bind_any (ih _ _) (fun _ s4 => exec_grow ctx n _ s4)
            (fun _ s4 => ih _ s4)
        · split
          · exact ih _ _
          · exact ih _ _
    | handleABAOutput o =>
      simp only [exec]
      refine EndsNew_bind_getS ?_
      refine EndsNew_bind_modify_any (fun _ hk => hk) ?_
      intro s2
      split
      · exact EndsNew_pure _ _
      · refine EndsNew_bind_modify_any (fun _ hk => hk) ?_
        intro s3
        split
        · split
          · rw [pure_bind_apply]
            exact ih _ _
          · refine EndsNew_bind_emit ?_
            refine EndsNew_bind_modify_any (fun _ hk => hk) ?_
            intro s4
            exact ih _ _
        · exact EndsNew_pure _ _
    | processABAOutput e h r v =>
      simp only [exec]
      refine EndsNew_bind_getS ?_
      refine EndsNew_bind_modify_any
        (fun k hk => (alookup_orInsert_true s.abaEnds (e, h) k).mp hk) ?_
      intro s2
      split
      · exact EndsNew_pure _ _
      · refine EndsNew_bind_getS ?_
        refine EndsNew_bind_modify_gen
          (fun s3 => alookupD s3.abaOutputs (e, h, r) [] =
            alookupD s2.abaOutputs (e, h, r) [])
          (fun _ hk => hk) (alookupD_aset_self _ _ _ _) ?_
        intro s3 hs3
        split
        · rename_i hmem
          rw [pure_bind_apply]
          refine EndsNew_endsTrue_tail e h r ?_ ?_ ?_
          · rw [hs3]
            exact List.ne_nil_of_mem hmem
          · intro s5
            split
            · exact exec_grow ctx n _ s5
            · exact grow_emit _ s5
          · intro s5
            split
            · exact ih _ s5
            · exact EndsNew_emit _ s5
        · refine EndsNew_bind_modify_gen
            (fun s4 => alookupD s4.abaOutputs (e, h, r) [] ≠ [])
            (fun _ hk => hk) ?_ ?_
          · have hm : ctx.name ∈ alookupD (aset s3.abaOutputs (e, h, r)
                (sinsert ctx.name (alookupD s2.abaOutputs (e, h, r) []))) (e, h, r) [] := by
              rw [alookupD_aset_self]
              exact mem_sinsert_self _ _
            exact List.ne_nil_of_mem hm
          · intro s4 hs4
            refine EndsNew_bind_emit ?_
            refine EndsNew_endsTrue_tail e h r hs4 ?_ ?_
            · intro s5
              split
              · exact exec_grow ctx n _ s5
              · exact grow_emit _ s5
            · intro s5
              split
              · exact ih _ s5
              · exact EndsNew_emit _ s5
    | abaAdvanceRound e h r v =>
      simp only [exec]
      refine EndsNew_bind_getS ?_
      refine EndsNew_bind_modify_any
        (fun k hk => (alookup_orInsert_true s.abaEnds (e, h) k).mp hk) ?_
      intro s2
      split
      · exact EndsNew_pure _ _
      · refine EndsNew_bind_emit ?_
        exact ih _ _
    | handleSyncRequest e h sender =>
      simp only [exec]
      refine EndsNew_bind_getS ?_
      cases alookup s.store (Core.rank ctx.mbb e h ctx.committee) with
      | some b => exact EndsNew_emit _ _
      | none => exact EndsNew_pure _ _
    | handleSyncReply b =>
      simp only [exec, storeBlockM]
      refine EndsNew_bind_modify_any (fun _ hk => hk) ?_
      intro s2
      exact ih _ _

/-- One run-loop event only grows the monotone state. -/
theorem stepRun_grow (ctx : Ctx) (n : ℕ) (st : Step) (s : CState) :
    Grow s (stepRun ctx n st s).st := by
  cases st with
  | start => exact exec_grow ctx n _ s
  | recv m =>
    show Grow s ((recvStep ctx n m) s).st
    unfold recvStep
    split
    · exact grow_refl s
    · exact exec_grow ctx n _ s

/-- One run-loop event satisfies the EndsNew relation. -/
theorem stepRun_endsNew (ctx : Ctx) (n : ℕ) (st : Step) (s : CState) :
    EndsNew s (stepRun ctx n st s).st := by
  cases st with
  | start => exact exec_endsNew ctx n _ s
  | recv m =>
    show EndsNew s ((recvStep ctx n m) s).st
    unfold recvStep
    split
    · exact EndsNew_refl s
    · exact exec_endsNew ctx n _ s

/-- The termination invariant holds in every reachable state: it holds
initially (no aba_ends entries) and every step either keeps a true entry
(with its output witness transported by monotone growth) or creates one
together with a fresh output witness. -/
theorem reachable_abaEndsInv {ctx : Ctx} {s : CState} (hr : Reachable ctx s) :
    AbaEndsInv s := by
  induction hr with
  | init =>
    intro e h hk
    exact Option.noConfusion hk
  | step st n hr hfuel ih =>
    rename_i s0
    intro e h hk
    rcases stepRun_endsNew ctx n st s0 (e, h) hk with h1 | ⟨r, h2⟩
    · obtain ⟨r, hr2⟩ := ih e h h1
      exact ⟨r, outputs_ne_of_grow (stepRun_grow ctx n st s0) hr2⟩
    · exact ⟨r, h2⟩

/-- C2: amended. The code does not put random_coin_threshold authors behind
a true aba_ends flag (the coin path of handle_aba_share reaches
process_aba_output without any ABAOutput quorum, recording only the node
itself; see the counterexample). What every reachable core state does
maintain is: whenever aba_ends[(e,h)] is true, some round r of
aba_outputs[(e,h,r)] holds at least one recorded author, because
process_aba_output inserts this node into the round's output set before
setting the end mark, and message handling only grows output sets. -/
theorem C2_reachable_aba_ends_witnessed (ctx : Ctx) (s : CState)
    (hr : Reachable ctx s) : AbaEndsInv s :=
  reachable_abaEndsInv hr

/-- Witness for C2: the concrete reachable state of the counterexample
trace has aba_ends[(0,3)] = true, and the theorem yields a round of
aba_outputs[(0,3,r)] with a recorded author. -/
theorem C2_witness :
    alookup stateC2.abaEnds (0, 3) = some true ∧
    ∃ r, alookupD stateC2.abaOutputs (0, 3, r) [] ≠ [] :=
  ⟨by decide, C2_reachable_aba_ends_witnessed ctx4 stateC2 reachable_stateC2 0 3 (by decide)⟩

theorem alookupD_present {K V : Type} [DecidableEq K] {m : List (K × V)} {k : K}
    {d : V} (P : V → Prop) (hP : P (alookupD m k d)) (hd : ¬ P d) :
    alookup m k = some (alookupD m k d) := by
  unfold alookupD at *
  cases hl : alookup m k with
  | none =>
    rw [hl] at hP
    exact absurd hP hd
  | some v => rfl

theorem pget_pset_self {α : Type} (p : α × α) (i : ℕ) (v : α) :
    pget (pset p i v) i = v := by
  unfold pget pset
  by_cases hi : i = 0 <;> simp [hi]

theorem rbcAppend_dup {m : RBCProofMaker} {a : PublicKey} (e h tag : ℕ)
    (sig : Signature) (c : Committee) (hd : a ∈ m.used) :
    m.append e h a tag sig c = (m, .error (.authorityReuseInRBCVote a)) := by
  unfold RBCProofMaker.append
  rw [if_pos hd]

theorem prepAppend_dup {m : PrepareMaker} {p : Prepare} (c : Committee)
    (hd : p.author ∈ m.used) :
    m.append p c = (m, .error (.authorityReuseInPrepare p.author)) := by
  unfold PrepareMaker.append
  rw [if_pos hd]

theorem coinAppend_dup {m : RandomCoinMaker} {share : RandomnessShare}
    (c : Committee) (pk : PublicKeySet) (hd : share.author ∈ m.used) :
    m.append share c pk = (m, .error (.authorityReuseInCoin share.author)) := by
  unfold RandomCoinMaker.append
  rw [if_pos hd]

theorem rbcAppend_mem (m : RBCProofMaker) (e h : ℕ) (a : PublicKey) (tag : ℕ)
    (sig : Signature) (c : Committee) :
    a ∈ (m.append e h a tag sig c).1.used := by
  unfold RBCProofMaker.append
  split
  · rename_i hdup
    exact hdup
  · dsimp only
    split_ifs <;> exact List.mem_cons_self _ _

theorem prepAppend_mem (m : PrepareMaker) (p : Prepare) (c : Committee) :
    p.author ∈ (m.append p c).1.used := by
  unfold PrepareMaker.append
  split
  · rename_i hdup
    exact hdup
  · dsimp only
    split_ifs <;> exact List.mem_cons_self _ _

theorem coinAppend_mem (m : RandomCoinMaker) (share : RandomnessShare)
    (c : Committee) (pk : PublicKeySet) :
    share.author ∈ (m.append share c pk).1.used := by
  unfold RandomCoinMaker.append
  split
  · rename_i hdup
    exact hdup
  · dsimp only
    split_ifs
    · split <;> exact List.mem_cons_self _ _
    · exact List.mem_cons_self _ _

theorem addEcho_mem (ag : Aggregator) (v : EchoVote) :
    v.author ∈ echoUsed (ag.addRBCEchoVote v).1 (v.epoch, v.height) := by
  unfold echoUsed
  simp only [Aggregator.addRBCEchoVote]
  rw [alookupD_aset_self]
  exact rbcAppend_mem _ _ _ _ _ _ _

theorem addReady_mem (ag : Aggregator) (v : ReadyVote) :
    v.author ∈ readyUsed (ag.addRBCReadyVote v).1 (v.epoch, v.height) := by
  unfold readyUsed
  simp only [Aggregator.addRBCReadyVote]
  rw [alookupD_aset_self]
  exact rbcAppend_mem _ _ _ _ _ _ _

theorem addPrepare_mem (ag : Aggregator) (p : Prepare) :
    p.author ∈ prepUsed (ag.addPrepareVote p).1 (p.epoch, p.height, p.phase) := by
  unfold prepUsed
  simp only [Aggregator.addPrepareVote]
  rw [alookupD_aset_self]
  exact prepAppend_mem _ _ _

theorem addCoin_mem (ag : Aggregator) (sh : RandomnessShare) (pk : PublicKeySet) :
    sh.author ∈ coinUsed (ag.addABAShareCoin sh pk).1 (sh.epoch, sh.height, sh.round) := by
  unfold coinUsed
  simp only [Aggregator.addABAShareCoin]
  rw [alookupD_aset_self]
  exact coinAppend_mem _ _ _ _

theorem addEcho_dup {ag : Aggregator} {v : EchoVote}
    (h : v.author ∈ echoUsed ag (v.epoch, v.height)) :
    ag.addRBCEchoVote v = (ag, .error (.authorityReuseInRBCVote v.author)) := by
  have h2 : v.author ∈
      (alookupD ag.echoVoteAggregators (v.epoch, v.height) RBCProofMaker.new).used := h
  have hkey := alookupD_present (fun (mk : RBCProofMaker) => v.author ∈ mk.used) h2
    (by simp [RBCProofMaker.new])
  simp only [Aggregator.addRBCEchoVote]
  rw [rbcAppend_dup _ _ _ _ _ h2]
  dsimp only
  rw [aset_self _ _ _ hkey]

theorem addReady_dup {ag : Aggregator} {v : ReadyVote}
    (h : v.author ∈ readyUsed ag (v.epoch, v.height)) :
    ag.addRBCReadyVote v = (ag, .error (.authorityReuseInRBCVote v.author)) := by
  have h2 : v.author ∈
      (alookupD ag.readyVoteAggregators (v.epoch, v.height) RBCProofMaker.new).used := h
  have hkey := alookupD_present (fun (mk : RBCProofMaker) => v.author ∈ mk.used) h2
    (by simp [RBCProofMaker.new])
  simp only [Aggregator.addRBCReadyVote]
  rw [rbcAppend_dup _ _ _ _ _ h2]
  dsimp only
  rw [aset_self _ _ _ hkey]

theorem addPrepare_dup {ag : Aggregator} {p : Prepare}
    (h : p.author ∈ prepUsed ag (p.epoch, p.height, p.phase)) :
    ag.addPrepareVote p = (ag, .error (.authorityReuseInPrepare p.author)) := by
  have h2 : p.author ∈
      (alookupD ag.prepareVoteAggregators (p.epoch, p.height, p.phase)
        PrepareMaker.new).used := h
  have hkey := alookupD_present (fun (mk : PrepareMaker) => p.author ∈ mk.used) h2
    (by simp [PrepareMaker.new])
  simp only [Aggregator.addPrepareVote]
  rw [prepAppend_dup _ h2]
  dsimp only
  rw [aset_self _ _ _ hkey]

theorem addCoin_dup {ag : Aggregator} {sh : RandomnessShare} (pk : PublicKeySet)
    (h : sh.author ∈ coinUsed ag (sh.epoch, sh.height, sh.round)) :
    ag.addABAShareCoin sh pk = (ag, .error (.authorityReuseInCoin sh.author)) := by
  have h2 : sh.author ∈
      (alookupD ag.shareCoinAggregators (sh.epoch, sh.height, sh.round)
        RandomCoinMaker.new).used := h
  have hkey := alookupD_present (fun (mk : RandomCoinMaker) => sh.author ∈ mk.used) h2
    (by simp [RandomCoinMaker.new])
  simp only [Aggregator.addABAShareCoin]
  rw [coinAppend_dup _ _ h2]
  dsimp only
  rw [aset_self _ _ _ hkey]

/-- The handledFact of every message kind is preserved by monotone growth. -/
theorem handledFact_grow (ctx : Ctx) (m : ConsensusMessage) {t u : CState}
    (hg : Grow t u) (hf : handledFact ctx m t) : handledFact ctx m u := by
  obtain ⟨he, hr, hp, hc, hav, ham, hao, hb, heo, -, -, -⟩ := hg
  cases m with
  | RBCValMsg b =>
    rcases hf with hl | ⟨h1, h2⟩
    · exact Or.inl hl
    · exact Or.inr ⟨hb _ h1, he _ _ h2⟩
  | LoopBackMsg b =>
    rcases hf with hl | ⟨h1, h2⟩
    · exact Or.inl hl
    · exact Or.inr ⟨hb _ h1, he _ _ h2⟩
  | RBCEchoMsg v => exact he _ _ hf
  | RBCReadyMsg v => exact hr _ _ hf
  | PrePareMsg p => exact hp _ _ hf
  | ABACoinShareMsg sh => exact hc _ _ hf
  | ABAValMsg v => exact fun hle => hav _ _ _ (hf hle)
  | ABAMuxMsg v => exact fun hle => ham _ _ _ (hf hle)
  | ABAOutputMsg o => exact hao _ _ hf
  | SyncRequestMsg e h sender => exact trivial
  | SyncReplyMsg b => exact ⟨hb _ hf.1, heo _ _ hf.2⟩

theorem grow_echoUsed (t : CState) {u : CState} (hg : Grow t u) {k : ℕ × ℕ} {a : PublicKey}
    (h : a ∈ echoUsed t.aggregator k) : a ∈ echoUsed u.aggregator k := hg.1 k a h

theorem grow_readyUsed (t : CState) {u : CState} (hg : Grow t u) {k : ℕ × ℕ} {a : PublicKey}
    (h : a ∈ readyUsed t.aggregator k) : a ∈ readyUsed u.aggregator k := hg.2.1 k a h

theorem grow_prepUsed (t : CState) {u : CState} (hg : Grow t u) {k : ℕ × ℕ × ℕ} {a : PublicKey}
    (h : a ∈ prepUsed t.aggregator k) : a ∈ prepUsed u.aggregator k := hg.2.2.1 k a h

theorem grow_coinUsed (t : CState) {u : CState} (hg : Grow t u) {k : ℕ × ℕ × ℕ} {a : PublicKey}
    (h : a ∈ coinUsed t.aggregator k) : a ∈ coinUsed u.aggregator k :=
  hg.2.2.2.1 k a h

theorem grow_abaValuesMem {t u : CState} (hg : Grow t u) {k : ℕ × ℕ × ℕ} {i : ℕ}
    {a : PublicKey} (h : a ∈ pget (alookupD t.abaValues k ([], [])) i) :
    a ∈ pget (alookupD u.abaValues k ([], [])) i := hg.2.2.2.2.1 k i a h

theorem grow_abaMuxMem {t u : CState} (hg : Grow t u) {k : ℕ × ℕ × ℕ} {i : ℕ}
    {a : PublicKey} (h : a ∈ pget (alookupD t.abaMuxValues k ([], [])) i) :
    a ∈ pget (alookupD u.abaMuxValues k ([], [])) i := hg.2.2.2.2.2.1 k i a h

theorem grow_abaOutputsMem {t u : CState} (hg : Grow t u) {k : ℕ × ℕ × ℕ}
    {a : PublicKey} (h : a ∈ alookupD t.abaOutputs k []) :
    a ∈ alookupD u.abaOutputs k [] := hg.2.2.2.2.2.2.1 k a h

theorem grow_buffersTrue {t u : CState} (hg : Grow t u) {k : ℕ × ℕ}
    (h : alookup t.buffers k = some true) : alookup u.buffers k = some true :=
  hg.2.2.2.2.2.2.2.1 k h

theorem grow_epochOutputsMem {t u : CState} (hg : Grow t u) {e x : ℕ}
    (h : x ∈ alookupD t.rbcEpochOutputs e []) : x ∈ alookupD u.rbcEpochOutputs e [] :=
  hg.2.2.2.2.2.2.2.2.1 e x h

/-- Transport of a Grow-stable fact through a state write followed by an
arbitrary continuation. -/
theorem fact_bind_modify (P : CState → Prop) {g : CState → CState}
    {f : Unit → M Unit} {s : CState}
    (htrans : ∀ t u, Grow t u → P t → P u)
    (hP : P (g s))
    (hf : ∀ s2, Grow s2 (f () s2).st) :
    P ((modifyS g >>= f) s).st := by
  rw [modifyS_bind]
  exact htrans _ _ (hf (g s)) hP

/-- After handle_rbc_echo ran with at least one unit of fuel, the echo
author is recorded in the echo maker of its (epoch, height), whatever the
outcome: the aggregator append runs first and records or rejects. -/
theorem echo_after (ctx : Ctx) (n : ℕ) (v : EchoVote) (s : CState) :
    v.author ∈ echoUsed (exec ctx (n + 1) (.handleRBCEcho v) s).st.aggregator
      (v.epoch, v.height) := by
  simp only [exec]
  cases hv : (s.aggregator.addRBCEchoVote v).2 with
  | error e =>
    rw [liftAgg_bind_err _ _ _ _ hv]
    exact addEcho_mem s.aggregator v
  | ok a =>
    rw [liftAgg_bind _ _ _ _ hv]
    cases a with
    | none => exact addEcho_mem s.aggregator v
    | some proof =>
      refine grow_echoUsed { s with aggregator := (s.aggregator.addRBCEchoVote v).1 }
        ?_ (addEcho_mem s.aggregator v)
      refine grow_bind_modify_any (grow_proofs_ready _ _ _) ?_
      intro s3
      refine grow_bind_emit ?_
      exact grow_bind_any (exec_grow ctx n _ _) (fun _ s4 => exec_grow ctx n _ s4)

/-- After handle_rbc_ready ran with fuel, the ready author is recorded. -/
theorem ready_after (ctx : Ctx) (n : ℕ) (v : ReadyVote) (s : CState) :
    v.author ∈ readyUsed (exec ctx (n + 1) (.handleRBCReady v) s).st.aggregator
      (v.epoch, v.height) := by
  simp only [exec]
  cases hv : (s.aggregator.addRBCReadyVote v).2 with
  | error e =>
    rw [liftAgg_bind_err _ _ _ _ hv]
    exact addReady_mem s.aggregator v
  | ok a =>
    rw [liftAgg_bind _ _ _ _ hv]
    cases a with
    | none => exact addReady_mem s.aggregator v
    | some proof =>
      refine grow_readyUsed { s with aggregator := (s.aggregator.addRBCReadyVote v).1 }
        ?_ (addReady_mem s.aggregator v)
      refine grow_bind_getS ?_
      refine grow_bind_modify_any (grow_proofs_only _ _) ?_
      intro s3
      split
      · refine grow_bind_modify_any (grow_ready_only _ _) ?_
        intro s4
        refine grow_bind_emit ?_
        exact grow_bind_any (exec_grow ctx n _ _) (fun _ s5 => exec_grow ctx n _ s5)
      · split
        · exact exec_grow ctx n _ _
        · exact grow_pure _ _

/-- After handle_prepare ran with fuel, the prepare author is recorded. -/
theorem prepare_after (ctx : Ctx) (n : ℕ) (p : Prepare) (s : CState) :
    p.author ∈ prepUsed (exec ctx (n + 1) (.handlePrepare p) s).st.aggregator
      (p.epoch, p.height, p.phase) := by
  simp only [exec]
  cases hv : (s.aggregator.addPrepareVote p).2 with
  | error e =>
    rw [liftAgg_bind_err _ _ _ _ hv]
    exact addPrepare_mem s.aggregator p
  | ok a =>
    rw [liftAgg_bind _ _ _ _ hv]
    cases a with
    | none => exact addPrepare_mem s.aggregator p
    | some d =>
      refine grow_prepUsed { s with aggregator := (s.aggregator.addPrepareVote p).1 }
        ?_ (addPrepare_mem s.aggregator p)
      dsimp only
      split
      · split
        · exact exec_grow ctx n _ _
        · split
          · exact grow_emit _ _
          · exact grow_pure _ _
      · split
        · refine grow_bind_emit ?_
          exact exec_grow ctx n _ _
        · split
          · refine grow_bind_emit ?_
            exact exec_grow ctx n _ _
          · exact grow_pure _ _

/-- After handle_aba_share ran with fuel, the share author is recorded. -/
theorem coin_after (ctx : Ctx) (n : ℕ) (sh : RandomnessShare) (s : CState) :
    sh.author ∈ coinUsed (exec ctx (n + 1) (.handleABAShare sh) s).st.aggregator
      (sh.epoch, sh.height, sh.round) := by
  simp only [exec]
  cases hv : (s.aggregator.addABAShareCoin sh ctx.pkSet).2 with
  | error e =>
    rw [liftAgg_bind_err _ _ _ _ hv]
    exact addCoin_mem s.aggregator sh ctx.pkSet
  | ok a =>
    rw [liftAgg_bind _ _ _ _ hv]
    cases a with
    | none => exact addCoin_mem s.aggregator sh ctx.pkSet
    | some coin =>
      refine grow_coinUsed
        { s with aggregator := (s.aggregator.addABAShareCoin sh ctx.pkSet).1 }
        ?_ (addCoin_mem s.aggregator sh ctx.pkSet)
      dsimp only
      refine grow_bind_getS ?_
      refine grow_bind_modify_any (grow_muxFlags _ _) ?_
      intro s3
      split
      · exact grow_bind_any (exec_grow ctx n _ _) (fun _ s4 => exec_grow ctx n _ s4)
      · split
        · exact exec_grow ctx n _ _
        · exact exec_grow ctx n _ _

/-- After handle_aba_val ran with fuel on a binary value, the val author is
recorded in the VAL voter set of its slot. -/
theorem abaval_after (ctx : Ctx) (n : ℕ) (v : ABAVal) (s : CState)
    (hle : v.val ≤ 1) :
    v.author ∈ pget (alookupD (exec ctx (n + 1) (.handleABAVal v) s).st.abaValues
      (v.epoch, v.height, v.round) ([], [])) v.val := by
  simp only [exec]
  rw [ensureM_bind_pos hle, getS_bind, modifyS_bind]
  split
  · rename_i hdup
    rw [pure_apply]
    dsimp only
    rw [alookupD_aset_self]
    exact hdup
  · rw [modifyS_bind]
    split
    · rw [emit_bind]
      dsimp only
      rw [modifyS_bind]
      refine grow_abaValuesMem (exec_grow ctx n _ _) ?_
      dsimp only
      rw [alookupD_aset_self, pget_pset_self]
      refine mem_sinsert_of_mem _ _ _ ?_
      rw [pget_pset_self]
      exact mem_sinsert_self _ _
    · refine grow_abaValuesMem (exec_grow ctx n _ _) ?_
      dsimp only
      rw [alookupD_aset_self, pget_pset_self]
      exact mem_sinsert_self _ _

/-- After handle_aba_mux ran with fuel on a binary value, the mux author is
recorded in the MUX voter set of its slot. -/
theorem abamux_after (ctx : Ctx) (n : ℕ) (v : ABAVal) (s : CState)
    (hle : v.val ≤ 1) :
    v.author ∈ pget (alookupD (exec ctx (n + 1) (.handleABAMux v) s).st.abaMuxValues
      (v.epoch, v.height, v.round) ([], [])) v.val := by
  simp only [exec]
  rw [ensureM_bind_pos hle, getS_bind, modifyS_bind]
  split
  · rename_i hdup
    rw [pure_apply]
    dsimp only
    rw [alookupD_aset_self]
    exact hdup
  · refine fact_bind_modify
      (fun u => v.author ∈
        pget (alookupD u.abaMuxValues (v.epoch, v.height, v.round) ([], [])) v.val)
      (fun t u hg h => grow_abaMuxMem hg h) ?_ ?_
    · dsimp only
      rw [alookupD_aset_self, pget_pset_self]
      exact mem_sinsert_self _ _
    · intro s2
      refine grow_bind_getS ?_
      refine grow_bind_modify_any (grow_muxFlags _ _) ?_
      intro s4
      split
      · split
        · refine grow_bind_getS ?_
          refine grow_bind_modify_any (grow_valuesFlag _ _) ?_
          intro s5
          refine grow_bind_modify_any (grow_muxFlags _ _) ?_
          intro s6
          split
          · split
            · refine grow_bind_emit ?_
              exact exec_grow ctx n _ _
            · exact grow_pure _ _
          · split
            · split
              · refine grow_bind_emit ?_
                exact exec_grow ctx n _ _
              · exact grow_pure _ _
            · split
              · refine grow_bind_emit ?_
                exact exec_grow ctx n _ _
              · exact grow_pure _ _
        · split
          · refine grow_bind_emit ?_
            exact exec_grow ctx n _ _
          · exact grow_pure _ _
      · exact grow_pure _ _

/-- After handle_aba_output ran with fuel, the output author is recorded in
the output set of its slot. -/
theorem abaout_after (ctx : Ctx) (n : ℕ) (o : ABAOutput) (s : CState) :
    o.author ∈ alookupD (exec ctx (n + 1) (.handleABAOutput o) s).st.abaOutputs
      (o.epoch, o.height, o.round) [] := by
  simp only [exec]
  rw [getS_bind, modifyS_bind]
  split
  · rename_i hdup
    rw [pure_apply]
    dsimp only
    rw [alookupD_aset_self]
    exact hdup
  · rw [modifyS_bind]
    split
    · split
      · rw [pure_bind_apply]
        refine grow_abaOutputsMem (exec_grow ctx n _ _) ?_
        dsimp only
        rw [alookupD_aset_self]
        exact mem_sinsert_self _ _
      · rw [emit_bind]
        dsimp only
        rw [modifyS_bind]
        refine grow_abaOutputsMem (exec_grow ctx n _ _) ?_
        dsimp only
        rw [alookupD_aset_self]
        exact mem_sinsert_of_mem _ _ _ (mem_sinsert_self _ _)
    · rw [pure_apply]
      dsimp only
      rw [alookupD_aset_self]
      exact mem_sinsert_self _ _

/-- After process_rbc_output ran with fuel and the block of (e, h) is in the
store, the height h is recorded among epoch e's RBC outputs. -/
theorem rbcout_after (ctx : Ctx) (n : ℕ) (e h : ℕ) (s : CState)
    (hstore : (alookup s.store (Core.rank ctx.mbb e h ctx.committee)).isSome = true) :
    h ∈ alookupD (exec ctx (n + 1) (.processRBCOutput e h) s).st.rbcEpochOutputs
      e [] := by
  simp only [exec]
  rw [getS_bind, modifyS_bind]
  split
  · rename_i hmem
    rw [pure_apply]
    dsimp only
    rw [alookupD_aset_self]
    exact hmem
  · cases hlook : alookup s.store (Core.rank ctx.mbb e h ctx.committee) with
    | none =>
      rw [hlook] at hstore
      exact absurd hstore (by simp)
    | some b =>
      dsimp only
      rw [modifyS_bind, emit_bind]
      dsimp only
      split
      · refine grow_epochOutputsMem
          (grow_bind_any (exec_grow ctx n _ _) (fun _ s4 => exec_grow ctx n _ s4)) ?_
        dsimp only
        rw [alookupD_aset_self]
        exact mem_sinsert_self _ _
      · rw [pure_apply]
        dsimp only
        rw [alookupD_aset_self]
        exact mem_sinsert_self _ _

/-- After handle_rbc_val ran without running out of fuel, either the mempool
guard rejected the payload, or the block is recorded as delivered and this
node's own echo is in the echo maker. -/
theorem val_after (ctx : Ctx) (n : ℕ) (b : Block) (s : CState)
    (hval : (exec ctx (n + 1) (.handleRBCVal b) s).val ≠ .error .fuelOut) :
    handledFact ctx (.RBCValMsg b) (exec ctx (n + 1) (.handleRBCVal b) s).st := by
  simp only [exec, storeBlockM] at hval ⊢
  by_cases hg : 0 < ctx.exp ∧ ctx.mempoolVerify b = false
  · rw [if_pos hg]
    exact Or.inl hg
  · rw [if_neg hg] at hval ⊢
    rw [modifyS_bind, emit_bind] at hval ⊢
    dsimp only at hval ⊢
    cases n with
    | zero => exact absurd rfl hval
    | succ n2 =>
      refine Or.inr ⟨?_, ?_⟩
      · refine grow_buffersTrue (exec_grow ctx (n2 + 1) _ _) ?_
        dsimp only
        exact alookup_aset_self _ _ _
      · exact echo_after ctx n2 _ _

/-- After handle_sync_reply ran without running out of fuel, the block is
recorded as delivered and its height is among its epoch's RBC outputs. -/
theorem reply_after (ctx : Ctx) (n : ℕ) (b : Block) (s : CState)
    (hval : (exec ctx (n + 1) (.handleSyncReply b) s).val ≠ .error .fuelOut) :
    handledFact ctx (.SyncReplyMsg b) (exec ctx (n + 1) (.handleSyncReply b) s).st := by
  simp only [exec, storeBlockM] at hval ⊢
  rw [modifyS_bind] at hval ⊢
  cases n with
  | zero => exact absurd rfl hval
  | succ n2 =>
    refine ⟨?_, ?_⟩
    · refine grow_buffersTrue (exec_grow ctx (n2 + 1) _ _) ?_
      dsimp only
      exact alookup_aset_self _ _ _
    · refine rbcout_after ctx n2 b.epoch b.height _ ?_
      dsimp only
      rw [alookup_aset_self]
      rfl

/-- A completed handling of any inbound message arms that message's own
duplicate guard in the resulting state. -/
theorem exec_handledFact (ctx : Ctx) (n : ℕ) (m : ConsensusMessage) (s : CState)
    (hval : (exec ctx n (callOf m) s).val ≠ .error .fuelOut) :
    handledFact ctx m (exec ctx n (callOf m) s).st := by
  cases n with
  | zero => exact absurd rfl hval
  | succ n =>
    cases m with
    | RBCValMsg b => exact val_after ctx n b s hval
    | LoopBackMsg b => exact val_after ctx n b s hval
    | RBCEchoMsg v => exact echo_after ctx n v s
    | RBCReadyMsg v => exact ready_after ctx n v s
    | PrePareMsg p => exact prepare_after ctx n p s
    | ABACoinShareMsg sh => exact coin_after ctx n sh s
    | ABAValMsg v => exact fun hle => abaval_after ctx n v s hle
    | ABAMuxMsg v => exact fun hle => abamux_after ctx n v s hle
    | ABAOutputMsg o => exact abaout_after ctx n o s
    | SyncRequestMsg e h sender => exact trivial
    | SyncReplyMsg b => exact reply_after ctx n b s hval

/-- Replaying an RBC echo vote whose author the echo maker has recorded is
rejected by the first-vote guard: nothing changes and nothing is sent. -/
theorem replay_echo (ctx : Ctx) (n : ℕ) (v : EchoVote) (s1 : CState)
    (hf : v.author ∈ echoUsed s1.aggregator (v.epoch, v.height)) :
    (exec ctx n (.handleRBCEcho v) s1).st = s1 ∧
      (exec ctx n (.handleRBCEcho v) s1).out = [] := by
  cases n with
  | zero => exact ⟨rfl, rfl⟩
  | succ n =>
    have hd := addEcho_dup hf
    have he : (s1.aggregator.addRBCEchoVote v).2 =
        .error (.authorityReuseInRBCVote v.author) := by rw [hd]
    simp only [exec]
    rw [liftAgg_bind_err _ _ _ _ he]
    refine ⟨?_, rfl⟩
    show ({ s1 with aggregator := (s1.aggregator.addRBCEchoVote v).1 } : CState) = s1
    rw [hd]

/-- Replaying a recorded RBC ready vote is rejected silently. -/
theorem replay_ready (ctx : Ctx) (n : ℕ) (v : ReadyVote) (s1 : CState)
    (hf : v.author ∈ readyUsed s1.aggregator (v.epoch, v.height)) :
    (exec ctx n (.handleRBCReady v) s1).st = s1 ∧
      (exec ctx n (.handleRBCReady v) s1).out = [] := by
  cases n with
  | zero => exact ⟨rfl, rfl⟩
  | succ n =>
    have hd := addReady_dup hf
    have he : (s1.aggregator.addRBCReadyVote v).2 =
        .error (.authorityReuseInRBCVote v.author) := by rw [hd]
    simp only [exec]
    rw [liftAgg_bind_err _ _ _ _ he]
    refine ⟨?_, rfl⟩
    show ({ s1 with aggregator := (s1.aggregator.addRBCReadyVote v).1 } : CState) = s1
    rw [hd]

/-- Replaying a recorded prepare vote is rejected silently. -/
theorem replay_prepare (ctx : Ctx) (n : ℕ) (p : Prepare) (s1 : CState)
    (hf : p.author ∈ prepUsed s1.aggregator (p.epoch, p.height, p.phase)) :
    (exec ctx n (.handlePrepare p) s1).st = s1 ∧
      (exec ctx n (.handlePrepare p) s1).out = [] := by
  cases n with
  | zero => exact ⟨rfl, rfl⟩
  | succ n =>
    have hd := addPrepare_dup hf
    have he : (s1.aggregator.addPrepareVote p).2 =
        .error (.authorityReuseInPrepare p.author) := by rw [hd]
    simp only [exec]
    rw [liftAgg_bind_err _ _ _ _ he]
    refine ⟨?_, rfl⟩
    show ({ s1 with aggregator := (s1.aggregator.addPrepareVote p).1 } : CState) = s1
    rw [hd]

/-- Replaying a recorded randomness share is rejected silently. -/
theorem replay_coin (ctx : Ctx) (n : ℕ) (sh : RandomnessShare) (s1 : CState)
    (hf : sh.author ∈ coinUsed s1.aggregator (sh.epoch, sh.height, sh.round)) :
    (exec ctx n (.handleABAShare sh) s1).st = s1 ∧
      (exec ctx n (.handleABAShare sh) s1).out = [] := by
  cases n with
  | zero => exact ⟨rfl, rfl⟩
  | succ n =>
    have hd := addCoin_dup ctx.pkSet hf
    have he : (s1.aggregator.addABAShareCoin sh ctx.pkSet).2 =
        .error (.authorityReuseInCoin sh.author) := by rw [hd]
    simp only [exec]
    rw [liftAgg_bind_err _ _ _ _ he]
    refine ⟨?_, rfl⟩
    show ({ s1 with aggregator := (s1.aggregator.addABAShareCoin sh ctx.pkSet).1 } :
      CState) = s1
    rw [hd]

/-- Replaying an ABA VAL vote whose author is already in the voter set stops
at the duplicate guard, with the entry write a literal no-op. -/
theorem replay_abaval (ctx : Ctx) (n : ℕ) (v : ABAVal) (s1 : CState)
    (hf : v.val ≤ 1 → v.author ∈
      pget (alookupD s1.abaValues (v.epoch, v.height, v.round) ([], [])) v.val) :
    (exec ctx n (.handleABAVal v) s1).st = s1 ∧
      (exec ctx n (.handleABAVal v) s1).out = [] := by
  cases n with
  | zero => exact ⟨rfl, rfl⟩
  | succ n =>
    simp only [exec]
    by_cases hle : v.val ≤ 1
    · rw [ensureM_bind_pos hle, getS_bind, modifyS_bind]
      have hmem := hf hle
      have hkey : alookup s1.abaValues (v.epoch, v.height, v.round) =
          some (alookupD s1.abaValues (v.epoch, v.height, v.round) ([], [])) :=
        alookupD_present
          (fun (c : List PublicKey × List PublicKey) => v.author ∈ pget c v.val)
          hmem (by simp [pget])
      have hgs : ({ s1 with
          abaValues := aset s1.abaValues (v.epoch, v.height, v.round)
            (alookupD s1.abaValues (v.epoch, v.height, v.round) ([], [])) } :
          CState) = s1 := by
        rw [aset_self _ _ _ hkey]
      rw [hgs, if_pos hmem]
      exact ⟨rfl, rfl⟩
    · rw [ensureM_bind_neg hle]
      exact ⟨rfl, rfl⟩

/-- Replaying an ABA MUX vote whose author is already in the voter set stops
at the duplicate guard. -/
theorem replay_abamux (ctx : Ctx) (n : ℕ) (v : ABAVal) (s1 : CState)
    (hf : v.val ≤ 1 → v.author ∈
      pget (alookupD s1.abaMuxValues (v.epoch, v.height, v.round) ([], [])) v.val) :
    (exec ctx n (.handleABAMux v) s1).st = s1 ∧
      (exec ctx n (.handleABAMux v) s1).out = [] := by
  cases n with
  | zero => exact ⟨rfl, rfl⟩
  | succ n =>
    simp only [exec]
    by_cases hle : v.val ≤ 1
    · rw [ensureM_bind_pos hle, getS_bind, modifyS_bind]
      have hmem := hf hle
      have hkey : alookup s1.abaMuxValues (v.epoch, v.height, v.round) =
          some (alookupD s1.abaMuxValues (v.epoch, v.height, v.round) ([], [])) :=
        alookupD_present
          (fun (c : List PublicKey × List PublicKey) => v.author ∈ pget c v.val)
          hmem (by simp [pget])
      have hgs : ({ s1 with
          abaMuxValues := aset s1.abaMuxValues (v.epoch, v.height, v.round)
            (alookupD s1.abaMuxValues (v.epoch, v.height, v.round) ([], [])) } :
          CState) = s1 := by
        rw [aset_self _ _ _ hkey]
      rw [hgs, if_pos hmem]
      exact ⟨rfl, rfl⟩
    · rw [ensureM_bind_neg hle]
      exact ⟨rfl, rfl⟩

/-- Replaying an ABA output whose author is already in the output set stops
at the duplicate guard. -/
theorem replay_abaout (ctx : Ctx) (n : ℕ) (o : ABAOutput) (s1 : CState)
    (hf : o.author ∈ alookupD s1.abaOutputs (o.epoch, o.height, o.round) []) :
    (exec ctx n (.handleABAOutput o) s1).st = s1 ∧
      (exec ctx n (.handleABAOutput o) s1).out = [] := by
  cases n with
  | zero => exact ⟨rfl, rfl⟩
  | succ n =>
    simp only [exec]
    rw [getS_bind, modifyS_bind]
    have hkey : alookup s1.abaOutputs (o.epoch, o.height, o.round) =
        some (alookupD s1.abaOutputs (o.epoch, o.height, o.round) []) :=
      alookupD_present (fun (c : List PublicKey) => o.author ∈ c) hf (by simp)
    have hgs : ({ s1 with
        abaOutputs := aset s1.abaOutputs (o.epoch, o.height, o.round)
          (alookupD s1.abaOutputs (o.epoch, o.height, o.round) []) } :
        CState) = s1 := by
      rw [aset_self _ _ _ hkey]
    rw [hgs, if_pos hf]
    exact ⟨rfl, rfl⟩

/-- Replaying process_rbc_output for a height already recorded among the
epoch's outputs stops at the outputs guard. -/
theorem replay_rbcout (ctx : Ctx) (n : ℕ) (e h : ℕ) (s1 : CState)
    (hf : h ∈ alookupD s1.rbcEpochOutputs e []) :
    (exec ctx n (.processRBCOutput e h) s1).st = s1 ∧
      (exec ctx n (.processRBCOutput e h) s1).out = [] := by
  cases n with
  | zero => exact ⟨rfl, rfl⟩
  | succ n =>
    simp only [exec]
    rw [getS_bind, modifyS_bind]
    have hkey : alookup s1.rbcEpochOutputs e =
        some (alookupD s1.rbcEpochOutputs e []) :=
      alookupD_present (fun (c : List ℕ) => h ∈ c) hf (by simp)
    have hgs : ({ s1 with
        rbcEpochOutputs := aset s1.rbcEpochOutputs e
          (alookupD s1.rbcEpochOutputs e []) } : CState) = s1 := by
      rw [aset_self _ _ _ hkey]
    rw [hgs, if_pos hf]
    exact ⟨rfl, rfl⟩

/-- Replaying a sync request leaves the state unchanged (it only re-reads
the store and possibly re-sends the reply). -/
theorem replay_syncreq (ctx : Ctx) (n : ℕ) (e h : ℕ) (sender : PublicKey)
    (s1 : CState) :
    (exec ctx n (.handleSyncRequest e h sender) s1).st = s1 := by
  cases n with
  | zero => rfl
  | succ n =>
    simp only [exec]
    rw [getS_bind]
    cases alookup s1.store (Core.rank ctx.mbb e h ctx.committee) with
    | some b => rfl
    | none => rfl

/-- Replaying an RBCVal (or LoopBack) after a completed first delivery
re-stores the same block, re-marks the same buffer entry and re-broadcasts
the echo vote, which then dies at the echo maker's first-vote guard: the
state is unchanged apart from the store write. -/
theorem replay_val (ctx : Ctx) (n : ℕ) (b : Block) (s1 : CState)
    (hf : handledFact ctx (.RBCValMsg b) s1) :
    sansStore (exec ctx n (.handleRBCVal b) s1).st = sansStore s1 := by
  cases n with
  | zero => rfl
  | succ n =>
    simp only [exec, storeBlockM]
    by_cases hguard : 0 < ctx.exp ∧ ctx.mempoolVerify b = false
    · rw [if_pos hguard]
      rfl
    · rcases hf with hl | ⟨hbuf, hecho⟩
      · exact absurd hl hguard
      · rw [if_neg hguard]
        rw [modifyS_bind, emit_bind]
        dsimp only
        have hecho2 : (⟨ctx.name, b.epoch, b.height, b, ()⟩ : EchoVote).author ∈
            echoUsed ({ s1 with
              buffers := aset s1.buffers (b.epoch, b.height) true
              store := aset s1.store
                (Core.rank ctx.mbb b.epoch b.height ctx.committee) b } :
              CState).aggregator
            ((⟨ctx.name, b.epoch, b.height, b, ()⟩ : EchoVote).epoch,
             (⟨ctx.name, b.epoch, b.height, b, ()⟩ : EchoVote).height) := hecho
        rw [(replay_echo ctx n ⟨ctx.name, b.epoch, b.height, b, ()⟩
          { s1 with
            buffers := aset s1.buffers (b.epoch, b.height) true
            store := aset s1.store
              (Core.rank ctx.mbb b.epoch b.height ctx.committee) b }
          hecho2).1]
        unfold sansStore
        rw [aset_self _ _ _ hbuf]

/-- Replaying a sync reply re-stores the block and re-marks delivery, then
stops at the epoch-outputs guard of process_rbc_output: the state is
unchanged apart from the store write, and nothing is sent. -/
theorem replay_reply (ctx : Ctx) (n : ℕ) (b : Block) (s1 : CState)
    (hf : handledFact ctx (.SyncReplyMsg b) s1) :
    sansStore (exec ctx n (.handleSyncReply b) s1).st = sansStore s1 ∧
      (exec ctx n (.handleSyncReply b) s1).out = [] := by
  obtain ⟨hbuf, hout⟩ := hf
  cases n with
  | zero => exact ⟨rfl, rfl⟩
  | succ n =>
    simp only [exec, storeBlockM]
    rw [modifyS_bind]
    have hout2 : b.height ∈ alookupD ({ s1 with
        buffers := aset s1.buffers (b.epoch, b.height) true
        store := aset s1.store
          (Core.rank ctx.mbb b.epoch b.height ctx.committee) b } :
        CState).rbcEpochOutputs b.epoch [] := hout
    have hrep := replay_rbcout ctx n b.epoch b.height
      { s1 with
        buffers := aset s1.buffers (b.epoch, b.height) true
        store := aset s1.store
          (Core.rank ctx.mbb b.epoch b.height ctx.committee) b }
      hout2
    rw [hrep.1, hrep.2]
    refine ⟨?_, rfl⟩
    unfold sansStore
    rw [aset_self _ _ _ hbuf]

/-- Replay of any message against a state whose duplicate guard for that
message is armed: the core state is unchanged apart from the store write,
and the silent kinds emit nothing. -/
theorem exec_replay (ctx : Ctx) (n2 : ℕ) (m : ConsensusMessage) (s1 : CState)
    (hf : handledFact ctx m s1) :
    sansStore (exec ctx n2 (callOf m) s1).st = sansStore s1 ∧
      (replaySilent m → (exec ctx n2 (callOf m) s1).out = []) := by
  cases m with
  | RBCValMsg b => exact ⟨replay_val ctx n2 b s1 hf, fun hs => hs.elim⟩
  | LoopBackMsg b => exact ⟨replay_val ctx n2 b s1 hf, fun hs => hs.elim⟩
  | RBCEchoMsg v =>
    obtain ⟨h1, h2⟩ := replay_echo ctx n2 v s1 hf
    exact ⟨by simp only [callOf]; rw [h1], fun _ => h2⟩
  | RBCReadyMsg v =>
    obtain ⟨h1, h2⟩ := replay_ready ctx n2 v s1 hf
    exact ⟨by simp only [callOf]; rw [h1], fun _ => h2⟩
  | PrePareMsg p =>
    obtain ⟨h1, h2⟩ := replay_prepare ctx n2 p s1 hf
    exact ⟨by simp only [callOf]; rw [h1], fun _ => h2⟩
  | ABACoinShareMsg sh =>
    obtain ⟨h1, h2⟩ := replay_coin ctx n2 sh s1 hf
    exact ⟨by simp only [callOf]; rw [h1], fun _ => h2⟩
  | ABAValMsg v =>
    obtain ⟨h1, h2⟩ := replay_abaval ctx n2 v s1 hf
    exact ⟨by simp only [callOf]; rw [h1], fun _ => h2⟩
  | ABAMuxMsg v =>
    obtain ⟨h1, h2⟩ := replay_abamux ctx n2 v s1 hf
    exact ⟨by simp only [callOf]; rw [h1], fun _ => h2⟩
  | ABAOutputMsg o =>
    obtain ⟨h1, h2⟩ := replay_abaout ctx n2 o s1 hf
    exact ⟨by simp only [callOf]; rw [h1], fun _ => h2⟩
  | SyncRequestMsg e h sender =>
    exact ⟨by simp only [callOf]; rw [replay_syncreq ctx n2 e h sender s1],
      fun hs => hs.elim⟩
  | SyncReplyMsg b =>
    obtain ⟨h1, h2⟩ := replay_reply ctx n2 b s1 hf
    exact ⟨h1, fun _ => h2⟩

/-- Replay through the run loop: the fault floor is deterministic, so either
both deliveries are skipped or both dispatch, and dispatch replays are
covered by exec_replay with the facts of the first completed handling. -/
theorem stepRun_replay (ctx : Ctx) (n1 n2 : ℕ) (m : ConsensusMessage)
    (s : CState) (h1 : (stepRun ctx n1 (.recv m) s).val ≠ .error .fuelOut) :
    sansStore (stepRun ctx n2 (.recv m) (stepRun ctx n1 (.recv m) s).st).st =
      sansStore (stepRun ctx n1 (.recv m) s).st ∧
    (replaySilent m →
      (stepRun ctx n2 (.recv m) (stepRun ctx n1 (.recv m) s).st).out = []) := by
  simp only [stepRun, recvStep] at h1 ⊢
  by_cases hfa : s.height < ctx.fault
  · rw [if_pos hfa]
    dsimp only
    rw [if_pos hfa]
    exact ⟨rfl, fun _ => rfl⟩
  · rw [if_neg hfa] at h1 ⊢
    by_cases hfa2 : (exec ctx n1 (callOf m) s).st.height < ctx.fault
    · rw [if_pos hfa2]
      exact ⟨rfl, fun _ => rfl⟩
    · rw [if_neg hfa2]
      exact exec_replay ctx n2 m _ (exec_handledFact ctx n1 m s h1)

/-- C3: amended. Replaying an inbound message is not entirely ignored as
claimed: the counterexample shows a second RBCVal re-broadcasts this node's
EchoVote (handle_rbc_val has no delivered-guard before store_block and the
echo broadcast).  What does hold, whenever the first handling was not
truncated by the embedding's fuel: a replay leaves the core state unchanged
except for rewriting the store slot of the block's rank, and every kind
except RBCVal, LoopBack and SyncRequest replays silently (RBCVal and
LoopBack re-broadcast the echo before dying at the echo maker's first-vote
guard, and SyncRequest re-sends the stored-block reply). -/
theorem C3_replay_no_state_change (ctx : Ctx) (m : ConsensusMessage)
    (n1 n2 : ℕ) (s : CState)
    (h1 : (stepRun ctx n1 (.recv m) s).val ≠ .error .fuelOut) :
    sansStore (stepRun ctx n2 (.recv m) (stepRun ctx n1 (.recv m) s).st).st =
      sansStore (stepRun ctx n1 (.recv m) s).st ∧
    (replaySilent m →
      (stepRun ctx n2 (.recv m) (stepRun ctx n1 (.recv m) s).st).out = []) :=
  stepRun_replay ctx n1 n2 m s h1

/-- Witness for C3 at a concrete silent replay: node 0 handles ABAVal from
author 1 once from the post-proposal state, then replays it: the replay
leaves the state unchanged and emits nothing. -/
theorem C3_witness :
    (stepRun ctx4 20 (.recv (abaValMsg 1 0)) state0).val ≠ .error .fuelOut ∧
    (sansStore (stepRun ctx4 20 (.recv (abaValMsg 1 0))
        (stepRun ctx4 20 (.recv (abaValMsg 1 0)) state0).st).st =
      sansStore (stepRun ctx4 20 (.recv (abaValMsg 1 0)) state0).st ∧
    (replaySilent (abaValMsg 1 0) →
      (stepRun ctx4 20 (.recv (abaValMsg 1 0))
        (stepRun ctx4 20 (.recv (abaValMsg 1 0)) state0).st).out = [])) :=
  ⟨by decide, C3_replay_no_state_change ctx4 (abaValMsg 1 0) 20 20 state0 (by decide)⟩

end FlexHBBFT
